import Mathlib

/-!
micro-dlc: graph IR, fusion pass, code generator and cost simulator.

A shallow embedding of the C++ sources

* `include/ir/graph.h`, `src/ir/graph.cpp` (namespace `dlcompiler::ir`),
* `src/optimizer/optimizer.cpp` (namespace `dlcompiler::optimizer`),
* `src/codegen/codegen.cpp` (namespace `dlcompiler::codegen`),
* `include/simulator/simulator.h`, `src/simulator/simulator.cpp`
  (namespace `dlcompiler::simulator`),

followed by theorems about the embedded functions.

Conventions of the embedding:

* `int` and `int64_t` quantities are integers (`Int`, or `Nat` for identifiers and
  positions).  Overflow of `int64_t` arithmetic is undefined behaviour in C++; for it the
  embedding describes the executions in which no operation leaves the range of the type.
* Three computations are reduced to the width of their type, because they leave it on
  configurations and shapes that the program accepts.  The byte sizes of the code generator
  are computed in `size_t` (`numel() * sizeof(float)`), which wraps modulo `2 ^ 64` by
  definition, and stored in `int64_t`: `wrapInt64`.  The products `size_kb * 1024` of the
  cache model and `compute_units * simd_width` of the simulator are products of two 32-bit
  `int`; where such a product leaves the range of `int` the behaviour is undefined, and the
  embedding gives the two's complement value that the compiled program computes:
  `wrapInt32`.
* Integer division `/` of C++ truncates toward zero: `Int.tdiv`.
* A pointer `Value*` or `Node*` is the position of the pointee in the owning table
  (`values_`, `nodes_`) of the graph: the tables only ever grow at the end, so positions are
  stable, and pointer equality is equality of positions.
* An element read `dims[i]` past the end of the vector, a read through a pointer that is not a
  position of the table, and a division by zero are undefined behaviour in C++.  The embedded
  functions are total; they read `0` (an empty shape) there.
* `std::unordered_map<std::string, int64_t>` is an association list with unique keys.
* A `double` is a rational number, and every floating point operation (and every conversion
  from an integer) returns `rnd` of the exact result, where `rnd : ℚ → ℚ` is the rounding
  function of the machine, a parameter of the embedding.  Infinities and NaN are not modelled.
  `static_cast<int64_t>` of a double truncates toward zero.
* Console output (`std::cout`) is not modelled.
-/

namespace dlcompiler

/-! ## Machine integers -/

/-- The value of a 32-bit `int` that holds `x` modulo `2 ^ 32` (two's complement). -/
def wrapInt32 (x : Int) : Int := (x + 2147483648) % 4294967296 - 2147483648

/-- The value of an `int64_t` that holds `x` modulo `2 ^ 64` (two's complement). -/
def wrapInt64 (x : Int) : Int :=
  (x + 9223372036854775808) % 18446744073709551616 - 9223372036854775808

/-! ## ir: shapes, operator kinds, values, nodes (`graph.h`) -/

/-- Tensor shape: `std::vector<int64_t> dims`. -/
structure Shape where
  dims : List Int
deriving DecidableEq

/-- The loop of `Shape::numel`: `n *= d` for every dimension `d`. -/
def Shape.numel (s : Shape) : Int :=
  s.dims.foldl (fun n d => n * d) 1

/-- Element read `dims[i]`. -/
def Shape.dim (s : Shape) (i : Nat) : Int :=
  s.dims.getD i 0

/-- Operator kinds: `enum class OpType`. -/
inductive OpType where
  | INPUT
  | OUTPUT
  | CONV2D
  | MATMUL
  | RELU
  | ADD
  | MAXPOOL
  | BATCHNORM
  | FUSED_CONV_RELU
  | FUSED_MATMUL_ADD
deriving DecidableEq

/-- Display name of an operator kind: `opTypeToString`. -/
def opTypeToString : OpType → String
  | .INPUT => "Input"
  | .OUTPUT => "Output"
  | .CONV2D => "Conv2D"
  | .MATMUL => "MatMul"
  | .RELU => "ReLU"
  | .ADD => "Add"
  | .MAXPOOL => "MaxPool"
  | .BATCHNORM => "BatchNorm"
  | .FUSED_CONV_RELU => "FusedConvReLU"
  | .FUSED_MATMUL_ADD => "FusedMatMulAdd"

/-- Tensor value of the graph: `class Value`. -/
structure Value where
  id : Nat
  shape : Shape
deriving DecidableEq

/-- Operation node: `class Node`.  `inputs` and `outputs` hold `Value*`, that is positions in
the value table of the graph. -/
structure Node where
  id : Nat
  type : OpType
  inputs : List Nat
  outputs : List Nat
  int_attrs : List (String × Int)
deriving DecidableEq

/-- The constructor `Node(int id, OpType type)`. -/
def Node.new (id : Nat) (type : OpType) : Node :=
  { id := id, type := type, inputs := [], outputs := [], int_attrs := [] }

/-- Mutator `Node::setType`. -/
def Node.setType (n : Node) (type : OpType) : Node :=
  { n with type := type }

/-- Mutator `Node::addInput`: `inputs_.push_back(v)`. -/
def Node.addInput (n : Node) (v : Nat) : Node :=
  { n with inputs := n.inputs ++ [v] }

/-- Mutator `Node::addOutput`: `outputs_.push_back(v)`. -/
def Node.addOutput (n : Node) (v : Nat) : Node :=
  { n with outputs := n.outputs ++ [v] }

/-- Mutator `Node::setAttr`: `int_attrs_[key] = value`. -/
def Node.setAttr (n : Node) (key : String) (value : Int) : Node :=
  { n with int_attrs := (key, value) :: n.int_attrs.filter (fun kv => kv.1 ≠ key) }

/-- Lookup `Node::getAttr` with its default value. -/
def Node.getAttr (n : Node) (key : String) (default_val : Int) : Int :=
  match n.int_attrs.find? (fun kv => kv.1 = key) with
  | some kv => kv.2
  | none => default_val

/-! ## ir: the graph and its builder (`graph.cpp`) -/

/-- Computation graph: `class Graph`. -/
structure Graph where
  nodes : List Node
  values : List Value
  next_node_id : Nat
  next_value_id : Nat
deriving DecidableEq

/-- The graph made by `Graph::create`. -/
def Graph.create : Graph :=
  { nodes := [], values := [], next_node_id := 0, next_value_id := 0 }

/-- Counter `Graph::numNodes`. -/
def Graph.numNodes (g : Graph) : Nat := g.nodes.length

/-- Counter `Graph::numValues`. -/
def Graph.numValues (g : Graph) : Nat := g.values.length

/-- Read of the shape behind a `Value*`: `v->shape()`. -/
def Graph.shapeOf (g : Graph) (v : Nat) : Shape :=
  match g.values[v]? with
  | some x => x.shape
  | none => { dims := [] }

/-- Write through a `Node*`: the node at position `p` becomes `f` of itself. -/
def Graph.updNode (g : Graph) (p : Nat) (f : Node → Node) : Graph :=
  match g.nodes[p]? with
  | some n => { g with nodes := g.nodes.set p (f n) }
  | none => g

/-- Private helper `Graph::createNode`; returns the new graph and the position of the node. -/
def Graph.createNode (g : Graph) (type : OpType) : Graph × Nat :=
  ({ g with nodes := g.nodes ++ [Node.new g.next_node_id type],
            next_node_id := g.next_node_id + 1 }, g.nodes.length)

/-- Private helper `Graph::createValue`; returns the new graph and the position of the
value. -/
def Graph.createValue (g : Graph) (shape : Shape) : Graph × Nat :=
  ({ g with values := g.values ++ [{ id := g.next_value_id, shape := shape }],
            next_value_id := g.next_value_id + 1 }, g.values.length)

/-- Builder `Graph::addInput`. -/
def Graph.addInput (g : Graph) (shape : Shape) : Graph × Nat :=
  let (g1, node) := g.createNode .INPUT
  let (g2, output) := g1.createValue shape
  (g2.updNode node (fun n => n.addOutput output), output)

/-- Builder `Graph::addOutput`. -/
def Graph.addOutput (g : Graph) (input : Nat) : Graph × Nat :=
  let (g1, node) := g.createNode .OUTPUT
  let g2 := g1.updNode node (fun n => n.addInput input)
  let (g3, output) := g2.createValue (g2.shapeOf input)
  (g3.updNode node (fun n => n.addOutput output), output)

/-- Builder `Graph::addConv2D`. -/
def Graph.addConv2D (g : Graph) (input : Nat) (out_channels kernel_size stride padding : Int) :
    Graph × Nat :=
  let (g1, node) := g.createNode .CONV2D
  let g2 := g1.updNode node (fun n => n.addInput input)
  let g3 := g2.updNode node (fun n => n.setAttr "out_channels" out_channels)
  let g4 := g3.updNode node (fun n => n.setAttr "kernel_size" kernel_size)
  let g5 := g4.updNode node (fun n => n.setAttr "stride" stride)
  let g6 := g5.updNode node (fun n => n.setAttr "padding" padding)
  let in_shape := g6.shapeOf input
  let h_out := Int.tdiv (in_shape.dim 2 + 2 * padding - kernel_size) stride + 1
  let w_out := Int.tdiv (in_shape.dim 3 + 2 * padding - kernel_size) stride + 1
  let out_shape : Shape := { dims := [in_shape.dim 0, out_channels, h_out, w_out] }
  let (g7, output) := g6.createValue out_shape
  (g7.updNode node (fun n => n.addOutput output), output)

/-- Builder `Graph::addMatMul`. -/
def Graph.addMatMul (g : Graph) (a b : Nat) : Graph × Nat :=
  let (g1, node) := g.createNode .MATMUL
  let g2 := g1.updNode node (fun n => n.addInput a)
  let g3 := g2.updNode node (fun n => n.addInput b)
  let a_shape := g3.shapeOf a
  let b_shape := g3.shapeOf b
  let out_shape : Shape := { dims := [a_shape.dim 0, b_shape.dim 1] }
  let (g4, output) := g3.createValue out_shape
  (g4.updNode node (fun n => n.addOutput output), output)

/-- Builder `Graph::addReLU`. -/
def Graph.addReLU (g : Graph) (input : Nat) : Graph × Nat :=
  let (g1, node) := g.createNode .RELU
  let g2 := g1.updNode node (fun n => n.addInput input)
  let (g3, output) := g2.createValue (g2.shapeOf input)
  (g3.updNode node (fun n => n.addOutput output), output)

/-- Builder `Graph::addAdd`. -/
def Graph.addAdd (g : Graph) (a b : Nat) : Graph × Nat :=
  let (g1, node) := g.createNode .ADD
  let g2 := g1.updNode node (fun n => n.addInput a)
  let g3 := g2.updNode node (fun n => n.addInput b)
  let (g4, output) := g3.createValue (g3.shapeOf a)
  (g4.updNode node (fun n => n.addOutput output), output)

/-- Builder `Graph::addMaxPool`. -/
def Graph.addMaxPool (g : Graph) (input : Nat) (kernel_size stride : Int) : Graph × Nat :=
  let (g1, node) := g.createNode .MAXPOOL
  let g2 := g1.updNode node (fun n => n.addInput input)
  let g3 := g2.updNode node (fun n => n.setAttr "kernel_size" kernel_size)
  let g4 := g3.updNode node (fun n => n.setAttr "stride" stride)
  let in_shape := g4.shapeOf input
  let h_out := Int.tdiv (in_shape.dim 2 - kernel_size) stride + 1
  let w_out := Int.tdiv (in_shape.dim 3 - kernel_size) stride + 1
  let out_shape : Shape := { dims := [in_shape.dim 0, in_shape.dim 1, h_out, w_out] }
  let (g5, output) := g4.createValue out_shape
  (g5.updNode node (fun n => n.addOutput output), output)

/-- Accessor `Graph::getNodes`: the pointers to all nodes, in creation order. -/
def Graph.getNodes (g : Graph) : List Nat :=
  List.range g.nodes.length

/-- The loop of `Graph::getNodesInTopoOrder` over the nodes that remain, the first of them at
position `p`; `visited` is the set of identifiers seen, `result` the pointers pushed. -/
def topoLoop : List Node → Nat → List Nat → List Nat → List Nat
  | [], _, _, result => result
  | node :: rest, p, visited, result =>
    if node.id ∈ visited then topoLoop rest (p + 1) visited result
    else topoLoop rest (p + 1) (node.id :: visited) (result ++ [p])

/-- Accessor `Graph::getNodesInTopoOrder`: pointers to the nodes, each identifier once. -/
def Graph.getNodesInTopoOrder (g : Graph) : List Nat :=
  topoLoop g.nodes 0 [] []

/-- One call of the public builder interface of `Graph`, with its arguments. -/
inductive BuilderCall where
  | addInput (shape : Shape)
  | addOutput (input : Nat)
  | addConv2D (input : Nat) (out_channels kernel_size stride padding : Int)
  | addMatMul (a b : Nat)
  | addReLU (input : Nat)
  | addAdd (a b : Nat)
  | addMaxPool (input : Nat) (kernel_size stride : Int)

/-- The `Value*` arguments of a builder call. -/
def BuilderCall.args : BuilderCall → List Nat
  | .addInput _ => []
  | .addOutput input => [input]
  | .addConv2D input _ _ _ _ => [input]
  | .addMatMul a b => [a, b]
  | .addReLU input => [input]
  | .addAdd a b => [a, b]
  | .addMaxPool input _ _ => [input]

/-- Running a builder call on a graph: the new graph and the returned `Value*`. -/
def BuilderCall.run (g : Graph) : BuilderCall → Graph × Nat
  | .addInput shape => g.addInput shape
  | .addOutput input => g.addOutput input
  | .addConv2D input out_channels kernel_size stride padding =>
    g.addConv2D input out_channels kernel_size stride padding
  | .addMatMul a b => g.addMatMul a b
  | .addReLU input => g.addReLU input
  | .addAdd a b => g.addAdd a b
  | .addMaxPool input kernel_size stride => g.addMaxPool input kernel_size stride

/-- Graphs reachable from the empty graph by builder calls, each call referencing only values
that the graph already holds. -/
inductive Built : Graph → Prop where
  | create : Built Graph.create
  | call (g : Graph) (c : BuilderCall) : Built g → (∀ v ∈ c.args, v < g.values.length) →
      Built (c.run g).1

/-! ## optimizer: the fusion pass (`optimizer.cpp`) -/

/-- The test of the inner loop of `fuseConvReLU` on the node behind `q`: a RELU whose only
input is `conv_output`. -/
def isReLUOn (g : Graph) (q conv_output : Nat) : Bool :=
  match g.nodes[q]? with
  | some next_node =>
    decide (next_node.type = .RELU) && decide (next_node.inputs.length = 1) &&
      decide (next_node.inputs[0]? = some conv_output)
  | none => false

/-- The inner loop of `fuseConvReLU` over the later nodes: at the first match the node behind
`p` is retyped, `changed` is set and the loop is left. -/
def fuseConvReLUInner : List Nat → Graph → Nat → Nat → Bool → Graph × Bool
  | [], g, _, _, changed => (g, changed)
  | q :: later, g, p, conv_output, changed =>
    if isReLUOn g q conv_output then
      (g.updNode p (fun n => n.setType .FUSED_CONV_RELU), true)
    else fuseConvReLUInner later g p conv_output changed

/-- The outer loop of `fuseConvReLU` over the node pointers that remain. -/
def fuseConvReLULoop : List Nat → Graph → Bool → Graph × Bool
  | [], g, changed => (g, changed)
  | p :: later, g, changed =>
    match g.nodes[p]? with
    | some node =>
      if node.type = .CONV2D ∧ node.outputs.length = 1 then
        let conv_output := node.outputs.getD 0 0
        let r := fuseConvReLUInner later g p conv_output changed
        fuseConvReLULoop later r.1 r.2
      else fuseConvReLULoop later g changed
    | none => fuseConvReLULoop later g changed

/-- Rewrite `FusionPass::fuseConvReLU`; returns the graph and the flag `changed`. -/
def FusionPass.fuseConvReLU (g : Graph) : Graph × Bool :=
  fuseConvReLULoop g.getNodesInTopoOrder g false

/-- The test of the inner loop of `fuseMatMulAdd` on the node behind `q`: an ADD with two
inputs, one of them `matmul_output`. -/
def isAddOn (g : Graph) (q matmul_output : Nat) : Bool :=
  match g.nodes[q]? with
  | some next_node =>
    decide (next_node.type = .ADD) && decide (next_node.inputs.length = 2) &&
      (decide (next_node.inputs[0]? = some matmul_output) ||
        decide (next_node.inputs[1]? = some matmul_output))
  | none => false

/-- The inner loop of `fuseMatMulAdd` over the later nodes. -/
def fuseMatMulAddInner : List Nat → Graph → Nat → Nat → Bool → Graph × Bool
  | [], g, _, _, changed => (g, changed)
  | q :: later, g, p, matmul_output, changed =>
    if isAddOn g q matmul_output then
      (g.updNode p (fun n => n.setType .FUSED_MATMUL_ADD), true)
    else fuseMatMulAddInner later g p matmul_output changed

/-- The outer loop of `fuseMatMulAdd` over the node pointers that remain. -/
def fuseMatMulAddLoop : List Nat → Graph → Bool → Graph × Bool
  | [], g, changed => (g, changed)
  | p :: later, g, changed =>
    match g.nodes[p]? with
    | some node =>
      if node.type = .MATMUL ∧ node.outputs.length = 1 then
        let matmul_output := node.outputs.getD 0 0
        let r := fuseMatMulAddInner later g p matmul_output changed
        fuseMatMulAddLoop later r.1 r.2
      else fuseMatMulAddLoop later g changed
    | none => fuseMatMulAddLoop later g changed

/-- Rewrite `FusionPass::fuseMatMulAdd`; returns the graph and the flag `changed`. -/
def FusionPass.fuseMatMulAdd (g : Graph) : Graph × Bool :=
  fuseMatMulAddLoop g.getNodesInTopoOrder g false

/-- Pass `FusionPass::run`: both rewrites, flags combined with `|=`. -/
def FusionPass.run (g : Graph) : Graph × Bool :=
  let r1 := FusionPass.fuseConvReLU g
  let changed := false || r1.2
  let r2 := FusionPass.fuseMatMulAdd r1.1
  (r2.1, changed || r2.2)

/-! ## codegen: instructions and the code generator (`codegen.h`, `codegen.cpp`) -/

/-- Instruction kinds: `enum class InstructionType`. -/
inductive InstructionType where
  | LOAD
  | STORE
  | COMPUTE
  | SYNC
deriving DecidableEq

/-- One step of the trace: `struct Instruction`. -/
structure Instruction where
  type : InstructionType
  op_name : String
  input_size : Int
  output_size : Int
  flops : Int
deriving DecidableEq

/-- The constant `sizeof(float)`. -/
def sizeofFloat : Int := 4

/-- Cost model `CodeGenerator::computeFLOPs`. -/
def CodeGenerator.computeFLOPs (g : Graph) (node : Node) : Int :=
  match node.type with
  | .CONV2D | .FUSED_CONV_RELU =>
    let output := node.outputs.getD 0 0
    let input := node.inputs.getD 0 0
    let k := node.getAttr "kernel_size" 3
    let c_in := (g.shapeOf input).dim 1
    let c_out := (g.shapeOf output).dim 1
    let h_out := (g.shapeOf output).dim 2
    let w_out := (g.shapeOf output).dim 3
    let n := (g.shapeOf output).dim 0
    2 * c_in * k * k * c_out * h_out * w_out * n
  | .MATMUL | .FUSED_MATMUL_ADD =>
    let a := node.inputs.getD 0 0
    let b := node.inputs.getD 1 0
    let m := (g.shapeOf a).dim 0
    let k := (g.shapeOf a).dim 1
    let n := (g.shapeOf b).dim 1
    2 * m * n * k
  | .RELU =>
    let output := node.outputs.getD 0 0
    (g.shapeOf output).numel
  | .ADD =>
    let output := node.outputs.getD 0 0
    (g.shapeOf output).numel
  | .MAXPOOL =>
    let output := node.outputs.getD 0 0
    let k := node.getAttr "kernel_size" 2
    (g.shapeOf output).numel * k * k
  | _ => 0

/-- Lowering of one node, `CodeGenerator::generateForNode`: appends to `instructions`.  The
sums `size += numel() * sizeof(float)` are computed in `size_t` and stored in `int64_t`. -/
def CodeGenerator.generateForNode (g : Graph) (node : Node) (instructions : List Instruction) :
    List Instruction :=
  if node.type = .INPUT ∨ node.type = .OUTPUT then instructions
  else
    let input_size :=
      node.inputs.foldl
        (fun acc input => wrapInt64 (acc + (g.shapeOf input).numel * sizeofFloat)) 0
    let output_size :=
      node.outputs.foldl
        (fun acc output => wrapInt64 (acc + (g.shapeOf output).numel * sizeofFloat)) 0
    let instructions1 := instructions ++
      [{ type := .LOAD, op_name := opTypeToString node.type,
         input_size := input_size, output_size := 0, flops := 0 }]
    let flops := CodeGenerator.computeFLOPs g node
    let instructions2 := instructions1 ++
      [{ type := .COMPUTE, op_name := opTypeToString node.type,
         input_size := input_size, output_size := output_size, flops := flops }]
    instructions2 ++
      [{ type := .STORE, op_name := opTypeToString node.type,
         input_size := 0, output_size := output_size, flops := 0 }]

/-- Lowering of the graph, `CodeGenerator::generate`: every node of the topological order in
turn. -/
def CodeGenerator.generate (g : Graph) : List Instruction :=
  g.getNodesInTopoOrder.foldl
    (fun instructions p =>
      match g.nodes[p]? with
      | some node => CodeGenerator.generateForNode g node instructions
      | none => instructions) []

/-! ## simulator: chip configuration, cache model, simulator (`simulator.h`, `simulator.cpp`) -/

/-- Hardware configuration: `struct ChipConfig`. -/
structure ChipConfig where
  compute_units : Int
  memory_bandwidth_gb_s : ℚ
  cache_size_kb : Int
  simd_width : Int
  clock_freq_ghz : ℚ

/-- Execution statistics: `struct ExecutionStats`. -/
structure ExecutionStats where
  cycles : Int
  memory_accesses : Int
  cache_hits : Int
  cache_misses : Int
  execution_time_ms : ℚ
  compute_utilization : ℚ
  memory_bound_time : ℚ

/-- The default member initialisers of `ExecutionStats`. -/
def ExecutionStats.init : ExecutionStats :=
  { cycles := 0, memory_accesses := 0, cache_hits := 0, cache_misses := 0,
    execution_time_ms := 0, compute_utilization := 0, memory_bound_time := 0 }

/-- Counter based cache: `class CacheModel`. -/
structure CacheModel where
  size_bytes : Int
  current_usage : Int
  hits : Int
  misses : Int
deriving DecidableEq

/-- The constructor `CacheModel(int size_kb)`: `size_bytes_(size_kb * 1024)`, a product of
two `int`. -/
def CacheModel.new (size_kb : Int) : CacheModel :=
  { size_bytes := wrapInt32 (size_kb * 1024), current_usage := 0, hits := 0, misses := 0 }

/-- The miss branch of `CacheModel::access`. -/
def CacheModel.miss (c : CacheModel) (size : Int) : Bool × CacheModel :=
  (false, { c with misses := c.misses + 1,
                   current_usage := min (c.current_usage + size) c.size_bytes })

/-- Request `CacheModel::access`; returns the answer and the new cache state.  The address is
not used. -/
def CacheModel.access (c : CacheModel) (_address size : Int) : Bool × CacheModel :=
  if size ≤ c.size_bytes then
    if c.current_usage + size ≤ c.size_bytes then
      (true, { c with current_usage := c.current_usage + size, hits := c.hits + 1 })
    else c.miss size
  else c.miss size

/-- Reset `CacheModel::reset`. -/
def CacheModel.reset (c : CacheModel) : CacheModel :=
  { c with current_usage := 0, hits := 0, misses := 0 }

/-- Double multiplication: the exact product, rounded. -/
def fmul (rnd : ℚ → ℚ) (x y : ℚ) : ℚ := rnd (x * y)

/-- Double division: the exact quotient, rounded. -/
def fdiv (rnd : ℚ → ℚ) (x y : ℚ) : ℚ := rnd (x / y)

/-- Conversion of an integer to double. -/
def toDouble (rnd : ℚ → ℚ) (n : Int) : ℚ := rnd (n : ℚ)

/-- Conversion `static_cast<int64_t>` of a double: truncation toward zero. -/
def toInt64 (x : ℚ) : Int := Int.tdiv x.num x.den

/-- Simulator: `class Simulator`, a configuration and its cache. -/
structure Simulator where
  config : ChipConfig
  cache : CacheModel

/-- The constructor `Simulator(const ChipConfig&)`. -/
def Simulator.new (config : ChipConfig) : Simulator :=
  { config := config, cache := CacheModel.new config.cache_size_kb }

/-- The local `bytes_per_cycle` of `simulateLoad` and `simulateStore`. -/
def Simulator.bytesPerCycle (rnd : ℚ → ℚ) (s : Simulator) : ℚ :=
  fdiv rnd (fmul rnd s.config.memory_bandwidth_gb_s 1000000000)
    (fmul rnd s.config.clock_freq_ghz 1000000000)

/-- Cost of a load, `Simulator::simulateLoad`; the cache of the simulator is updated. -/
def Simulator.simulateLoad (rnd : ℚ → ℚ) (s : Simulator) (inst : Instruction) :
    Int × Simulator :=
  let a := s.cache.access 0 inst.input_size
  let cache_hit := a.1
  let s1 : Simulator := { s with cache := a.2 }
  if cache_hit then (10, s1)
  else
    let bytes_per_cycle := s.bytesPerCycle rnd
    let cycles := toInt64 (fdiv rnd (toDouble rnd inst.input_size) bytes_per_cycle)
    (max cycles 100, s1)

/-- Cost of a store, `Simulator::simulateStore`. -/
def Simulator.simulateStore (rnd : ℚ → ℚ) (s : Simulator) (inst : Instruction) : Int :=
  let bytes_per_cycle := s.bytesPerCycle rnd
  let cycles := toInt64 (fdiv rnd (toDouble rnd inst.output_size) bytes_per_cycle)
  max cycles 100

/-- Cost of a computation, `Simulator::simulateCompute`; `compute_units * simd_width` is a
product of two `int`, converted to double for the product with `2.0`. -/
def Simulator.simulateCompute (rnd : ℚ → ℚ) (s : Simulator) (inst : Instruction) : Int :=
  let flops_per_cycle :=
    fmul rnd (toDouble rnd (wrapInt32 (s.config.compute_units * s.config.simd_width))) 2
  let cycles := toInt64 (fdiv rnd (toDouble rnd inst.flops) flops_per_cycle)
  max cycles 1

/-- The variables of the loop of `Simulator::execute`. -/
structure ExecState where
  sim : Simulator
  stats : ExecutionStats
  compute_cycles : Int
  memory_cycles : Int

/-- The `switch` of the loop of `execute`: the cycles of the instruction and the state after
the branch taken. -/
def Simulator.executeSwitch (rnd : ℚ → ℚ) (st : ExecState) (inst : Instruction) :
    Int × ExecState :=
  match inst.type with
  | .LOAD =>
    let l := st.sim.simulateLoad rnd inst
    (l.1, { st with sim := l.2, memory_cycles := st.memory_cycles + l.1,
                    stats := { st.stats with memory_accesses := st.stats.memory_accesses + 1 } })
  | .STORE =>
    let inst_cycles := st.sim.simulateStore rnd inst
    (inst_cycles, { st with memory_cycles := st.memory_cycles + inst_cycles,
                            stats := { st.stats with
                                       memory_accesses := st.stats.memory_accesses + 1 } })
  | .COMPUTE =>
    let inst_cycles := st.sim.simulateCompute rnd inst
    (inst_cycles, { st with compute_cycles := st.compute_cycles + inst_cycles })
  | .SYNC => (10, st)

/-- One iteration of the loop of `execute`: the `switch`, then `stats.cycles += inst_cycles`. -/
def Simulator.executeStep (rnd : ℚ → ℚ) (st : ExecState) (inst : Instruction) : ExecState :=
  let r := Simulator.executeSwitch rnd st inst
  { r.2 with stats := { r.2.stats with cycles := r.2.stats.cycles + r.1 } }

/-- The state in which the loop of `execute` starts: fresh statistics, cache reset. -/
def Simulator.executeInit (s : Simulator) : ExecState :=
  { sim := { s with cache := s.cache.reset }, stats := ExecutionStats.init,
    compute_cycles := 0, memory_cycles := 0 }

/-- Simulation `Simulator::execute`; returns the statistics and the simulator after the
call. -/
def Simulator.execute (rnd : ℚ → ℚ) (s : Simulator) (instructions : List Instruction) :
    ExecutionStats × Simulator :=
  let st := instructions.foldl (Simulator.executeStep rnd) s.executeInit
  let stats1 : ExecutionStats :=
    { st.stats with cache_hits := st.sim.cache.hits, cache_misses := st.sim.cache.misses }
  let stats2 : ExecutionStats :=
    { stats1 with
      execution_time_ms :=
        fdiv rnd (toDouble rnd stats1.cycles) (fmul rnd s.config.clock_freq_ghz 1000000) }
  let total_cycles := st.compute_cycles + st.memory_cycles
  let stats3 : ExecutionStats :=
    if total_cycles > 0 then
      { stats2 with
        compute_utilization :=
          fdiv rnd (fmul rnd 100 (toDouble rnd st.compute_cycles)) (toDouble rnd total_cycles),
        memory_bound_time :=
          fdiv rnd (fmul rnd 100 (toDouble rnd st.memory_cycles)) (toDouble rnd total_cycles) }
    else stats2
  (stats3, st.sim)

/-! ## Auxiliary definitions for the theorems -/

/-- The consumers of the value `v`: the pointers of the nodes that have `v` among their
inputs. -/
def Graph.consumers (g : Graph) (v : Nat) : List Nat :=
  (List.range g.nodes.length).filter
    (fun q => match g.nodes[q]? with
      | some node => decide (v ∈ node.inputs)
      | none => false)

/-- The operator kind of the node behind `p`. -/
def Graph.kindOf (g : Graph) (p : Nat) : Option OpType :=
  (g.nodes[p]?).map (fun node => node.type)

/-- The builder kind that a kind stands for: a fused kind stands for the kind it was rewritten
from. -/
def baseKind : OpType → OpType
  | .FUSED_CONV_RELU => .CONV2D
  | .FUSED_MATMUL_ADD => .MATMUL
  | t => t

/-- What the builder guarantees of a node by its kind. -/
def KindOK (g : Graph) (node : Node) : Prop :=
  match baseKind node.type with
  | .INPUT => node.inputs = []
  | .CONV2D =>
    node.inputs.length = 1 ∧
      (∃ kv, node.int_attrs.find? (fun kv => kv.1 = "kernel_size") = some kv) ∧
      ∀ output ∈ node.outputs, (g.shapeOf output).dims.length = 4
  | .MAXPOOL =>
    node.inputs.length = 1 ∧
      ∃ kv, node.int_attrs.find? (fun kv => kv.1 = "kernel_size") = some kv
  | .MATMUL => node.inputs.length = 2
  | .ADD => node.inputs.length = 2
  | .RELU => node.inputs.length = 1
  | .OUTPUT => node.inputs.length = 1
  | _ => True

/-- Invariant of the graphs made by the builder: the two tables grow together, identifiers are
positions, the node at position `p` produces exactly the value at position `p` and reads only
earlier values. -/
structure Graph.Inv (g : Graph) : Prop where
  len_values : g.values.length = g.nodes.length
  next_node : g.next_node_id = g.nodes.length
  next_value : g.next_value_id = g.values.length
  value_id : ∀ (j : Nat) (value : Value), g.values[j]? = some value → value.id = j
  node_id : ∀ (p : Nat) (node : Node), g.nodes[p]? = some node → node.id = p
  node_outputs : ∀ (p : Nat) (node : Node), g.nodes[p]? = some node → node.outputs = [p]
  node_inputs : ∀ (p : Nat) (node : Node), g.nodes[p]? = some node →
    ∀ v ∈ node.inputs, v < p
  node_kind : ∀ (p : Nat) (node : Node), g.nodes[p]? = some node → KindOK g node

/-- The node that a builder call appends. -/
def BuilderCall.node (g : Graph) : BuilderCall → Node
  | .addInput _ => { id := g.next_node_id, type := .INPUT, inputs := [],
                     outputs := [g.values.length], int_attrs := [] }
  | .addOutput input => { id := g.next_node_id, type := .OUTPUT, inputs := [input],
                          outputs := [g.values.length], int_attrs := [] }
  | .addConv2D input co k s p =>
    { id := g.next_node_id, type := .CONV2D, inputs := [input], outputs := [g.values.length],
      int_attrs := [("padding", p), ("stride", s), ("kernel_size", k), ("out_channels", co)] }
  | .addMatMul a b => { id := g.next_node_id, type := .MATMUL, inputs := [a, b],
                        outputs := [g.values.length], int_attrs := [] }
  | .addReLU input => { id := g.next_node_id, type := .RELU, inputs := [input],
                        outputs := [g.values.length], int_attrs := [] }
  | .addAdd a b => { id := g.next_node_id, type := .ADD, inputs := [a, b],
                     outputs := [g.values.length], int_attrs := [] }
  | .addMaxPool input k s =>
    { id := g.next_node_id, type := .MAXPOOL, inputs := [input], outputs := [g.values.length],
      int_attrs := [("stride", s), ("kernel_size", k)] }

/-- The shape of the value that a builder call appends. -/
def BuilderCall.shape (g : Graph) : BuilderCall → Shape
  | .addInput shape => shape
  | .addOutput input => g.shapeOf input
  | .addConv2D input co k s p =>
    { dims := [(g.shapeOf input).dim 0, co,
        Int.tdiv ((g.shapeOf input).dim 2 + 2 * p - k) s + 1,
        Int.tdiv ((g.shapeOf input).dim 3 + 2 * p - k) s + 1] }
  | .addMatMul a b => { dims := [(g.shapeOf a).dim 0, (g.shapeOf b).dim 1] }
  | .addReLU input => g.shapeOf input
  | .addAdd a _ => g.shapeOf a
  | .addMaxPool input k s =>
    { dims := [(g.shapeOf input).dim 0, (g.shapeOf input).dim 1,
        Int.tdiv ((g.shapeOf input).dim 2 - k) s + 1,
        Int.tdiv ((g.shapeOf input).dim 3 - k) s + 1] }


/-- A list of builder calls run in turn from the graph `g`. -/
def runCalls (g : Graph) : List BuilderCall → Graph
  | [] => g
  | c :: cs => runCalls (c.run g).1 cs

/-- Every call of the list references only values that exist when it runs. -/
def callsValid (g : Graph) : List BuilderCall → Bool
  | [] => true
  | c :: cs => c.args.all (fun v => decide (v < g.values.length)) && callsValid (c.run g).1 cs

/-- The common shape of the inner loops of `fuseConvReLU` and `fuseMatMulAdd`: `test` is the
test on the later node, `tgt` the fused kind. -/
def fuseInnerGen (tgt : OpType) (test : Graph → Nat → Nat → Bool) :
    List Nat → Graph → Nat → Nat → Bool → Graph × Bool
  | [], g, _, _, changed => (g, changed)
  | q :: later, g, p, output, changed =>
    if test g q output then (g.updNode p (fun n => n.setType tgt), true)
    else fuseInnerGen tgt test later g p output changed

/-- The common shape of the outer loops of `fuseConvReLU` and `fuseMatMulAdd`: `src` is the
kind looked for. -/
def fuseLoopGen (src tgt : OpType) (test : Graph → Nat → Nat → Bool) :
    List Nat → Graph → Bool → Graph × Bool
  | [], g, changed => (g, changed)
  | p :: later, g, changed =>
    match g.nodes[p]? with
    | some node =>
      if node.type = src ∧ node.outputs.length = 1 then
        let r := fuseInnerGen tgt test later g p (node.outputs.getD 0 0) changed
        fuseLoopGen src tgt test later r.1 r.2
      else fuseLoopGen src tgt test later g changed
    | none => fuseLoopGen src tgt test later g changed

/-- What a fusion loop makes of `node` when the pointers `post` come after it. -/
def fusedNode (src tgt : OpType) (test : Graph → Nat → Nat → Bool) (g : Graph)
    (post : List Nat) (node : Node) : Node :=
  if node.type = src ∧ node.outputs.length = 1 ∧
      post.any (fun q => test g q (node.outputs.getD 0 0)) = true then
    node.setType tgt
  else node

/-- The graph `g2` is `g1` with some nodes retyped within their base kind. -/
def Retyped (g1 g2 : Graph) : Prop :=
  g2.values = g1.values ∧ g2.next_node_id = g1.next_node_id ∧
    g2.next_value_id = g1.next_value_id ∧ g2.nodes.length = g1.nodes.length ∧
    ∀ (x : Nat) (node : Node), g1.nodes[x]? = some node →
      ∃ t, baseKind t = baseKind node.type ∧ g2.nodes[x]? = some (node.setType t)

/-! ## Example graphs -/

/-- The graph of `runEx` in `main.cpp`: Input `[1, 3, 224, 224]`, Conv2D with 64 filters, kernel
3, stride 1, padding 1, then ReLU, then Output. -/
def exMain : Graph :=
  let (g1, input) := Graph.create.addInput { dims := [1, 3, 224, 224] }
  let (g2, conv) := g1.addConv2D input 64 3 1 1
  let (g3, relu) := g2.addReLU conv
  (g3.addOutput relu).1

/-- The builder calls of `runEx` in `main.cpp`. -/
def exMainCalls : List BuilderCall :=
  [.addInput { dims := [1, 3, 224, 224] }, .addConv2D 0 64 3 1 1, .addReLU 1, .addOutput 2]

/-- The graph of one input of shape `[1, 1, 1, 1]`. -/
def exUnitInput : Graph := (Graph.create.addInput { dims := [1, 1, 1, 1] }).1

/-- The graph of `main.cpp` up to its input: one input of shape `[1, 3, 224, 224]`. -/
def exMainInput : Graph := (Graph.create.addInput { dims := [1, 3, 224, 224] }).1

/-- The builder calls of a graph in which two nodes read the output of a convolution: Input
`[1, 1, 4, 4]`, Conv2D (1 filter, kernel 1, stride 1, padding 0), ReLU of the convolution,
MaxPool (kernel 2, stride 2) of the same convolution. -/
def exTwoReadersCalls : List BuilderCall :=
  [.addInput { dims := [1, 1, 4, 4] }, .addConv2D 0 1 1 1 0, .addReLU 1, .addMaxPool 1 2 2]

/-- The graph in which a ReLU and a MaxPool both read the output of a convolution. -/
def exTwoReaders : Graph := runCalls Graph.create exTwoReadersCalls

/-- The graph `Input → Conv2D → ReLU → Output` made by the builder, for any input shape and
any parameters of the convolution. -/
def convReluGraph (shape : Shape) (out_channels kernel_size stride padding : Int) : Graph :=
  let (g1, input) := Graph.create.addInput shape
  let (g2, conv) := g1.addConv2D input out_channels kernel_size stride padding
  let (g3, relu) := g2.addReLU conv
  (g3.addOutput relu).1

/-! ## The trace as the specification words it -/

/-- Byte size of a list of values: the sum over the values of `numel × 4`, with `numel` the
product of the dimensions. -/
def specBytes (g : Graph) (vs : List Nat) : Int :=
  (vs.map (fun v => (g.shapeOf v).dims.prod * 4)).sum

/-- The three instructions of a node: LOAD, COMPUTE, STORE. -/
def specTriple (g : Graph) (node : Node) : List Instruction :=
  [{ type := .LOAD, op_name := opTypeToString node.type,
     input_size := specBytes g node.inputs, output_size := 0, flops := 0 },
   { type := .COMPUTE, op_name := opTypeToString node.type,
     input_size := specBytes g node.inputs, output_size := specBytes g node.outputs,
     flops := CodeGenerator.computeFLOPs g node },
   { type := .STORE, op_name := opTypeToString node.type,
     input_size := 0, output_size := specBytes g node.outputs, flops := 0 }]

/-- The instructions of a node: none for INPUT and OUTPUT, the triple for every other kind. -/
def specForNode (g : Graph) (node : Node) : List Instruction :=
  if node.type = .INPUT ∨ node.type = .OUTPUT then [] else specTriple g node

/-! ## The FLOP model as the specification words it -/

/-- All five fields of the configuration are positive. -/
def ChipConfig.Positive (cfg : ChipConfig) : Prop :=
  0 < cfg.compute_units ∧ 0 < cfg.memory_bandwidth_gb_s ∧ 0 < cfg.cache_size_kb ∧
    0 < cfg.simd_width ∧ 0 < cfg.clock_freq_ghz

/-- What is used of the rounding of the machine: zero is exact and a non-negative number is
rounded to a non-negative number (as in every rounding mode of IEEE 754 on finite values). -/
def IsRounding (rnd : ℚ → ℚ) : Prop :=
  rnd 0 = 0 ∧ ∀ x : ℚ, 0 ≤ x → 0 ≤ rnd x

/-- A LOAD instruction of `size` bytes. -/
def loadOf (size : Int) : Instruction :=
  { type := .LOAD, op_name := "Load", input_size := size, output_size := 0, flops := 0 }

/-- The configuration `high_end` of `main.cpp`. -/
def exHighEnd : ChipConfig :=
  { compute_units := 32, memory_bandwidth_gb_s := 200, cache_size_kb := 512, simd_width := 16,
    clock_freq_ghz := 2 }

/-- A configuration with a cache of 1 KB; the other fields are the defaults of `ChipConfig`. -/
def exOneKb : ChipConfig :=
  { compute_units := 16, memory_bandwidth_gb_s := 100, cache_size_kb := 1, simd_width := 8,
    clock_freq_ghz := 3 / 2 }

/-- The answer of the cache to the `i`-th instruction of a trace, counting from 1, when
`execute` runs the trace: the access made after the first `i - 1` instructions. -/
def Simulator.hitAt (rnd : ℚ → ℚ) (sim : Simulator) (instructions : List Instruction)
    (i : Nat) : Bool :=
  match instructions[i - 1]? with
  | some inst =>
    (((instructions.take (i - 1)).foldl (Simulator.executeStep rnd)
      sim.executeInit).sim.cache.access 0 inst.input_size).1
  | none => false

/-- The state in which `execute` starts on a new simulator with the configuration `high_end`
of `main.cpp`. -/
def exHighEndStart : ExecState := (Simulator.new exHighEnd).executeInit

/-- A COMPUTE instruction without flops. -/
def exComputeZero : Instruction :=
  { type := .COMPUTE, op_name := "BatchNorm", input_size := 64, output_size := 64, flops := 0 }

/-- A STORE instruction of zero bytes. -/
def exStoreZero : Instruction :=
  { type := .STORE, op_name := "ReLU", input_size := 0, output_size := 0, flops := 0 }

/-! ## The costs of a trace -/

/-- Every instruction of a trace with the cycles that `execute` charges for it, when the loop
of `execute` is in the state `st` before the first of them. -/
def Simulator.costed (rnd : ℚ → ℚ) : ExecState → List Instruction → List (Instruction × Int)
  | _, [] => []
  | st, inst :: rest =>
    (inst, (Simulator.executeSwitch rnd st inst).1)
      :: Simulator.costed rnd (Simulator.executeStep rnd st inst) rest

/-- The summed cost of the instructions of a costed trace whose kind satisfies `sel`. -/
def sumCosts (sel : InstructionType → Bool) (l : List (Instruction × Int)) : Int :=
  ((l.filter (fun ic => sel ic.1.type)).map (fun ic => ic.2)).sum

/-- The summed cost `cc` of the COMPUTE instructions of a trace run by `sim`. -/
def Simulator.computeCost (rnd : ℚ → ℚ) (sim : Simulator) (trace : List Instruction) : Int :=
  sumCosts (fun t => decide (t = .COMPUTE)) (Simulator.costed rnd sim.executeInit trace)

/-- The summed cost `mc` of the LOAD and STORE instructions of a trace run by `sim`. -/
def Simulator.memoryCost (rnd : ℚ → ℚ) (sim : Simulator) (trace : List Instruction) : Int :=
  sumCosts (fun t => decide (t = .LOAD ∨ t = .STORE))
    (Simulator.costed rnd sim.executeInit trace)

/-! ## Builder calls with defined behaviour, and more example graphs -/

/-- The builder call has defined behaviour in C++: its `Value*` arguments are values of the
graph, the elements `dims[i]` that it reads exist, and it does not divide by zero. -/
def BuilderCall.Defined (g : Graph) : BuilderCall → Prop
  | .addInput _ => True
  | .addOutput input => input < g.values.length
  | .addConv2D input _ _ stride _ =>
    input < g.values.length ∧ 4 ≤ (g.shapeOf input).dims.length ∧ stride ≠ 0
  | .addMatMul a b =>
    a < g.values.length ∧ b < g.values.length ∧ 1 ≤ (g.shapeOf a).dims.length ∧
      2 ≤ (g.shapeOf b).dims.length
  | .addReLU input => input < g.values.length
  | .addAdd a b => a < g.values.length ∧ b < g.values.length
  | .addMaxPool input _ stride =>
    input < g.values.length ∧ 4 ≤ (g.shapeOf input).dims.length ∧ stride ≠ 0

/-- Two inputs of shapes `[2, 3]` and `[4, 5]`, whose inner dimensions differ. -/
def exTwoMatrices : Graph :=
  runCalls Graph.create [.addInput { dims := [2, 3] }, .addInput { dims := [4, 5] }]

/-- One input of shape `[1, 1, 4, 4]`. -/
def exSmallImage : Graph := runCalls Graph.create [.addInput { dims := [1, 1, 4, 4] }]

/-- The builder calls of a graph with operands for every builder operation: inputs `[2, 3]`,
`[3, 5]`, `[1, 2, 7, 9]` and `[2, 5]`. -/
def exOperandsCalls : List BuilderCall :=
  [.addInput { dims := [2, 3] }, .addInput { dims := [3, 5] },
   .addInput { dims := [1, 2, 7, 9] }, .addInput { dims := [2, 5] }]

/-- The graph of the operands `[2, 3]`, `[3, 5]`, `[1, 2, 7, 9]` and `[2, 5]`. -/
def exOperands : Graph := runCalls Graph.create exOperandsCalls

/-- The graph `g2` is `g` with some nodes of kind `src` retyped as `tgt`, and nothing else
changed. -/
def RetypedBy (src tgt : OpType) (g g2 : Graph) : Prop :=
  g2.values = g.values ∧ g2.next_node_id = g.next_node_id ∧
    g2.next_value_id = g.next_value_id ∧ g2.nodes.length = g.nodes.length ∧
    ∀ (x : Nat) (node : Node), g.nodes[x]? = some node →
      g2.nodes[x]? = some node ∨ (node.type = src ∧ g2.nodes[x]? = some (node.setType tgt))

/-- The builder calls of a graph in which two nodes read the output of a matrix product:
inputs `[2, 3]`, `[3, 5]`, `[2, 5]`, MatMul of the first two, Add of the product and the third
input, ReLU of the product. -/
def exMatMulTwoReadersCalls : List BuilderCall :=
  [.addInput { dims := [2, 3] }, .addInput { dims := [3, 5] }, .addInput { dims := [2, 5] },
   .addMatMul 0 1, .addAdd 3 2, .addReLU 3]

/-- The graph in which an Add and a ReLU both read the output of a matrix product. -/
def exMatMulTwoReaders : Graph := runCalls Graph.create exMatMulTwoReadersCalls

/-- The builder calls of the graph `MatMul → Add`: inputs `[2, 3]`, `[3, 5]`, `[2, 5]`, MatMul
of the first two, Add of the product and the third input. -/
def exMatMulAddCalls : List BuilderCall :=
  [.addInput { dims := [2, 3] }, .addInput { dims := [3, 5] }, .addInput { dims := [2, 5] },
   .addMatMul 0 1, .addAdd 3 2]

/-- The graph `MatMul → Add`. -/
def exMatMulAdd : Graph := runCalls Graph.create exMatMulAddCalls

/-! ## The rounding of binary64 -/

/-- The recursion of `floorLog2`, with a bound on the number of steps. -/
def log2Fuel : Nat → Nat → Nat
  | 0, _ => 0
  | fuel + 1, n => if 2 ≤ n then log2Fuel fuel (n / 2) + 1 else 0

/-- The floor of the binary logarithm of a positive natural number. -/
def floorLog2 (n : Nat) : Nat := log2Fuel n n

/-- The integer nearest to `a / b`, the even one of the two in a tie. -/
def roundHalfEven (a b : Nat) : Nat :=
  let q := a / b
  let r := a % b
  if 2 * r < b then q else if b < 2 * r then q + 1 else if q % 2 = 0 then q else q + 1

/-- The exponent `e` of the binary64 number nearest to `a / b`, for positive `a` and `b`:
`2 ^ 52 ≤ (a / b) / 2 ^ e < 2 ^ 53`. -/
def binary64Exponent (a b : Nat) : Int :=
  let k : Int := (floorLog2 a : Int) - (floorLog2 b : Int)
  let ge : Bool :=
    if 0 ≤ k then decide (b * 2 ^ k.toNat ≤ a) else decide (b ≤ a * 2 ^ (-k).toNat)
  (if ge then k else k - 1) - 52

/-- The significand of the binary64 number nearest to `a / b`: `(a / b) / 2 ^ e` rounded to
the nearest integer, ties to even. -/
def binary64Significand (a b : Nat) : Nat :=
  let e := binary64Exponent a b
  if 0 ≤ e then roundHalfEven a (b * 2 ^ e.toNat) else roundHalfEven (a * 2 ^ (-e).toNat) b

/-- Rounding to the nearest binary64 number, ties to even (the default rounding of IEEE 754
doubles): 53 significant bits; the exponent is not bounded, so overflow to infinity and
subnormal numbers are not modelled. -/
def roundBinary64 (q : ℚ) : ℚ :=
  if q = 0 then 0
  else (if q < 0 then -1 else 1) * (binary64Significand q.num.natAbs q.den : ℚ)
    * (2 : ℚ) ^ binary64Exponent q.num.natAbs q.den

/-- A configuration that moves one byte per cycle and computes two flops per cycle: one
compute unit of width 1, 1 GB/s at 1 GHz, a cache of 1 KB. -/
def exUnitChip : ChipConfig :=
  { compute_units := 1, memory_bandwidth_gb_s := 1, cache_size_kb := 1, simd_width := 1,
    clock_freq_ghz := 1 }

/-- A STORE instruction of `10 ^ 15 + 2` bytes. -/
def exStoreHuge : Instruction :=
  { type := .STORE, op_name := "Conv2D", input_size := 0, output_size := 1000000000000002,
    flops := 0 }

/-- A trace of a computation without flops and a store of `10 ^ 15 + 2` bytes. -/
def exSkewedTrace : List Instruction := [exComputeZero, exStoreHuge]

/-- A trace of a computation without flops and a load of zero bytes. -/
def exTinyTrace : List Instruction := [exComputeZero, loadOf 0]

/-! ## What the simulator reads of an instruction -/

/-- The fields of an instruction other than `op_name`: kind, sizes and flops. -/
def Instruction.costFields (inst : Instruction) : InstructionType × Int × Int × Int :=
  (inst.type, inst.input_size, inst.output_size, inst.flops)

/-! ## Two runs of a trace with caches of different capacity -/

/-- The cumulative size of the LOAD instructions of a trace. -/
def loadBytes (l : List Instruction) : Int :=
  ((l.filter (fun inst => decide (inst.type = .LOAD))).map (fun inst => inst.input_size)).sum

/-- Two states of the loop of `execute` after the same instructions, whose LOADs had `B`
bytes in all, on configurations that differ at most in the cache size, the second cache at
least as large as the first: each usage is `min B capacity`, the second run has at least the
hits and at most the cycles of the first. -/
def CacheOrdered (B : Int) (st1 st2 : ExecState) : Prop :=
  0 ≤ B ∧ 0 ≤ st1.sim.cache.size_bytes ∧
    st1.sim.cache.size_bytes ≤ st2.sim.cache.size_bytes ∧
    st1.sim.cache.current_usage = min B st1.sim.cache.size_bytes ∧
    st2.sim.cache.current_usage = min B st2.sim.cache.size_bytes ∧
    st1.sim.cache.hits ≤ st2.sim.cache.hits ∧
    st2.stats.cycles ≤ st1.stats.cycles ∧
    st1.sim.config.memory_bandwidth_gb_s = st2.sim.config.memory_bandwidth_gb_s ∧
    st1.sim.config.clock_freq_ghz = st2.sim.config.clock_freq_ghz ∧
    st1.sim.config.compute_units = st2.sim.config.compute_units ∧
    st1.sim.config.simd_width = st2.sim.config.simd_width

/-- Two loads of 600 bytes. -/
def exTwoLoads : List Instruction := [loadOf 600, loadOf 600]

/-! ## optimizer: dead code elimination

`optimizer.h` declares `DeadCodeEliminationPass::run`; the sources do not define it.  The
definitions of this section follow the specification: the pass "removes nodes (other than
INPUT/OUTPUT) whose every output value has zero consumers reachable from any OUTPUT node; must
never remove INPUT or OUTPUT nodes; operates as a single backward reachability pass from
OUTPUT nodes, then drops unreached non-terminal nodes and their now-orphaned values". -/

/-- Modelled from the spec: the edge that the backward reachability of the missing
`DeadCodeEliminationPass::run` follows: the node behind `p` produces a value that the node
behind `q` reads. -/
def Graph.feeds (g : Graph) (p q : Nat) : Bool :=
  match g.nodes[p]?, g.nodes[q]? with
  | some producer, some consumer =>
    producer.outputs.any (fun v => decide (v ∈ consumer.inputs))
  | _, _ => false

/-- Modelled from the spec: the terminal nodes, which the missing
`DeadCodeEliminationPass::run` never removes: the node behind `p` is an INPUT or an OUTPUT
node. -/
def Graph.isTerminal (g : Graph) (p : Nat) : Bool :=
  match g.nodes[p]? with
  | some node => decide (node.type = .INPUT) || decide (node.type = .OUTPUT)
  | none => false

/-- Modelled from the spec: the start of the backward reachability of the missing
`DeadCodeEliminationPass::run`: the pointers to the OUTPUT nodes. -/
def Graph.outputNodes (g : Graph) : List Nat :=
  (List.range g.nodes.length).filter (fun p => decide (g.kindOf p = some .OUTPUT))

/-- Modelled from the spec: one round of the backward reachability of the missing
`DeadCodeEliminationPass::run`: the nodes reached so far, and the producers of the values
that they read. -/
def DeadCodeEliminationPass.reachStep (g : Graph) (reached : List Nat) : List Nat :=
  (List.range g.nodes.length).filter
    (fun p => decide (p ∈ reached) || reached.any (fun q => g.feeds p q))

/-- Modelled from the spec: `k` rounds of the backward reachability of the missing
`DeadCodeEliminationPass::run`, from the OUTPUT nodes. -/
def DeadCodeEliminationPass.reachIter (g : Graph) : Nat → List Nat
  | 0 => g.outputNodes
  | k + 1 => DeadCodeEliminationPass.reachStep g (DeadCodeEliminationPass.reachIter g k)

/-- Modelled from the spec: the backward reachability pass of the missing
`DeadCodeEliminationPass::run`: as many rounds as the graph has nodes. -/
def DeadCodeEliminationPass.reached (g : Graph) : List Nat :=
  DeadCodeEliminationPass.reachIter g g.nodes.length

/-- Modelled from the spec: the nodes that the missing `DeadCodeEliminationPass::run` keeps:
the terminal nodes and the nodes reached, as pointers into the node table before the pass, in
the order of the table. -/
def DeadCodeEliminationPass.retained (g : Graph) : List Nat :=
  (List.range g.nodes.length).filter
    (fun p => g.isTerminal p || decide (p ∈ DeadCodeEliminationPass.reached g))

/-- Modelled from the spec: the node behind `p` has the value `v` among its outputs (used by
the missing `DeadCodeEliminationPass::run` to find orphaned values). -/
def Graph.produces (g : Graph) (p v : Nat) : Bool :=
  match g.nodes[p]? with
  | some node => decide (v ∈ node.outputs)
  | none => false

/-- Modelled from the spec: the values that the missing `DeadCodeEliminationPass::run` keeps,
as pointers into the value table before the pass: a value is dropped when it is orphaned,
that is when it had a producer and no node that is kept produces it. -/
def DeadCodeEliminationPass.retainedValues (g : Graph) : List Nat :=
  (List.range g.values.length).filter
    (fun v => (DeadCodeEliminationPass.retained g).any (fun p => g.produces p v) ||
      !((List.range g.nodes.length).any (fun p => g.produces p v)))

/-- Modelled from the spec: a node that the missing `DeadCodeEliminationPass::run` keeps, with
its `Value*` as positions in the value table after the pass; a pointer to a value that was
dropped dangles (it is the size of the new table). -/
def DeadCodeEliminationPass.relocate (g : Graph) (node : Node) : Node :=
  { node with
    inputs := node.inputs.map (fun v => (DeadCodeEliminationPass.retainedValues g).indexOf v),
    outputs := node.outputs.map (fun v => (DeadCodeEliminationPass.retainedValues g).indexOf v) }

/-- Modelled from the spec: the missing `DeadCodeEliminationPass::run`: the graph without the
unreached non-terminal nodes and their orphaned values, and whether a node was removed. -/
def DeadCodeEliminationPass.run (g : Graph) : Graph × Bool :=
  ({ nodes := (DeadCodeEliminationPass.retained g).filterMap
       (fun p => (g.nodes[p]?).map (DeadCodeEliminationPass.relocate g)),
     values := (DeadCodeEliminationPass.retainedValues g).filterMap (fun v => g.values[v]?),
     next_node_id := g.next_node_id,
     next_value_id := g.next_value_id },
   decide ((DeadCodeEliminationPass.retained g).length < g.nodes.length))

/-- The nodes reachable backward from an OUTPUT node, as the specification words it: an OUTPUT
node is reachable, and so is every node that produces a value read by a reachable node. -/
inductive Graph.ReachableBack (g : Graph) : Nat → Prop where
  | output (p : Nat) : g.kindOf p = some .OUTPUT → g.ReachableBack p
  | producer (p q : Nat) : g.ReachableBack q → g.feeds p q = true → g.ReachableBack p

/-- The builder calls of `exDeadPool`. -/
def exDeadPoolCalls : List BuilderCall :=
  [.addInput { dims := [1, 3, 8, 8] }, .addConv2D 0 4 3 1 1, .addReLU 1, .addMaxPool 1 2 2,
    .addOutput 2]

/-- The graph `Input → Conv2D → ReLU → Output` with a MaxPool of the convolution output that
nothing reads. -/
def exDeadPool : Graph := runCalls Graph.create exDeadPoolCalls

/-! ## Byte sizes as the code generator stores them -/

/-- An instruction whose two sizes are reduced to the range of `int64_t`. -/
def Instruction.wrapSizes (inst : Instruction) : Instruction :=
  { inst with
    input_size := wrapInt64 inst.input_size,
    output_size := wrapInt64 inst.output_size }

/-- The builder calls of `exHugeInput`. -/
def exHugeInputCalls : List BuilderCall :=
  [.addInput { dims := [2147483648, 2147483648] }, .addReLU 0]

/-- An input of shape `[2 ^ 31, 2 ^ 31]`, which has `2 ^ 62` elements and `2 ^ 64` bytes, and a
ReLU of it. -/
def exHugeInput : Graph := runCalls Graph.create exHugeInputCalls

/-! ## Examples for the costs in binary64 arithmetic -/

theorem addInput_eq (g : Graph) (shape : Shape) :
    g.addInput shape =
      ({ nodes := g.nodes ++ [{ id := g.next_node_id, type := .INPUT, inputs := [],
                                outputs := [g.values.length], int_attrs := [] }],
         values := g.values ++ [{ id := g.next_value_id, shape := shape }],
         next_node_id := g.next_node_id + 1,
         next_value_id := g.next_value_id + 1 }, g.values.length) := by
  simp [Graph.addInput, Graph.createNode, Graph.createValue, Graph.updNode,
    Node.new, Node.addOutput]

theorem addOutput_eq (g : Graph) (input : Nat) :
    g.addOutput input =
      ({ nodes := g.nodes ++ [{ id := g.next_node_id, type := .OUTPUT, inputs := [input],
                                outputs := [g.values.length], int_attrs := [] }],
         values := g.values ++ [{ id := g.next_value_id, shape := g.shapeOf input }],
         next_node_id := g.next_node_id + 1,
         next_value_id := g.next_value_id + 1 }, g.values.length) := by
  simp [Graph.addOutput, Graph.createNode, Graph.createValue, Graph.updNode, Graph.shapeOf,
    Node.new, Node.addInput, Node.addOutput]

theorem addConv2D_eq (g : Graph) (input : Nat) (co k s p : Int) :
    g.addConv2D input co k s p =
      ({ nodes := g.nodes ++ [{ id := g.next_node_id, type := .CONV2D, inputs := [input],
                                outputs := [g.values.length],
                                int_attrs := [("padding", p), ("stride", s), ("kernel_size", k),
                                  ("out_channels", co)] }],
         values := g.values ++ [{ id := g.next_value_id,
                                  shape := { dims := [(g.shapeOf input).dim 0, co,
                                    Int.tdiv ((g.shapeOf input).dim 2 + 2 * p - k) s + 1,
                                    Int.tdiv ((g.shapeOf input).dim 3 + 2 * p - k) s + 1] } }],
         next_node_id := g.next_node_id + 1,
         next_value_id := g.next_value_id + 1 }, g.values.length) := by
  simp [Graph.addConv2D, Graph.createNode, Graph.createValue, Graph.updNode, Graph.shapeOf,
    Node.new, Node.addInput, Node.addOutput, Node.setAttr]

theorem addMatMul_eq (g : Graph) (a b : Nat) :
    g.addMatMul a b =
      ({ nodes := g.nodes ++ [{ id := g.next_node_id, type := .MATMUL, inputs := [a, b],
                                outputs := [g.values.length], int_attrs := [] }],
         values := g.values ++ [{ id := g.next_value_id,
                                  shape := { dims := [(g.shapeOf a).dim 0,
                                    (g.shapeOf b).dim 1] } }],
         next_node_id := g.next_node_id + 1,
         next_value_id := g.next_value_id + 1 }, g.values.length) := by
  simp [Graph.addMatMul, Graph.createNode, Graph.createValue, Graph.updNode, Graph.shapeOf,
    Node.new, Node.addInput, Node.addOutput]

theorem addReLU_eq (g : Graph) (input : Nat) :
    g.addReLU input =
      ({ nodes := g.nodes ++ [{ id := g.next_node_id, type := .RELU, inputs := [input],
                                outputs := [g.values.length], int_attrs := [] }],
         values := g.values ++ [{ id := g.next_value_id, shape := g.shapeOf input }],
         next_node_id := g.next_node_id + 1,
         next_value_id := g.next_value_id + 1 }, g.values.length) := by
  simp [Graph.addReLU, Graph.createNode, Graph.createValue, Graph.updNode, Graph.shapeOf,
    Node.new, Node.addInput, Node.addOutput]

theorem addAdd_eq (g : Graph) (a b : Nat) :
    g.addAdd a b =
      ({ nodes := g.nodes ++ [{ id := g.next_node_id, type := .ADD, inputs := [a, b],
                                outputs := [g.values.length], int_attrs := [] }],
         values := g.values ++ [{ id := g.next_value_id, shape := g.shapeOf a }],
         next_node_id := g.next_node_id + 1,
         next_value_id := g.next_value_id + 1 }, g.values.length) := by
  simp [Graph.addAdd, Graph.createNode, Graph.createValue, Graph.updNode, Graph.shapeOf,
    Node.new, Node.addInput, Node.addOutput]

theorem addMaxPool_eq (g : Graph) (input : Nat) (k s : Int) :
    g.addMaxPool input k s =
      ({ nodes := g.nodes ++ [{ id := g.next_node_id, type := .MAXPOOL, inputs := [input],
                                outputs := [g.values.length],
                                int_attrs := [("stride", s), ("kernel_size", k)] }],
         values := g.values ++ [{ id := g.next_value_id,
                                  shape := { dims := [(g.shapeOf input).dim 0,
                                    (g.shapeOf input).dim 1,
                                    Int.tdiv ((g.shapeOf input).dim 2 - k) s + 1,
                                    Int.tdiv ((g.shapeOf input).dim 3 - k) s + 1] } }],
         next_node_id := g.next_node_id + 1,
         next_value_id := g.next_value_id + 1 }, g.values.length) := by
  simp [Graph.addMaxPool, Graph.createNode, Graph.createValue, Graph.updNode, Graph.shapeOf,
    Node.new, Node.addInput, Node.addOutput, Node.setAttr]

/-- Every builder call appends one node and one value and returns the pointer to the value. -/
theorem BuilderCall.run_eq (g : Graph) (c : BuilderCall) :
    c.run g = ({ nodes := g.nodes ++ [c.node g],
                 values := g.values ++ [{ id := g.next_value_id, shape := c.shape g }],
                 next_node_id := g.next_node_id + 1,
                 next_value_id := g.next_value_id + 1 }, g.values.length) := by
  cases c <;>
    simp only [BuilderCall.run, BuilderCall.node, BuilderCall.shape, addInput_eq, addOutput_eq,
      addConv2D_eq, addMatMul_eq, addReLU_eq, addAdd_eq, addMaxPool_eq]

/-! ## C1: shape inference of Conv2D -/

/-- Truncating division of a non-negative integer by a positive one is the floor of the
rational quotient. -/
theorem tdiv_eq_floor (a b : Int) (ha : 0 ≤ a) (hb : 0 < b) :
    Int.tdiv a b = ⌊(a : ℚ) / (b : ℚ)⌋ := by
  rw [Int.tdiv_eq_ediv ha hb.le]
  lift b to ℕ using hb.le
  have h := Rat.floor_intCast_div_natCast a b
  simpa using h.symm

/-- The shape that `addConv2D` gives its result, with the truncating division of the
source. -/
theorem addConv2D_shape_tdiv (g : Graph) (input : Nat) (N Cin H W Cout K S P : Int)
    (hin : g.shapeOf input = { dims := [N, Cin, H, W] }) :
    (g.addConv2D input Cout K S P).1.shapeOf (g.addConv2D input Cout K S P).2
      = { dims := [N, Cout, Int.tdiv (H + 2 * P - K) S + 1, Int.tdiv (W + 2 * P - K) S + 1] } := by
  rw [addConv2D_eq, hin]
  simp [Graph.shapeOf, Shape.dim]

/-- C1 (amended): for a rank-4 input shape `[N, Cin, H, W]`, stride `S ≥ 1` and a kernel that
is not larger than the padded input (`H + 2P - K ≥ 0` and `W + 2P - K ≥ 0`), the value returned
by `addConv2D` has shape `[N, Cout, ⌊(H+2P-K)/S⌋ + 1, ⌊(W+2P-K)/S⌋ + 1]`, with the
mathematical floor of the rational quotient. -/
theorem C1_addConv2D_shape_floor (g : Graph) (input : Nat) (N Cin H W Cout K S P : Int)
    (hin : g.shapeOf input = { dims := [N, Cin, H, W] }) (hS : 1 ≤ S)
    (hH : 0 ≤ H + 2 * P - K) (hW : 0 ≤ W + 2 * P - K) :
    (g.addConv2D input Cout K S P).1.shapeOf (g.addConv2D input Cout K S P).2
      = { dims := [N, Cout, ⌊((H + 2 * P - K : ℤ) : ℚ) / (S : ℚ)⌋ + 1,
                   ⌊((W + 2 * P - K : ℤ) : ℚ) / (S : ℚ)⌋ + 1] } := by
  rw [addConv2D_shape_tdiv g input N Cin H W Cout K S P hin,
    tdiv_eq_floor _ S hH (by omega), tdiv_eq_floor _ S hW (by omega)]

/-- C1, witness: the convolution of `main.cpp`, input `[1, 3, 224, 224]`, 64 output channels,
kernel 3, stride 1, padding 1, returns a value of shape `[1, 64, 224, 224]`. -/
theorem C1_addConv2D_shape_floor_witness :
    (exMainInput.addConv2D 0 64 3 1 1).1.shapeOf (exMainInput.addConv2D 0 64 3 1 1).2
      = { dims := [1, 64, 224, 224] } := by
  have h := C1_addConv2D_shape_floor exMainInput 0 1 3 224 224 64 3 1 1 (by decide) (by decide)
    (by decide) (by decide)
  rw [h]
  norm_num

/-- C1, counterexample: on the input shape `[1, 1, 1, 1]` with kernel 2, stride 2 and padding 0
the numerator `H + 2P - K` is `-1`; `addConv2D` returns the shape `[1, 1, 1, 1]`, while the
floor formula of the specification gives `[1, 1, 0, 0]`. -/
theorem C1_floor_formula_fails :
    (exUnitInput.addConv2D 0 1 2 2 0).1.shapeOf (exUnitInput.addConv2D 0 1 2 2 0).2
        = { dims := [1, 1, 1, 1] } ∧
      (exUnitInput.addConv2D 0 1 2 2 0).1.shapeOf (exUnitInput.addConv2D 0 1 2 2 0).2
        ≠ { dims := [1, 1, ⌊((1 + 2 * 0 - 2 : ℤ) : ℚ) / ((2 : ℤ) : ℚ)⌋ + 1,
                     ⌊((1 + 2 * 0 - 2 : ℤ) : ℚ) / ((2 : ℤ) : ℚ)⌋ + 1] } := by
  have hfloor : ⌊((1 + 2 * 0 - 2 : ℤ) : ℚ) / ((2 : ℤ) : ℚ)⌋ = -1 := by
    norm_num [Int.floor_eq_iff]
  have hcode : (exUnitInput.addConv2D 0 1 2 2 0).1.shapeOf (exUnitInput.addConv2D 0 1 2 2 0).2
      = { dims := [1, 1, 1, 1] } := by decide
  rw [hfloor, hcode]
  exact ⟨rfl, by decide⟩

/-! ## Lemmas: the invariant of built graphs -/

theorem getElem?_snoc_eq_some {α : Type} (l : List α) (a b : α) (p : Nat) :
    (l ++ [a])[p]? = some b ↔ l[p]? = some b ∨ (p = l.length ∧ a = b) := by
  rw [List.getElem?_append]
  split
  · rename_i h
    constructor
    · intro hb; exact Or.inl hb
    · rintro (hb | ⟨hp, _⟩)
      · exact hb
      · omega
  · rename_i h
    have hnone : l[p]? = none := List.getElem?_eq_none (by omega)
    constructor
    · intro hb
      rcases Nat.lt_or_ge (p - l.length) 1 with h1 | h1
      · have hp : p = l.length := by omega
        subst hp
        simp at hb
        exact Or.inr ⟨rfl, hb⟩
      · rw [List.getElem?_eq_none (by simpa using h1)] at hb
        cases hb
    · rintro (hb | ⟨hp, hab⟩)
      · rw [hnone] at hb; cases hb
      · subst hp; simp [hab]

theorem BuilderCall.node_id (g : Graph) (c : BuilderCall) : (c.node g).id = g.next_node_id := by
  cases c <;> rfl

theorem BuilderCall.node_outputs (g : Graph) (c : BuilderCall) :
    (c.node g).outputs = [g.values.length] := by
  cases c <;> rfl

theorem BuilderCall.node_inputs (g : Graph) (c : BuilderCall) : (c.node g).inputs = c.args := by
  cases c <;> rfl

/-- The shape behind an old pointer does not change when a value is appended. -/
theorem shapeOf_snoc (g : Graph) (ns : List Node) (x : Value) (a b v : Nat)
    (hv : v < g.values.length) :
    Graph.shapeOf { nodes := ns, values := g.values ++ [x], next_node_id := a,
                    next_value_id := b } v = g.shapeOf v := by
  simp [Graph.shapeOf, List.getElem?_append_left hv]

/-- The shape behind the pointer that a builder call returns. -/
theorem shapeOf_snoc_new (g : Graph) (ns : List Node) (x : Value) (a b : Nat) :
    Graph.shapeOf { nodes := ns, values := g.values ++ [x], next_node_id := a,
                    next_value_id := b } g.values.length = x.shape := by
  simp [Graph.shapeOf]

theorem BuilderCall.node_kindOK (g : Graph) (c : BuilderCall) :
    KindOK (c.run g).1 (c.node g) := by
  rw [BuilderCall.run_eq]
  cases c <;> simp [KindOK, BuilderCall.node, baseKind, shapeOf_snoc_new, BuilderCall.shape]

theorem kindOK_snoc (g : Graph) (node : Node) (ns : List Node) (x : Value) (a b : Nat)
    (hout : ∀ v ∈ node.outputs, v < g.values.length) (h : KindOK g node) :
    KindOK { nodes := ns, values := g.values ++ [x], next_node_id := a, next_value_id := b }
      node := by
  unfold KindOK at h ⊢
  split <;> simp_all
  rename_i hk
  intro output ho
  rw [shapeOf_snoc g ns x a b output (hout output ho)]
  exact h.2.2 output ho

theorem inv_create : Graph.create.Inv := by
  constructor <;> simp [Graph.create]

theorem inv_run (g : Graph) (c : BuilderCall) (hinv : g.Inv)
    (hargs : ∀ v ∈ c.args, v < g.values.length) : (c.run g).1.Inv := by
  have hk := BuilderCall.node_kindOK g c
  rw [BuilderCall.run_eq] at hk ⊢
  have hlen := hinv.len_values
  constructor
  · simp [hinv.len_values]
  · simp [hinv.next_node]
  · simp [hinv.next_value]
  · intro j value hj
    rcases (getElem?_snoc_eq_some _ _ _ _).1 hj with h | ⟨hje, hv⟩
    · exact hinv.value_id j value h
    · subst hv; simp [hje, hinv.next_value]
  · intro p node hp
    rcases (getElem?_snoc_eq_some _ _ _ _).1 hp with h | ⟨hpe, hv⟩
    · exact hinv.node_id p node h
    · subst hv; rw [BuilderCall.node_id, hpe, hinv.next_node]
  · intro p node hp
    rcases (getElem?_snoc_eq_some _ _ _ _).1 hp with h | ⟨hpe, hv⟩
    · exact hinv.node_outputs p node h
    · subst hv; rw [BuilderCall.node_outputs, hpe, hlen]
  · intro p node hp v hv
    rcases (getElem?_snoc_eq_some _ _ _ _).1 hp with h | ⟨hpe, hn⟩
    · exact hinv.node_inputs p node h v hv
    · subst hn
      rw [BuilderCall.node_inputs] at hv
      have := hargs v hv
      omega
  · intro p node hp
    rcases (getElem?_snoc_eq_some _ _ _ _).1 hp with h | ⟨hpe, hn⟩
    · apply kindOK_snoc g node _ _ _ _ _ (hinv.node_kind p node h)
      intro v hv
      rw [hinv.node_outputs p node h] at hv
      have hlt : p < g.nodes.length := by
        rcases Nat.lt_or_ge p g.nodes.length with h1 | h1
        · exact h1
        · rw [List.getElem?_eq_none h1] at h; cases h
      simp at hv
      omega
    · subst hn; exact hk

/-- Every graph made by the builder satisfies the invariant. -/
theorem Built.inv {g : Graph} (h : Built g) : g.Inv := by
  induction h with
  | create => exact inv_create
  | call g c _ hargs ih => exact inv_run g c ih hargs

theorem built_runCalls (cs : List BuilderCall) :
    ∀ g : Graph, Built g → callsValid g cs = true → Built (runCalls g cs) := by
  induction cs with
  | nil => intro g hg _; exact hg
  | cons c cs ih =>
    intro g hg h
    simp only [callsValid, Bool.and_eq_true, List.all_eq_true, decide_eq_true_eq] at h
    exact ih _ (Built.call g c hg h.1) h.2

/-! ## Lemmas: the topological order of a built graph is the creation order -/

theorem topoLoop_eq (rest : List Node) :
    ∀ (p : Nat) (visited result : List Nat),
      (∀ (i : Nat) (node : Node), rest[i]? = some node → node.id = p + i) →
      (∀ x ∈ visited, x < p) →
      topoLoop rest p visited result = result ++ List.range' p rest.length := by
  induction rest with
  | nil => intro p visited result _ _; simp [topoLoop]
  | cons node rest ih =>
    intro p visited result hid hvis
    have h0 : node.id = p := by simpa using hid 0 node (by simp)
    have hnot : node.id ∉ visited := by
      intro hmem
      have := hvis _ hmem
      omega
    rw [topoLoop, if_neg hnot, ih (p + 1) (node.id :: visited) (result ++ [p])]
    · simp [List.range'_succ]
    · intro i n hi
      have := hid (i + 1) n (by simpa using hi)
      omega
    · intro x hx
      rcases List.mem_cons.1 hx with h | h
      · omega
      · have := hvis x h; omega

theorem topoOrder_of_ids (g : Graph)
    (hid : ∀ (p : Nat) (node : Node), g.nodes[p]? = some node → node.id = p) :
    g.getNodesInTopoOrder = List.range g.nodes.length := by
  unfold Graph.getNodesInTopoOrder
  rw [topoLoop_eq g.nodes 0 [] []]
  · simp [List.range_eq_range']
  · intro i node h; simpa using hid i node h
  · intro x hx; cases hx

theorem Graph.Inv.topoOrder {g : Graph} (h : g.Inv) :
    g.getNodesInTopoOrder = List.range g.nodes.length :=
  topoOrder_of_ids g h.node_id

theorem exMain_eq : exMain = runCalls Graph.create exMainCalls := by decide

theorem exMain_built : Built exMain := by
  rw [exMain_eq]
  exact built_runCalls _ _ Built.create (by decide)

/-- C4: in a graph made by builder calls that reference only existing values,
`getNodesInTopoOrder` returns every node exactly once (no pointer twice, and exactly the
pointers of the node table), and whenever the node at position `i` of the order reads a value
`v`, the node that produced `v` stands at a strictly earlier position `j < i` of the order. -/
theorem C4_topo_order_valid (g : Graph) (h : Built g) :
    g.getNodesInTopoOrder.Nodup ∧
      (∀ p : Nat, p ∈ g.getNodesInTopoOrder ↔ p < g.nodes.length) ∧
      ∀ (i p : Nat) (node : Node) (v : Nat), g.getNodesInTopoOrder[i]? = some p →
        g.nodes[p]? = some node → v ∈ node.inputs →
        ∃ (j q : Nat) (producer : Node), j < i ∧ g.getNodesInTopoOrder[j]? = some q ∧
          g.nodes[q]? = some producer ∧ v ∈ producer.outputs := by
  have hinv := h.inv
  rw [hinv.topoOrder]
  refine ⟨List.nodup_range _, fun p => List.mem_range, ?_⟩
  intro i p node v hi hp hv
  have hip : i = p := by
    rcases List.getElem?_eq_some.1 hi with ⟨hlt, he⟩
    simpa using he
  subst hip
  have hvi : v < i := hinv.node_inputs i node hp v hv
  have hilt : i < g.nodes.length := by
    rcases List.getElem?_eq_some.1 hp with ⟨hlt, _⟩
    exact hlt
  have hvlt : v < g.nodes.length := by omega
  refine ⟨v, v, g.nodes[v], hvi, ?_, ?_, ?_⟩
  · simp [List.getElem?_range, hvlt]
  · exact List.getElem?_eq_getElem hvlt
  · rw [hinv.node_outputs v g.nodes[v] (List.getElem?_eq_getElem hvlt)]
    simp

/-- C4, witness: the graph of `main.cpp` is made by the builder; its topological order is
`[0, 1, 2, 3]`. -/
theorem C4_topo_order_valid_witness :
    exMain.getNodesInTopoOrder = [0, 1, 2, 3] ∧
      (exMain.getNodesInTopoOrder.Nodup ∧
        (∀ p : Nat, p ∈ exMain.getNodesInTopoOrder ↔ p < exMain.nodes.length) ∧
        ∀ (i p : Nat) (node : Node) (v : Nat), exMain.getNodesInTopoOrder[i]? = some p →
          exMain.nodes[p]? = some node → v ∈ node.inputs →
          ∃ (j q : Nat) (producer : Node), j < i ∧ exMain.getNodesInTopoOrder[j]? = some q ∧
            exMain.nodes[q]? = some producer ∧ v ∈ producer.outputs) :=
  ⟨by decide, C4_topo_order_valid exMain exMain_built⟩

/-! ## Lemmas: the fusion loops -/

theorem updNode_values (g : Graph) (p : Nat) (f : Node → Node) :
    (g.updNode p f).values = g.values := by
  unfold Graph.updNode; split <;> rfl

theorem updNode_next_node_id (g : Graph) (p : Nat) (f : Node → Node) :
    (g.updNode p f).next_node_id = g.next_node_id := by
  unfold Graph.updNode; split <;> rfl

theorem updNode_next_value_id (g : Graph) (p : Nat) (f : Node → Node) :
    (g.updNode p f).next_value_id = g.next_value_id := by
  unfold Graph.updNode; split <;> rfl

theorem updNode_length (g : Graph) (p : Nat) (f : Node → Node) :
    (g.updNode p f).nodes.length = g.nodes.length := by
  unfold Graph.updNode; split <;> simp

theorem updNode_getElem?_ne (g : Graph) (p x : Nat) (f : Node → Node) (h : x ≠ p) :
    (g.updNode p f).nodes[x]? = g.nodes[x]? := by
  unfold Graph.updNode
  split
  · simp [List.getElem?_set, Ne.symm h]
  · rfl

theorem updNode_getElem?_self (g : Graph) (p : Nat) (f : Node → Node) :
    (g.updNode p f).nodes[p]? = (g.nodes[p]?).map f := by
  unfold Graph.updNode
  split
  · rename_i n hn
    have hlt : p < g.nodes.length := (List.getElem?_eq_some.1 hn).1
    simp [List.getElem?_set, hlt, hn]
  · rename_i hn
    simp [hn]

theorem fuseInnerGen_eq (tgt : OpType) (test : Graph → Nat → Nat → Bool) (later : List Nat)
    (g : Graph) (p output : Nat) (changed : Bool) :
    fuseInnerGen tgt test later g p output changed =
      if later.any (fun q => test g q output) = true then
        (g.updNode p (fun n => n.setType tgt), true)
      else (g, changed) := by
  induction later with
  | nil => simp [fuseInnerGen]
  | cons q later ih =>
    rw [fuseInnerGen]
    by_cases hq : test g q output = true
    · simp [hq]
    · rw [if_neg hq, ih]
      simp [hq]

theorem fuseConvReLUInner_eq (later : List Nat) (g : Graph) (p output : Nat) (changed : Bool) :
    fuseConvReLUInner later g p output changed =
      fuseInnerGen .FUSED_CONV_RELU isReLUOn later g p output changed := by
  induction later with
  | nil => rfl
  | cons q later ih => simp only [fuseConvReLUInner, fuseInnerGen, ih]

theorem fuseConvReLULoop_eq (ps : List Nat) :
    ∀ (g : Graph) (changed : Bool),
      fuseConvReLULoop ps g changed =
        fuseLoopGen .CONV2D .FUSED_CONV_RELU isReLUOn ps g changed := by
  induction ps with
  | nil => intro g changed; rfl
  | cons p later ih =>
    intro g changed
    simp only [fuseConvReLULoop, fuseLoopGen, fuseConvReLUInner_eq, ih]

theorem fuseMatMulAddInner_eq (later : List Nat) (g : Graph) (p output : Nat) (changed : Bool) :
    fuseMatMulAddInner later g p output changed =
      fuseInnerGen .FUSED_MATMUL_ADD isAddOn later g p output changed := by
  induction later with
  | nil => rfl
  | cons q later ih => simp only [fuseMatMulAddInner, fuseInnerGen, ih]

theorem fuseMatMulAddLoop_eq (ps : List Nat) :
    ∀ (g : Graph) (changed : Bool),
      fuseMatMulAddLoop ps g changed =
        fuseLoopGen .MATMUL .FUSED_MATMUL_ADD isAddOn ps g changed := by
  induction ps with
  | nil => intro g changed; rfl
  | cons p later ih =>
    intro g changed
    simp only [fuseMatMulAddLoop, fuseLoopGen, fuseMatMulAddInner_eq, ih]

/-- One step of a fusion loop: the graph after the inner loop. -/
theorem fuseLoopGen_cons (src tgt : OpType) (test : Graph → Nat → Nat → Bool) (p : Nat)
    (later : List Nat) (g : Graph) (changed : Bool) :
    fuseLoopGen src tgt test (p :: later) g changed =
      match g.nodes[p]? with
      | some node =>
        if node.type = src ∧ node.outputs.length = 1 ∧
            later.any (fun q => test g q (node.outputs.getD 0 0)) = true then
          fuseLoopGen src tgt test later (g.updNode p (fun n => n.setType tgt)) true
        else fuseLoopGen src tgt test later g changed
      | none => fuseLoopGen src tgt test later g changed := by
  rw [fuseLoopGen]
  cases hn : g.nodes[p]? with
  | none => rfl
  | some node =>
    simp only []
    by_cases h1 : node.type = src ∧ node.outputs.length = 1
    · rw [if_pos h1, fuseInnerGen_eq]
      by_cases h2 : later.any (fun q => test g q (node.outputs.getD 0 0)) = true
      · rw [if_pos h2, if_pos ⟨h1.1, h1.2, h2⟩]
      · rw [if_neg h2, if_neg (fun h => h2 h.2.2)]
    · rw [if_neg h1, if_neg (fun h => h1 ⟨h.1, h.2.1⟩)]

theorem setType_self (node : Node) : node.setType node.type = node := by
  cases node; rfl

theorem Retyped.refl (g : Graph) : Retyped g g :=
  ⟨rfl, rfl, rfl, rfl, fun _ node h => ⟨node.type, rfl, by rw [setType_self]; exact h⟩⟩

theorem Retyped.trans {g1 g2 g3 : Graph} (h12 : Retyped g1 g2) (h23 : Retyped g2 g3) :
    Retyped g1 g3 := by
  obtain ⟨a1, a2, a3, a4, a5⟩ := h12
  obtain ⟨b1, b2, b3, b4, b5⟩ := h23
  refine ⟨b1.trans a1, b2.trans a2, b3.trans a3, b4.trans a4, ?_⟩
  intro x node hx
  obtain ⟨t, ht, hx2⟩ := a5 x node hx
  obtain ⟨u, hu, hx3⟩ := b5 x _ hx2
  exact ⟨u, hu.trans ht, by rw [hx3]; rfl⟩

theorem Retyped.updNode (g : Graph) (p : Nat) (node : Node) (tgt : OpType)
    (hp : g.nodes[p]? = some node) (hk : baseKind tgt = baseKind node.type) :
    Retyped g (g.updNode p (fun n => n.setType tgt)) := by
  refine ⟨updNode_values _ _ _, updNode_next_node_id _ _ _, updNode_next_value_id _ _ _,
    updNode_length _ _ _, ?_⟩
  intro x n hx
  by_cases hxp : x = p
  · subst hxp
    rw [hp] at hx
    cases hx
    exact ⟨tgt, hk, by rw [updNode_getElem?_self, hp]; rfl⟩
  · exact ⟨n.type, rfl, by rw [updNode_getElem?_ne _ _ _ _ hxp, setType_self]; exact hx⟩

/-- A fusion loop only retypes nodes, within their base kind. -/
theorem fuseLoopGen_retyped (src tgt : OpType) (test : Graph → Nat → Nat → Bool)
    (hk : baseKind tgt = baseKind src) (ps : List Nat) :
    ∀ (g : Graph) (changed : Bool), Retyped g (fuseLoopGen src tgt test ps g changed).1 := by
  induction ps with
  | nil => intro g changed; exact Retyped.refl g
  | cons p later ih =>
    intro g changed
    rw [fuseLoopGen_cons]
    cases hn : g.nodes[p]? with
    | none => exact ih g changed
    | some node =>
      simp only []
      split
      · rename_i h
        exact (Retyped.updNode g p node tgt hn (by rw [hk, h.1])).trans (ih _ _)
      · exact ih g changed

/-- A fusion loop leaves every node alone whose kind is not the kind it looks for. -/
theorem fuseLoopGen_frame (src tgt : OpType) (test : Graph → Nat → Nat → Bool)
    (ps : List Nat) :
    ∀ (g : Graph) (changed : Bool) (x : Nat) (node : Node), g.nodes[x]? = some node →
      node.type ≠ src → (fuseLoopGen src tgt test ps g changed).1.nodes[x]? = some node := by
  induction ps with
  | nil => intro g changed x node hx _; exact hx
  | cons p later ih =>
    intro g changed x node hx hne
    rw [fuseLoopGen_cons]
    cases hn : g.nodes[p]? with
    | none => exact ih g changed x node hx hne
    | some n =>
      simp only []
      split
      · rename_i h
        apply ih _ _ x node _ hne
        have hxp : x ≠ p := by
          rintro rfl
          rw [hn] at hx
          cases hx
          exact hne h.1
        rw [updNode_getElem?_ne _ _ _ _ hxp]
        exact hx
      · exact ih g changed x node hx hne

/-- What a fusion loop over pairwise distinct pointers makes of every node, when the test on a
later node does not depend on a retyping of an earlier node of the kind looked for. -/
theorem fuseLoopGen_spec (src tgt : OpType) (test : Graph → Nat → Nat → Bool)
    (hT : ∀ (g : Graph) (p : Nat) (node : Node) (q v : Nat), g.nodes[p]? = some node →
      node.type = src → test (g.updNode p (fun n => n.setType tgt)) q v = test g q v)
    (ps : List Nat) :
    ∀ (g : Graph) (changed : Bool), ps.Nodup →
      (∀ x : Nat, x ∉ ps →
        (fuseLoopGen src tgt test ps g changed).1.nodes[x]? = g.nodes[x]?) ∧
      ∀ (pre : List Nat) (x : Nat) (post : List Nat) (node : Node), ps = pre ++ x :: post →
        g.nodes[x]? = some node →
        (fuseLoopGen src tgt test ps g changed).1.nodes[x]?
          = some (fusedNode src tgt test g post node) := by
  induction ps with
  | nil =>
    intro g changed _
    refine ⟨fun _ _ => rfl, ?_⟩
    intro pre x post node h
    cases pre <;> cases h
  | cons p later ih =>
    intro g changed hnd
    have hpl : p ∉ later := (List.nodup_cons.1 hnd).1
    have hndl : later.Nodup := (List.nodup_cons.1 hnd).2
    rw [fuseLoopGen_cons]
    cases hn : g.nodes[p]? with
    | none =>
      simp only []
      obtain ⟨ih1, ih2⟩ := ih g changed hndl
      refine ⟨fun x hx => ih1 x (fun h => hx (List.mem_cons_of_mem _ h)), ?_⟩
      intro pre x post node hsplit hx
      cases pre with
      | nil =>
        simp only [List.nil_append, List.cons.injEq] at hsplit
        obtain ⟨rfl, rfl⟩ := hsplit
        rw [hn] at hx; cases hx
      | cons a pre =>
        simp only [List.cons_append, List.cons.injEq] at hsplit
        exact ih2 pre x post node hsplit.2 hx
    | some n =>
      simp only []
      by_cases hc : n.type = src ∧ n.outputs.length = 1 ∧
          later.any (fun q => test g q (n.outputs.getD 0 0)) = true
      · rw [if_pos hc]
        obtain ⟨ih1, ih2⟩ := ih (g.updNode p (fun n => n.setType tgt)) true hndl
        have htest : test (g.updNode p (fun n => n.setType tgt)) = test g := by
          funext q v
          exact hT g p n q v hn hc.1
        constructor
        · intro x hx
          have hxp : x ≠ p := fun h => hx (h ▸ List.mem_cons_self _ _)
          rw [ih1 x (fun h => hx (List.mem_cons_of_mem _ h)), updNode_getElem?_ne _ _ _ _ hxp]
        · intro pre x post node hsplit hx
          cases pre with
          | nil =>
            simp only [List.nil_append, List.cons.injEq] at hsplit
            obtain ⟨rfl, rfl⟩ := hsplit
            rw [hn] at hx
            cases hx
            rw [ih1 p hpl, updNode_getElem?_self, hn]
            simp only [fusedNode, if_pos hc, Option.map_some']
          | cons a pre =>
            simp only [List.cons_append, List.cons.injEq] at hsplit
            obtain ⟨rfl, hl⟩ := hsplit
            have hxl : x ∈ later := by rw [hl]; simp
            have hxp : x ≠ p := fun h => hpl (h ▸ hxl)
            have hx2 : (g.updNode p (fun n => n.setType tgt)).nodes[x]? = some node := by
              rw [updNode_getElem?_ne _ _ _ _ hxp]; exact hx
            rw [ih2 pre x post node hl hx2]
            simp only [fusedNode, htest]
      · rw [if_neg hc]
        obtain ⟨ih1, ih2⟩ := ih g changed hndl
        refine ⟨fun x hx => ih1 x (fun h => hx (List.mem_cons_of_mem _ h)), ?_⟩
        intro pre x post node hsplit hx
        cases pre with
        | nil =>
          simp only [List.nil_append, List.cons.injEq] at hsplit
          obtain ⟨rfl, rfl⟩ := hsplit
          rw [hn] at hx
          cases hx
          rw [ih1 p hpl, hn]
          simp only [fusedNode, if_neg hc]
        | cons a pre =>
          simp only [List.cons_append, List.cons.injEq] at hsplit
          exact ih2 pre x post node hsplit.2 hx

theorem isReLUOn_iff (g : Graph) (q v : Nat) :
    isReLUOn g q v = true ↔
      ∃ relu : Node, g.nodes[q]? = some relu ∧ relu.type = .RELU ∧ relu.inputs = [v] := by
  unfold isReLUOn
  cases hq : g.nodes[q]? with
  | none => simp
  | some n =>
    simp only [Bool.and_eq_true, decide_eq_true_eq, Option.some.injEq, exists_eq_left']
    constructor
    · rintro ⟨⟨h1, h2⟩, h3⟩
      refine ⟨h1, ?_⟩
      match hi : n.inputs, h2, h3 with
      | [a], _, h3 => simpa using h3
    · rintro ⟨h1, h2⟩
      simp [h1, h2]

theorem isReLUOn_updNode (g : Graph) (p : Nat) (node : Node) (q v : Nat)
    (hp : g.nodes[p]? = some node) (ht : node.type = .CONV2D) :
    isReLUOn (g.updNode p (fun n => n.setType .FUSED_CONV_RELU)) q v = isReLUOn g q v := by
  unfold isReLUOn
  by_cases hqp : q = p
  · subst hqp
    rw [updNode_getElem?_self, hp]
    simp [Node.setType, ht]
  · rw [updNode_getElem?_ne _ _ _ _ hqp]

theorem isAddOn_updNode (g : Graph) (p : Nat) (node : Node) (q v : Nat)
    (hp : g.nodes[p]? = some node) (ht : node.type = .MATMUL) :
    isAddOn (g.updNode p (fun n => n.setType .FUSED_MATMUL_ADD)) q v = isAddOn g q v := by
  unfold isAddOn
  by_cases hqp : q = p
  · subst hqp
    rw [updNode_getElem?_self, hp]
    simp [Node.setType, ht]
  · rw [updNode_getElem?_ne _ _ _ _ hqp]

theorem range_split (n p : Nat) (h : p < n) :
    List.range n = List.range p ++ p :: List.range' (p + 1) (n - p - 1) := by
  have h1 : n = (n - p - 1 + 1) + p := by omega
  conv_lhs => rw [h1]
  rw [List.range_eq_range', List.range_eq_range', ← List.range'_append 0 p (n - p - 1 + 1) 1]
  simp [List.range'_succ]

/-- The node that `fuseConvReLU` leaves behind a pointer `p` of a built graph. -/
theorem fuseConvReLU_node (g : Graph) (hinv : g.Inv) (p : Nat) (node : Node)
    (hp : g.nodes[p]? = some node) :
    (FusionPass.fuseConvReLU g).1.nodes[p]? =
      some (fusedNode .CONV2D .FUSED_CONV_RELU isReLUOn g
        (List.range' (p + 1) (g.nodes.length - p - 1)) node) := by
  have hlt : p < g.nodes.length := (List.getElem?_eq_some.1 hp).1
  unfold FusionPass.fuseConvReLU
  rw [fuseConvReLULoop_eq, hinv.topoOrder]
  have hs := fuseLoopGen_spec .CONV2D .FUSED_CONV_RELU isReLUOn
    (fun g p node q v h1 h2 => isReLUOn_updNode g p node q v h1 h2)
    (List.range g.nodes.length) g false (List.nodup_range _)
  exact hs.2 (List.range p) p _ node (range_split _ _ hlt) hp

/-- The node that `fuseMatMulAdd` leaves behind a pointer `p` of a built graph. -/
theorem fuseMatMulAdd_node (g : Graph) (hinv : g.Inv) (p : Nat) (node : Node)
    (hp : g.nodes[p]? = some node) :
    (FusionPass.fuseMatMulAdd g).1.nodes[p]? =
      some (fusedNode .MATMUL .FUSED_MATMUL_ADD isAddOn g
        (List.range' (p + 1) (g.nodes.length - p - 1)) node) := by
  have hlt : p < g.nodes.length := (List.getElem?_eq_some.1 hp).1
  unfold FusionPass.fuseMatMulAdd
  rw [fuseMatMulAddLoop_eq, hinv.topoOrder]
  have hs := fuseLoopGen_spec .MATMUL .FUSED_MATMUL_ADD isAddOn
    (fun g p node q v h1 h2 => isAddOn_updNode g p node q v h1 h2)
    (List.range g.nodes.length) g false (List.nodup_range _)
  exact hs.2 (List.range p) p _ node (range_split _ _ hlt) hp

theorem fuseConvReLU_retyped (g : Graph) : Retyped g (FusionPass.fuseConvReLU g).1 := by
  unfold FusionPass.fuseConvReLU
  rw [fuseConvReLULoop_eq]
  exact fuseLoopGen_retyped .CONV2D .FUSED_CONV_RELU isReLUOn rfl _ _ _

theorem fuseMatMulAdd_retyped (g : Graph) : Retyped g (FusionPass.fuseMatMulAdd g).1 := by
  unfold FusionPass.fuseMatMulAdd
  rw [fuseMatMulAddLoop_eq]
  exact fuseLoopGen_retyped .MATMUL .FUSED_MATMUL_ADD isAddOn rfl _ _ _

/-- The fusion pass only retypes nodes, within their base kind. -/
theorem FusionPass.run_retyped (g : Graph) : Retyped g (FusionPass.run g).1 :=
  (fuseConvReLU_retyped g).trans (fuseMatMulAdd_retyped _)

theorem fuseMatMulAdd_frame (g : Graph) (x : Nat) (node : Node) (hx : g.nodes[x]? = some node)
    (hne : node.type ≠ .MATMUL) : (FusionPass.fuseMatMulAdd g).1.nodes[x]? = some node := by
  unfold FusionPass.fuseMatMulAdd
  rw [fuseMatMulAddLoop_eq]
  exact fuseLoopGen_frame _ _ _ _ _ _ x node hx hne

theorem fuseConvReLU_frame (g : Graph) (x : Nat) (node : Node) (hx : g.nodes[x]? = some node)
    (hne : node.type ≠ .CONV2D) : (FusionPass.fuseConvReLU g).1.nodes[x]? = some node := by
  unfold FusionPass.fuseConvReLU
  rw [fuseConvReLULoop_eq]
  exact fuseLoopGen_frame _ _ _ _ _ _ x node hx hne

/-- The kind that the fusion pass leaves on a CONV2D node with the single output `v` of a built
graph: fused exactly when a later RELU node has `v` as its only input. -/
theorem run_kindOf_conv (g : Graph) (hinv : g.Inv) (p v : Nat) (c : Node)
    (hc : g.nodes[p]? = some c) (hconv : c.type = .CONV2D) (hout : c.outputs = [v]) :
    (FusionPass.run g).1.kindOf p =
      some (if (List.range' (p + 1) (g.nodes.length - p - 1)).any (fun q => isReLUOn g q v) = true
        then .FUSED_CONV_RELU else .CONV2D) := by
  have h1 := fuseConvReLU_node g hinv p c hc
  have hty : (fusedNode .CONV2D .FUSED_CONV_RELU isReLUOn g
      (List.range' (p + 1) (g.nodes.length - p - 1)) c).type =
      (if (List.range' (p + 1) (g.nodes.length - p - 1)).any (fun q => isReLUOn g q v) = true
        then .FUSED_CONV_RELU else .CONV2D) := by
    unfold fusedNode
    simp only [hconv, hout, List.length_singleton, List.getD_cons_zero, true_and]
    split <;> simp [Node.setType, hconv]
  have h2 := fuseMatMulAdd_frame (FusionPass.fuseConvReLU g).1 p _ h1
    (by rw [hty]; split <;> simp)
  show ((FusionPass.fuseMatMulAdd (FusionPass.fuseConvReLU g).1).1.nodes[p]?).map _ = _
  rw [h2, Option.map_some', hty]

/-! ## C2: fusion of Conv2D and ReLU -/

/-- C2 (amended): in a graph made by the builder, a CONV2D node `c` with the single output
value `v` has kind FUSED_CONV_RELU after `FusionPass.run` if and only if some RELU node of the
graph has `v` as its only input, whatever else reads `v`; otherwise `c` stays CONV2D. -/
theorem C2_conv_fused_iff_relu_reads (g : Graph) (hb : Built g) (p v : Nat) (c : Node)
    (hc : g.nodes[p]? = some c) (hconv : c.type = .CONV2D) (hout : c.outputs = [v]) :
    ((FusionPass.run g).1.kindOf p = some .FUSED_CONV_RELU ↔
        ∃ (q : Nat) (relu : Node), g.nodes[q]? = some relu ∧ relu.type = .RELU ∧
          relu.inputs = [v]) ∧
      ((¬ ∃ (q : Nat) (relu : Node), g.nodes[q]? = some relu ∧ relu.type = .RELU ∧
          relu.inputs = [v]) → (FusionPass.run g).1.kindOf p = some .CONV2D) := by
  have hinv := hb.inv
  have hk := run_kindOf_conv g hinv p v c hc hconv hout
  have hvp : v = p := by
    have := hinv.node_outputs p c hc
    rw [hout] at this
    simpa using this
  have hiff : (List.range' (p + 1) (g.nodes.length - p - 1)).any (fun q => isReLUOn g q v) = true
      ↔ ∃ (q : Nat) (relu : Node), g.nodes[q]? = some relu ∧ relu.type = .RELU ∧
          relu.inputs = [v] := by
    rw [List.any_eq_true]
    constructor
    · rintro ⟨q, _, hq⟩
      obtain ⟨relu, h1, h2, h3⟩ := (isReLUOn_iff g q v).1 hq
      exact ⟨q, relu, h1, h2, h3⟩
    · rintro ⟨q, relu, h1, h2, h3⟩
      refine ⟨q, ?_, (isReLUOn_iff g q v).2 ⟨relu, h1, h2, h3⟩⟩
      have hq : q < g.nodes.length := (List.getElem?_eq_some.1 h1).1
      have hvq : v < q := hinv.node_inputs q relu h1 v (by rw [h3]; simp)
      rw [List.mem_range'_1]
      omega
  rw [hk]
  constructor
  · rw [← hiff]
    constructor
    · intro h
      by_contra hn
      rw [if_neg hn] at h
      cases h
    · intro h
      rw [if_pos h]
  · intro hn
    rw [if_neg (fun h => hn (hiff.1 h))]

/-- C2, witness: in the graph of `main.cpp` the convolution (node 1, output value 1) is read by
the ReLU (node 2), and is fused. -/
theorem C2_conv_fused_iff_relu_reads_witness :
    (FusionPass.run exMain).1.kindOf 1 = some .FUSED_CONV_RELU :=
  (C2_conv_fused_iff_relu_reads exMain exMain_built 1 1
    { id := 1, type := .CONV2D, inputs := [0], outputs := [1],
      int_attrs := [("padding", 1), ("stride", 1), ("kernel_size", 3), ("out_channels", 64)] }
    (by decide) rfl rfl).1.2
    ⟨2, { id := 2, type := .RELU, inputs := [1], outputs := [2], int_attrs := [] },
      by decide, rfl, rfl⟩

/-- C2, counterexample: in a graph made by the builder, the output value 1 of the convolution
(node 1) is read by two nodes, the ReLU (node 2) and the MaxPool (node 3); the convolution is
fused all the same. -/
theorem C2_fused_with_two_consumers :
    Built exTwoReaders ∧
      exTwoReaders.kindOf 1 = some .CONV2D ∧
      (exTwoReaders.nodes[1]?).map (fun c => c.outputs) = some [1] ∧
      exTwoReaders.consumers 1 = [2, 3] ∧
      exTwoReaders.kindOf 3 = some .MAXPOOL ∧
      (FusionPass.run exTwoReaders).1.kindOf 1 = some .FUSED_CONV_RELU :=
  ⟨built_runCalls _ _ Built.create (by decide), by decide, by decide, by decide, by decide,
    by decide⟩

/-! ## C5: the shape of the generated trace -/

theorem numel_eq_prod (s : Shape) : s.numel = s.dims.prod := by
  unfold Shape.numel
  rw [← List.foldr_reverse]
  have h : ∀ (l : List Int) (a : Int), List.foldl (fun n d => n * d) a l = a * l.prod := by
    intro l
    induction l with
    | nil => intro a; simp
    | cons d l ih => intro a; simp [ih, mul_assoc]
  rw [List.foldr_reverse, h]
  simp

theorem wrapInt64_of_range (x : Int) (h1 : -9223372036854775808 ≤ x)
    (h2 : x < 9223372036854775808) : wrapInt64 x = x := by
  unfold wrapInt64
  omega

/-- Reducing an intermediate sum does not change the reduced sum. -/
theorem wrapInt64_add (a b : Int) : wrapInt64 (wrapInt64 a + b) = wrapInt64 (a + b) := by
  unfold wrapInt64
  omega

/-- The value that `wrapInt64` gives is in the range of `int64_t` and differs from its
argument by a multiple of `2 ^ 64`. -/
theorem wrapInt64_spec (x : Int) :
    -9223372036854775808 ≤ wrapInt64 x ∧ wrapInt64 x < 9223372036854775808 ∧
      (x - wrapInt64 x) % 18446744073709551616 = 0 := by
  unfold wrapInt64
  omega

theorem foldl_bytes (g : Graph) (vs : List Nat) :
    ∀ acc : Int,
      vs.foldl (fun acc v => wrapInt64 (acc + (g.shapeOf v).numel * sizeofFloat))
          (wrapInt64 acc)
        = wrapInt64 (acc + specBytes g vs) := by
  induction vs with
  | nil => intro acc; simp [specBytes]
  | cons v vs ih =>
    intro acc
    rw [List.foldl_cons, wrapInt64_add, ih]
    simp only [specBytes, List.map_cons, List.sum_cons, numel_eq_prod, sizeofFloat]
    congr 1
    ring

theorem foldl_bytes_zero (g : Graph) (vs : List Nat) :
    vs.foldl (fun acc v => wrapInt64 (acc + (g.shapeOf v).numel * sizeofFloat)) 0
      = wrapInt64 (specBytes g vs) := by
  have h := foldl_bytes g vs 0
  have h0 : wrapInt64 0 = 0 := by decide
  rw [h0, zero_add] at h
  exact h

theorem generateForNode_eq (g : Graph) (node : Node) (instructions : List Instruction) :
    CodeGenerator.generateForNode g node instructions
      = instructions ++ (specForNode g node).map Instruction.wrapSizes := by
  have h0 : wrapInt64 0 = 0 := by decide
  unfold CodeGenerator.generateForNode specForNode
  split
  · simp
  · simp [specTriple, foldl_bytes_zero, Instruction.wrapSizes, h0]

theorem generate_foldl (g : Graph) (ps : List Nat) :
    ∀ acc : List Instruction,
      ps.foldl (fun instructions p =>
          match g.nodes[p]? with
          | some node => CodeGenerator.generateForNode g node instructions
          | none => instructions) acc
        = acc ++ ((ps.filterMap (fun p => g.nodes[p]?)).flatMap (specForNode g)).map
            Instruction.wrapSizes := by
  induction ps with
  | nil => intro acc; simp
  | cons p ps ih =>
    intro acc
    rw [List.foldl_cons, ih]
    cases hp : g.nodes[p]? with
    | none => simp [hp]
    | some node => simp [hp, generateForNode_eq]

/-- The trace of any graph: the instructions of the nodes of the topological order, in turn,
with the byte sizes as `int64_t` holds them. -/
theorem generate_eq_topo (g : Graph) :
    CodeGenerator.generate g
      = ((g.getNodesInTopoOrder.filterMap (fun p => g.nodes[p]?)).flatMap
          (specForNode g)).map Instruction.wrapSizes := by
  unfold CodeGenerator.generate
  rw [generate_foldl]
  simp

theorem filterMap_range_getElem? {α : Type} (l : List α) :
    (List.range l.length).filterMap (fun p => l[p]?) = l := by
  induction l using List.reverseRecOn with
  | nil => simp
  | append_singleton l a ih =>
    rw [List.length_append, List.length_singleton, List.range_succ, List.filterMap_append]
    have h1 : List.filterMap (fun p => (l ++ [a])[p]?) (List.range l.length) = l := by
      conv_rhs => rw [← ih]
      apply List.filterMap_congr
      intro x hx
      rw [List.getElem?_append_left (List.mem_range.1 hx)]
    rw [h1]
    simp

theorem specForNode_length (g : Graph) (node : Node) :
    (specForNode g node).length =
      if node.type ≠ .INPUT ∧ node.type ≠ .OUTPUT then 3 else 0 := by
  unfold specForNode
  by_cases h : node.type = .INPUT ∨ node.type = .OUTPUT
  · rw [if_pos h, if_neg (by tauto)]; rfl
  · rw [if_neg h, if_pos (by tauto)]; rfl

theorem flatMap_spec_length (g : Graph) (ns : List Node) :
    (ns.flatMap (specForNode g)).length
      = 3 * (ns.filter
          (fun node => decide (node.type ≠ .INPUT ∧ node.type ≠ .OUTPUT))).length := by
  induction ns with
  | nil => simp
  | cons n ns ih =>
    rw [List.flatMap_cons, List.length_append, ih, specForNode_length, List.filter_cons]
    by_cases h : n.type ≠ .INPUT ∧ n.type ≠ .OUTPUT
    · rw [if_pos h, if_pos (by simpa using h), List.length_cons]
      omega
    · rw [if_neg h, if_neg (by simpa using h)]
      omega

/-- The instructions of a node whose byte sums are in the range of `int64_t` are stored as
they are. -/
theorem specForNode_wrapSizes (g : Graph) (node : Node)
    (hin : -9223372036854775808 ≤ specBytes g node.inputs ∧
      specBytes g node.inputs < 9223372036854775808)
    (hout : -9223372036854775808 ≤ specBytes g node.outputs ∧
      specBytes g node.outputs < 9223372036854775808) :
    (specForNode g node).map Instruction.wrapSizes = specForNode g node := by
  have h0 : wrapInt64 0 = 0 := by decide
  unfold specForNode
  split
  · rfl
  · simp [specTriple, Instruction.wrapSizes, h0, wrapInt64_of_range _ hin.1 hin.2,
      wrapInt64_of_range _ hout.1 hout.2]

/-- C5 (amended): for every graph whose node identifiers are the positions in the node table
(as in every graph that `createNode` fills), `generate` emits, for the nodes in topological
order (which is the order of the node table), nothing for INPUT and OUTPUT nodes and for every
other node the three consecutive instructions LOAD (input bytes, 0, 0), COMPUTE (input bytes,
output bytes, `computeFLOPs`), STORE (0, output bytes, 0), where the bytes of a list of values
are the sum of `numel × 4` as the code holds it: computed modulo `2 ^ 64` and stored in
`int64_t` (`wrapInt64`), which is the sum itself whenever the sum is in the range of
`int64_t`; the trace has 3 instructions per node that is neither INPUT nor OUTPUT; `numel` is
the product of the dimensions, 1 for the empty shape. -/
theorem C5_generate_triples (g : Graph)
    (hid : ∀ (p : Nat) (node : Node), g.nodes[p]? = some node → node.id = p) :
    CodeGenerator.generate g
        = ((g.getNodesInTopoOrder.filterMap (fun p => g.nodes[p]?)).flatMap
            (specForNode g)).map Instruction.wrapSizes ∧
      CodeGenerator.generate g = (g.nodes.flatMap (specForNode g)).map Instruction.wrapSizes ∧
      ((∀ node ∈ g.nodes, ¬ (node.type = .INPUT ∨ node.type = .OUTPUT) →
          (-9223372036854775808 ≤ specBytes g node.inputs ∧
            specBytes g node.inputs < 9223372036854775808) ∧
          (-9223372036854775808 ≤ specBytes g node.outputs ∧
            specBytes g node.outputs < 9223372036854775808)) →
        CodeGenerator.generate g = g.nodes.flatMap (specForNode g)) ∧
      (∀ inst : Instruction,
        inst.wrapSizes =
          { type := inst.type, op_name := inst.op_name,
            input_size := wrapInt64 inst.input_size,
            output_size := wrapInt64 inst.output_size, flops := inst.flops }) ∧
      (∀ x : Int, -9223372036854775808 ≤ wrapInt64 x ∧ wrapInt64 x < 9223372036854775808 ∧
        (x - wrapInt64 x) % 18446744073709551616 = 0) ∧
      (∀ x : Int, -9223372036854775808 ≤ x → x < 9223372036854775808 → wrapInt64 x = x) ∧
      (∀ node : Node, node.type = .INPUT ∨ node.type = .OUTPUT → specForNode g node = []) ∧
      (∀ node : Node, ¬ (node.type = .INPUT ∨ node.type = .OUTPUT) →
        specForNode g node =
          [{ type := .LOAD, op_name := opTypeToString node.type,
             input_size := (node.inputs.map (fun v => (g.shapeOf v).numel * 4)).sum,
             output_size := 0, flops := 0 },
           { type := .COMPUTE, op_name := opTypeToString node.type,
             input_size := (node.inputs.map (fun v => (g.shapeOf v).numel * 4)).sum,
             output_size := (node.outputs.map (fun v => (g.shapeOf v).numel * 4)).sum,
             flops := CodeGenerator.computeFLOPs g node },
           { type := .STORE, op_name := opTypeToString node.type,
             input_size := 0,
             output_size := (node.outputs.map (fun v => (g.shapeOf v).numel * 4)).sum,
             flops := 0 }]) ∧
      (CodeGenerator.generate g).length =
        3 * (g.nodes.filter
          (fun node => decide (node.type ≠ .INPUT ∧ node.type ≠ .OUTPUT))).length ∧
      (∀ s : Shape, s.numel = s.dims.prod) ∧
      Shape.numel { dims := [] } = 1 := by
  have hgen : CodeGenerator.generate g
      = (g.nodes.flatMap (specForNode g)).map Instruction.wrapSizes := by
    rw [generate_eq_topo, topoOrder_of_ids g hid, filterMap_range_getElem?]
  refine ⟨generate_eq_topo g, hgen, ?_, fun _ => rfl, wrapInt64_spec, wrapInt64_of_range,
    ?_, ?_, ?_, numel_eq_prod, rfl⟩
  · intro hrange
    rw [hgen, List.map_flatMap]
    apply List.flatMap_congr
    intro node hnode
    by_cases ht : node.type = .INPUT ∨ node.type = .OUTPUT
    · simp [specForNode, ht]
    · exact specForNode_wrapSizes g node (hrange node hnode ht).1 (hrange node hnode ht).2
  · intro node h
    simp [specForNode, h]
  · intro node h
    simp [specForNode, h, specTriple, specBytes, numel_eq_prod]
  · rw [hgen, List.length_map, flatMap_spec_length]


/-- C5, witness: the node identifiers of the graph of `main.cpp` are positions; its byte sums
are in the range of `int64_t`, so that its trace is the list of the triples with the sums
themselves, 6 instructions, 3 for each of the two nodes that are neither INPUT nor OUTPUT; the
LOAD of the convolution reads `1 × 3 × 224 × 224 × 4 = 602112` bytes. -/
theorem C5_generate_triples_witness :
    (∀ (p : Nat) (node : Node), exMain.nodes[p]? = some node → node.id = p) ∧
      CodeGenerator.generate exMain = exMain.nodes.flatMap (specForNode exMain) ∧
      (CodeGenerator.generate exMain).length = 6 ∧
      (CodeGenerator.generate exMain)[0]?
        = some { type := .LOAD, op_name := "Conv2D", input_size := 602112, output_size := 0,
                 flops := 0 } := by
  have h := C5_generate_triples exMain exMain_built.inv.node_id
  refine ⟨exMain_built.inv.node_id, h.2.2.1 (by decide), ?_, ?_⟩
  · rw [h.2.2.2.2.2.2.2.2.1]
    decide
  · rw [h.2.2.1 (by decide)]
    decide

/-- C5, counterexample: for an input of shape `[2 ^ 31, 2 ^ 31]` and a ReLU of it, the sum
over the input values of the ReLU node of `numel × 4` is `2 ^ 64`, and the LOAD, COMPUTE and
STORE instructions that `generate` emits for the node have the sizes 0. -/
theorem C5_byte_size_wraps :
    (∀ (p : Nat) (node : Node), exHugeInput.nodes[p]? = some node → node.id = p) ∧
      (exHugeInput.nodes[1]?).map
          (fun node => (node.type,
            (node.inputs.map (fun v => (exHugeInput.shapeOf v).numel * 4)).sum))
        = some (.RELU, 18446744073709551616) ∧
      CodeGenerator.generate exHugeInput
        = [{ type := .LOAD, op_name := "ReLU", input_size := 0, output_size := 0,
             flops := 0 },
           { type := .COMPUTE, op_name := "ReLU", input_size := 0, output_size := 0,
             flops := 4611686018427387904 },
           { type := .STORE, op_name := "ReLU", input_size := 0, output_size := 0,
             flops := 0 }] := by
  refine ⟨?_, by decide, by decide⟩
  exact (built_runCalls exHugeInputCalls Graph.create Built.create (by decide)).inv.node_id

/-! ## C3: the trace before and after fusion -/

theorem convReluGraph_eq (shape : Shape) (co k s p : Int) :
    convReluGraph shape co k s p =
      { nodes := [{ id := 0, type := .INPUT, inputs := [], outputs := [0], int_attrs := [] },
                  { id := 1, type := .CONV2D, inputs := [0], outputs := [1],
                    int_attrs := [("padding", p), ("stride", s), ("kernel_size", k),
                      ("out_channels", co)] },
                  { id := 2, type := .RELU, inputs := [1], outputs := [2], int_attrs := [] },
                  { id := 3, type := .OUTPUT, inputs := [2], outputs := [3], int_attrs := [] }],
        values := [{ id := 0, shape := shape },
                   { id := 1, shape := { dims := [shape.dim 0, co,
                       Int.tdiv (shape.dim 2 + 2 * p - k) s + 1,
                       Int.tdiv (shape.dim 3 + 2 * p - k) s + 1] } },
                   { id := 2, shape := { dims := [shape.dim 0, co,
                       Int.tdiv (shape.dim 2 + 2 * p - k) s + 1,
                       Int.tdiv (shape.dim 3 + 2 * p - k) s + 1] } },
                   { id := 3, shape := { dims := [shape.dim 0, co,
                       Int.tdiv (shape.dim 2 + 2 * p - k) s + 1,
                       Int.tdiv (shape.dim 3 + 2 * p - k) s + 1] } }],
        next_node_id := 4, next_value_id := 4 } := by
  simp [convReluGraph, addInput_eq, addConv2D_eq, addReLU_eq, addOutput_eq, Graph.create,
    Graph.shapeOf]

theorem convReluGraph_fused (shape : Shape) (co k s p : Int) :
    (FusionPass.run (convReluGraph shape co k s p)).1 =
      { nodes := [{ id := 0, type := .INPUT, inputs := [], outputs := [0], int_attrs := [] },
                  { id := 1, type := .FUSED_CONV_RELU, inputs := [0], outputs := [1],
                    int_attrs := [("padding", p), ("stride", s), ("kernel_size", k),
                      ("out_channels", co)] },
                  { id := 2, type := .RELU, inputs := [1], outputs := [2], int_attrs := [] },
                  { id := 3, type := .OUTPUT, inputs := [2], outputs := [3], int_attrs := [] }],
        values := (convReluGraph shape co k s p).values,
        next_node_id := 4, next_value_id := 4 } := by
  rw [convReluGraph_eq]
  simp only [FusionPass.run, FusionPass.fuseConvReLU, Graph.getNodesInTopoOrder, topoLoop]
  simp [fuseConvReLULoop, fuseConvReLUInner, isReLUOn, Graph.updNode, Node.setType]
  simp [FusionPass.fuseMatMulAdd, Graph.getNodesInTopoOrder, topoLoop, fuseMatMulAddLoop]

/-- C3 (amended): for every graph `Input → Conv2D → ReLU → Output` made by the builder,
`generate` returns 6 instructions on the unfused graph, a LOAD/COMPUTE/STORE triple of the
Conv2D node and one of the ReLU node, and it returns 6 instructions on the graph after
`FusionPass.run` as well: the triple of the fused node followed by the triple of the ReLU node,
which the pass leaves in the graph. -/
theorem C3_trace_of_conv_relu (shape : Shape) (out_channels kernel_size stride padding : Int) :
    (CodeGenerator.generate (convReluGraph shape out_channels kernel_size stride padding)).map
        (fun i => (i.type, i.op_name))
      = [(.LOAD, "Conv2D"), (.COMPUTE, "Conv2D"), (.STORE, "Conv2D"),
         (.LOAD, "ReLU"), (.COMPUTE, "ReLU"), (.STORE, "ReLU")] ∧
    (CodeGenerator.generate
        (FusionPass.run (convReluGraph shape out_channels kernel_size stride padding)).1).map
        (fun i => (i.type, i.op_name))
      = [(.LOAD, "FusedConvReLU"), (.COMPUTE, "FusedConvReLU"), (.STORE, "FusedConvReLU"),
         (.LOAD, "ReLU"), (.COMPUTE, "ReLU"), (.STORE, "ReLU")] ∧
    (CodeGenerator.generate
        (convReluGraph shape out_channels kernel_size stride padding)).length = 6 ∧
    (CodeGenerator.generate
        (FusionPass.run (convReluGraph shape out_channels kernel_size stride padding)).1).length
      = 6 := by
  have h1 : (CodeGenerator.generate
      (convReluGraph shape out_channels kernel_size stride padding)).map
        (fun i => (i.type, i.op_name))
      = [(.LOAD, "Conv2D"), (.COMPUTE, "Conv2D"), (.STORE, "Conv2D"),
         (.LOAD, "ReLU"), (.COMPUTE, "ReLU"), (.STORE, "ReLU")] := by
    rw [convReluGraph_eq]
    simp [CodeGenerator.generate, Graph.getNodesInTopoOrder, topoLoop,
      CodeGenerator.generateForNode, opTypeToString]
  have h2 : (CodeGenerator.generate
      (FusionPass.run (convReluGraph shape out_channels kernel_size stride padding)).1).map
        (fun i => (i.type, i.op_name))
      = [(.LOAD, "FusedConvReLU"), (.COMPUTE, "FusedConvReLU"), (.STORE, "FusedConvReLU"),
         (.LOAD, "ReLU"), (.COMPUTE, "ReLU"), (.STORE, "ReLU")] := by
    rw [convReluGraph_fused, convReluGraph_eq]
    simp [CodeGenerator.generate, Graph.getNodesInTopoOrder, topoLoop,
      CodeGenerator.generateForNode, opTypeToString]
  refine ⟨h1, h2, ?_, ?_⟩
  · have := congrArg List.length h1
    simpa using this
  · have := congrArg List.length h2
    simpa using this

/-- C3, counterexample: on the graph of `main.cpp` the trace generated after `FusionPass.run`
has 6 instructions, not 3. -/
theorem C3_fused_trace_has_six :
    (FusionPass.run exMain).1.kindOf 1 = some .FUSED_CONV_RELU ∧
      (CodeGenerator.generate (FusionPass.run exMain).1).length = 6 ∧
      (CodeGenerator.generate (FusionPass.run exMain).1).length ≠ 3 := by
  decide

/-! ## C6: the FLOP model -/

theorem shapeOf_congr (g1 g2 : Graph) (h : g2.values = g1.values) (v : Nat) :
    g2.shapeOf v = g1.shapeOf v := by
  unfold Graph.shapeOf; rw [h]

theorem kindOK_retyped (g1 g2 : Graph) (hv : g2.values = g1.values) (node : Node) (t : OpType)
    (ht : baseKind t = baseKind node.type) (h : KindOK g1 node) :
    KindOK g2 (node.setType t) := by
  unfold KindOK at h ⊢
  have hs : ∀ v, g2.shapeOf v = g1.shapeOf v := shapeOf_congr g1 g2 hv
  simp only [Node.setType, ht, hs]
  exact h

theorem Retyped.backward {g1 g2 : Graph} (h : Retyped g1 g2) (p : Nat) (node2 : Node)
    (hp : g2.nodes[p]? = some node2) :
    ∃ (node : Node) (t : OpType), g1.nodes[p]? = some node ∧ baseKind t = baseKind node.type ∧
      node2 = node.setType t := by
  obtain ⟨_, _, _, hlen, hnodes⟩ := h
  have hlt : p < g1.nodes.length := by
    rw [← hlen]; exact (List.getElem?_eq_some.1 hp).1
  obtain ⟨t, ht, h2⟩ := hnodes p g1.nodes[p] (List.getElem?_eq_getElem hlt)
  rw [hp] at h2
  exact ⟨g1.nodes[p], t, List.getElem?_eq_getElem hlt, ht, by simpa using h2⟩

/-- Retyping within the base kinds keeps the invariant of built graphs. -/
theorem Graph.Inv.retyped {g1 g2 : Graph} (hinv : g1.Inv) (h : Retyped g1 g2) : g2.Inv := by
  have hb := h.backward
  obtain ⟨hv, hn1, hn2, hlen, _⟩ := h
  constructor
  · rw [hv, hlen]; exact hinv.len_values
  · rw [hn1, hlen]; exact hinv.next_node
  · rw [hn2, hv]; exact hinv.next_value
  · intro j value hj
    rw [hv] at hj
    exact hinv.value_id j value hj
  · intro p node hp
    obtain ⟨n, t, h1, _, rfl⟩ := hb p node hp
    exact hinv.node_id p n h1
  · intro p node hp
    obtain ⟨n, t, h1, _, rfl⟩ := hb p node hp
    exact hinv.node_outputs p n h1
  · intro p node hp
    obtain ⟨n, t, h1, _, rfl⟩ := hb p node hp
    exact hinv.node_inputs p n h1
  · intro p node hp
    obtain ⟨n, t, h1, ht, rfl⟩ := hb p node hp
    exact kindOK_retyped g1 g2 hv n t ht (hinv.node_kind p n h1)

theorem wrapInt32_of_range (x : Int) (h1 : -2147483648 ≤ x) (h2 : x ≤ 2147483647) :
    wrapInt32 x = x := by
  unfold wrapInt32
  omega

/-- C7 (amended): for every positive `cache_size_kb` whose product `cache_size_kb * 1024` is
representable as a 32-bit `int` (at most `2 ^ 31 - 1`) the capacity of the cache model is
`cache_size_kb * 1024` bytes; and for every cache state with usage `u` and every request of
size `s`, `access` reports a hit iff `s ≤ capacity` and `u + s ≤ capacity`; on a hit the usage
becomes `u + s` and the hit counter grows by one; on a miss the miss counter grows by one and
the usage becomes `min (u + s) capacity`.  Nothing else of the state changes. -/
theorem C7_cache_access (size_kb : Int) (hkb : 0 < size_kb)
    (hrep : size_kb * 1024 ≤ 2147483647) (c : CacheModel) (address s : Int) :
    (CacheModel.new size_kb).size_bytes = size_kb * 1024 ∧
      ((c.access address s).1 = true
        ↔ s ≤ c.size_bytes ∧ c.current_usage + s ≤ c.size_bytes) ∧
      ((c.access address s).1 = true →
        (c.access address s).2 =
          { size_bytes := c.size_bytes, current_usage := c.current_usage + s,
            hits := c.hits + 1, misses := c.misses }) ∧
      ((c.access address s).1 = false →
        (c.access address s).2 =
          { size_bytes := c.size_bytes, current_usage := min (c.current_usage + s) c.size_bytes,
            hits := c.hits, misses := c.misses + 1 }) := by
  refine ⟨wrapInt32_of_range _ (by omega) hrep, ?_, ?_, ?_⟩
  · unfold CacheModel.access CacheModel.miss
    by_cases h1 : s ≤ c.size_bytes
    · by_cases h2 : c.current_usage + s ≤ c.size_bytes
      · simp [h1, h2]
      · simp [h1, h2]
    · simp [h1]
  · unfold CacheModel.access CacheModel.miss
    by_cases h1 : s ≤ c.size_bytes
    · by_cases h2 : c.current_usage + s ≤ c.size_bytes
      · simp [h1, h2]
      · simp [h1, h2]
    · simp [h1]
  · unfold CacheModel.access CacheModel.miss
    by_cases h1 : s ≤ c.size_bytes
    · by_cases h2 : c.current_usage + s ≤ c.size_bytes
      · simp [h1, h2]
      · simp [h1, h2]
    · simp [h1]

/-- C7, witness: a cache of 1 KB has 1024 bytes; at usage 1000 a request of 24 bytes is a hit
and fills the cache, a request of 25 bytes is a miss and clamps the usage to 1024. -/
theorem C7_cache_access_witness :
    (CacheModel.new 1).size_bytes = 1024 ∧
      (CacheModel.access { size_bytes := 1024, current_usage := 1000, hits := 3, misses := 1 }
          0 24)
        = (true, { size_bytes := 1024, current_usage := 1024, hits := 4, misses := 1 }) ∧
      (CacheModel.access { size_bytes := 1024, current_usage := 1000, hits := 3, misses := 1 }
          0 25)
        = (false, { size_bytes := 1024, current_usage := 1024, hits := 3, misses := 2 }) := by
  have h := C7_cache_access 1 (by decide) (by decide)
    { size_bytes := 1024, current_usage := 1000, hits := 3, misses := 1 } 0 24
  exact ⟨h.1, by decide, by decide⟩

/-- C7, counterexample: for `cache_size_kb = 2097152`, which is positive, the product
`cache_size_kb * 1024 = 2 ^ 31` is not representable as a 32-bit `int`, and the capacity of
the cache model is `-2147483648` bytes, not `2147483648`; a request of one byte is then a
miss in the empty cache. -/
theorem C7_capacity_wraps :
    (0 : Int) < 2097152 ∧ (2097152 : Int) * 1024 = 2147483648 ∧
      (CacheModel.new 2097152).size_bytes = -2147483648 ∧
      (CacheModel.new 2097152).size_bytes ≠ 2097152 * 1024 ∧
      ((CacheModel.new 2097152).access 0 1).1 = false := by
  decide

/-! ## C8: a trace of equal loads -/

theorem executeStep_load_cache (rnd : ℚ → ℚ) (st : ExecState) (inst : Instruction)
    (ht : inst.type = .LOAD) :
    (Simulator.executeStep rnd st inst).sim.cache = (st.sim.cache.access 0 inst.input_size).2 ∧
      (Simulator.executeStep rnd st inst).sim.config = st.sim.config := by
  unfold Simulator.executeStep Simulator.executeSwitch Simulator.simulateLoad
  simp only [ht]
  split <;> exact ⟨rfl, rfl⟩

theorem execute_cache_counters (rnd : ℚ → ℚ) (s : Simulator)
    (instructions : List Instruction) :
    (s.execute rnd instructions).1.cache_hits
        = (instructions.foldl (Simulator.executeStep rnd) s.executeInit).sim.cache.hits ∧
      (s.execute rnd instructions).1.cache_misses
        = (instructions.foldl (Simulator.executeStep rnd) s.executeInit).sim.cache.misses := by
  unfold Simulator.execute
  simp only []
  split <;> exact ⟨rfl, rfl⟩

/-- The cache after `k` loads of `s` bytes each, from the reset state. -/
theorem loads_cache (rnd : ℚ → ℚ) (sim : Simulator) (C s : Int) (hC : 0 < C) (hs : 0 < s)
    (hcap : sim.cache.size_bytes = C) (inst : Instruction) (ht : inst.type = .LOAD)
    (hsz : inst.input_size = s) (k : Nat) :
    ((List.replicate k inst).foldl (Simulator.executeStep rnd) sim.executeInit).sim.cache =
      { size_bytes := C, current_usage := if (k : Int) * s ≤ C then (k : Int) * s else C,
        hits := min (k : Int) (C / s), misses := (k : Int) - min (k : Int) (C / s) } := by
  induction k with
  | zero =>
    have h0 : (0 : Int) ≤ C / s := Int.ediv_nonneg hC.le hs.le
    simp [Simulator.executeInit, CacheModel.reset, hcap, hC.le, h0]
  | succ k ih =>
    rw [List.replicate_succ', List.foldl_append, List.foldl_cons, List.foldl_nil,
      (executeStep_load_cache rnd _ inst ht).1, ih, hsz]
    have hks : (0 : Int) ≤ (k : Int) * s := by positivity
    have hcast : ((k + 1 : Nat) : Int) = (k : Int) + 1 := by push_cast; rfl
    rw [hcast]
    by_cases hnext : ((k : Int) + 1) * s ≤ C
    · have hk : (k : Int) * s ≤ C := by nlinarith
      have hsC : s ≤ C := by nlinarith
      have hq1 : (k : Int) + 1 ≤ C / s := (Int.le_ediv_iff_mul_le hs).2 hnext
      have hq : (k : Int) ≤ C / s := by omega
      have hu : (k : Int) * s + s ≤ C := by nlinarith
      unfold CacheModel.access
      simp only [if_pos hk, if_pos hnext, if_pos hsC, if_pos hu, min_eq_left hq,
        min_eq_left hq1]
      congr 1 <;> ring
    · have hq1 : C / s < (k : Int) + 1 := by
        rw [Int.ediv_lt_iff_lt_mul hs]
        omega
      have hq : C / s ≤ (k : Int) := by omega
      have hmin1 : min ((k : Int) + 1) (C / s) = C / s := min_eq_right (by omega)
      have hmin : min (k : Int) (C / s) = C / s := min_eq_right hq
      have hmiss : ∀ u : Int, (u = (k : Int) * s ∨ u = C) → u ≤ C →
          (CacheModel.access (⟨C, u, C / s, (k : Int) - C / s⟩ : CacheModel) 0 s).2
            = (⟨C, C, C / s, (k : Int) + 1 - C / s⟩ : CacheModel) := by
        intro u hu huC
        have hover : ¬ (u + s ≤ C) := by
          rcases hu with h | h
          · rw [h]; intro hle; apply hnext; nlinarith
          · rw [h]; omega
        unfold CacheModel.access CacheModel.miss
        by_cases h1 : s ≤ C
        · simp only [if_pos h1, if_neg hover]
          congr 1
          · exact min_eq_right (by omega)
          · ring
        · simp only [if_neg h1]
          congr 1
          · exact min_eq_right (by omega)
          · ring
      rw [hmin, hmin1, if_neg hnext]
      by_cases hk : (k : Int) * s ≤ C
      · rw [if_pos hk]
        exact hmiss _ (Or.inl rfl) hk
      · rw [if_neg hk]
        exact hmiss _ (Or.inr rfl) le_rfl

theorem hitAt_loads (rnd : ℚ → ℚ) (sim : Simulator) (C s : Int) (hC : 0 < C) (hs : 0 < s)
    (hcap : sim.cache.size_bytes = C) (inst : Instruction) (ht : inst.type = .LOAD)
    (hsz : inst.input_size = s) (n i : Nat) (h1 : 1 ≤ i) (hn : i ≤ n) :
    sim.hitAt rnd (List.replicate n inst) i = true ↔ (i : Int) * s ≤ C := by
  unfold Simulator.hitAt
  have hget : (List.replicate n inst)[i - 1]? = some inst := by
    rw [List.getElem?_replicate]
    simp
    omega
  rw [hget]
  simp only []
  rw [List.take_replicate, min_eq_left (by omega),
    loads_cache rnd sim C s hC hs hcap inst ht hsz (i - 1), hsz]
  have hcast : ((i - 1 : Nat) : Int) = (i : Int) - 1 := by omega
  rw [hcast]
  have hks : (0 : Int) ≤ ((i : Int) - 1) * s := by
    have : (0 : Int) ≤ (i : Int) - 1 := by omega
    positivity
  unfold CacheModel.access CacheModel.miss
  by_cases hi : (i : Int) * s ≤ C
  · have hk : ((i : Int) - 1) * s ≤ C := by nlinarith
    have hsC : s ≤ C := by nlinarith
    have hu : ((i : Int) - 1) * s + s ≤ C := by nlinarith
    simp only [if_pos hk, if_pos hsC, if_pos hu, hi]
  · by_cases hk : ((i : Int) - 1) * s ≤ C
    · have hu : ¬ (((i : Int) - 1) * s + s ≤ C) := by
        intro h; apply hi; nlinarith
      by_cases hsC : s ≤ C
      · simp [if_pos hk, if_pos hsC, if_neg hu, hi]
      · simp [if_pos hk, if_neg hsC, hi]
    · have hs0 : ¬ (s ≤ 0) := by omega
      by_cases hsC : s ≤ C
      · simp [if_neg hk, if_pos hsC, hs0, hi]
      · simp [if_neg hk, if_neg hsC, hi]

/-- C8: on a simulator whose cache has the capacity `C = cache_size_kb * 1024 > 0`, for every
size `s > 0` and every `n`, executing a trace of `n` LOADs of input size `s` makes the `i`-th
LOAD a hit iff `i * s ≤ C`, so that `cache_hits = min n ⌊C / s⌋` and
`cache_misses = n - cache_hits`; with `cache_size_kb = 1`, LOADs of 2048 bytes are all misses
and LOADs of 100 bytes hit for the first 10 and miss from the 11th on. -/
theorem C8_equal_loads (rnd : ℚ → ℚ) (sim : Simulator) (s : Int) (n : Nat)
    (inst : Instruction)
    (hcap : sim.cache.size_bytes = sim.config.cache_size_kb * 1024)
    (hC : 0 < sim.config.cache_size_kb * 1024) (hs : 0 < s) (ht : inst.type = .LOAD)
    (hsz : inst.input_size = s) :
    (∀ i : Nat, 1 ≤ i → i ≤ n →
        (sim.hitAt rnd (List.replicate n inst) i = true
          ↔ (i : Int) * s ≤ sim.config.cache_size_kb * 1024)) ∧
      (sim.execute rnd (List.replicate n inst)).1.cache_hits
        = min (n : Int) ⌊((sim.config.cache_size_kb * 1024 : ℤ) : ℚ) / (s : ℚ)⌋ ∧
      (sim.execute rnd (List.replicate n inst)).1.cache_misses
        = (n : Int) - (sim.execute rnd (List.replicate n inst)).1.cache_hits ∧
      (sim.config.cache_size_kb = 1 → s = 2048 → ∀ i : Nat, 1 ≤ i → i ≤ n →
        sim.hitAt rnd (List.replicate n inst) i = false) ∧
      (sim.config.cache_size_kb = 1 → s = 100 → ∀ i : Nat, 1 ≤ i → i ≤ n →
        (sim.hitAt rnd (List.replicate n inst) i = true ↔ i ≤ 10)) := by
  have hhit := hitAt_loads rnd sim _ s hC hs hcap inst ht hsz n
  have hcache := loads_cache rnd sim _ s hC hs hcap inst ht hsz n
  have hcnt := execute_cache_counters rnd sim (List.replicate n inst)
  have hfloor : ⌊((sim.config.cache_size_kb * 1024 : ℤ) : ℚ) / (s : ℚ)⌋
      = sim.config.cache_size_kb * 1024 / s := by
    rw [← tdiv_eq_floor _ s hC.le hs, Int.tdiv_eq_ediv hC.le hs.le]
  refine ⟨hhit, ?_, ?_, ?_, ?_⟩
  · rw [hcnt.1, hcache, hfloor]
  · rw [hcnt.1, hcnt.2, hcache]
  · intro hkb hs2 i h1 hi
    have h := hhit i h1 hi
    rw [hkb, hs2] at h
    cases hb : sim.hitAt rnd (List.replicate n inst) i with
    | false => rfl
    | true =>
      have := h.1 hb
      omega
  · intro hkb hs2 i h1 hi
    have h := hhit i h1 hi
    rw [hkb, hs2] at h
    rw [h]
    omega

/-- C8, witness: with a cache of 1 KB, of 15 LOADs of 100 bytes the first 10 hit and 5 miss,
and of 15 LOADs of 2048 bytes none hits. -/
theorem C8_equal_loads_witness :
    ((Simulator.new exOneKb).execute id (List.replicate 15 (loadOf 100))).1.cache_hits = 10 ∧
      ((Simulator.new exOneKb).execute id (List.replicate 15 (loadOf 100))).1.cache_misses = 5 ∧
      ((Simulator.new exOneKb).execute id (List.replicate 15 (loadOf 2048))).1.cache_hits = 0 ∧
      (Simulator.new exOneKb).hitAt id (List.replicate 15 (loadOf 100)) 10 = true ∧
      (Simulator.new exOneKb).hitAt id (List.replicate 15 (loadOf 100)) 11 = false := by
  have h100 := C8_equal_loads id (Simulator.new exOneKb) 100 15 (loadOf 100) rfl (by decide)
    (by decide) rfl rfl
  have h2048 := C8_equal_loads id (Simulator.new exOneKb) 2048 15 (loadOf 2048) rfl (by decide)
    (by decide) rfl rfl
  have hf100 : ⌊(((Simulator.new exOneKb).config.cache_size_kb * 1024 : ℤ) : ℚ)
      / ((100 : ℤ) : ℚ)⌋ = 10 := by
    simp only [Simulator.new, exOneKb]
    norm_num [Int.floor_eq_iff]
  have hf2048 : ⌊(((Simulator.new exOneKb).config.cache_size_kb * 1024 : ℤ) : ℚ)
      / ((2048 : ℤ) : ℚ)⌋ = 0 := by
    simp only [Simulator.new, exOneKb]
    norm_num [Int.floor_eq_iff]
  have hh : ((Simulator.new exOneKb).execute id (List.replicate 15 (loadOf 100))).1.cache_hits
      = 10 := by
    rw [h100.2.1, hf100]; decide
  refine ⟨hh, ?_, ?_, ?_, ?_⟩
  · rw [h100.2.2.1, hh]; decide
  · rw [h2048.2.1, hf2048]; decide
  · exact (h100.2.2.2.2 rfl rfl 10 (by decide) (by decide)).2 (by decide)
  · cases hb : (Simulator.new exOneKb).hitAt id (List.replicate 15 (loadOf 100)) 11 with
    | false => rfl
    | true =>
      have := (h100.2.2.2.2 rfl rfl 11 (by decide) (by decide)).1 hb
      omega

/-! ## C9 and C10: the cost of one instruction -/

/-- Exact arithmetic is a rounding. -/
theorem isRounding_id : IsRounding id := ⟨rfl, fun _ h => h⟩

theorem toInt64_zero : toInt64 0 = 0 := by
  unfold toInt64
  simp

theorem fdiv_zero_left {rnd : ℚ → ℚ} (hr : IsRounding rnd) (y : ℚ) :
    fdiv rnd (toDouble rnd 0) y = 0 := by
  unfold fdiv toDouble
  simp [hr.1]

/-- C10: for a configuration with positive fields, a COMPUTE instruction with `flops = 0` costs
exactly 1 cycle, a STORE with `output_size = 0` costs exactly 100 cycles, and a LOAD with
`input_size = 0` costs exactly 10 cycles when its cache access is a hit and exactly 100 cycles
when it is a miss. -/
theorem C10_cycle_floors (rnd : ℚ → ℚ) (hr : IsRounding rnd) (st : ExecState)
    (_hcfg : st.sim.config.Positive) (inst : Instruction) :
    (inst.type = .COMPUTE → inst.flops = 0 → (Simulator.executeSwitch rnd st inst).1 = 1) ∧
      (inst.type = .STORE → inst.output_size = 0 →
        (Simulator.executeSwitch rnd st inst).1 = 100) ∧
      (inst.type = .LOAD → inst.input_size = 0 →
        ((st.sim.cache.access 0 inst.input_size).1 = true →
          (Simulator.executeSwitch rnd st inst).1 = 10) ∧
        ((st.sim.cache.access 0 inst.input_size).1 = false →
          (Simulator.executeSwitch rnd st inst).1 = 100)) := by
  refine ⟨?_, ?_, ?_⟩
  · intro ht h0
    unfold Simulator.executeSwitch Simulator.simulateCompute
    simp only [ht, h0, fdiv_zero_left hr, toInt64_zero]
    rfl
  · intro ht h0
    unfold Simulator.executeSwitch Simulator.simulateStore
    simp only [ht, h0, fdiv_zero_left hr, toInt64_zero]
    rfl
  · intro ht h0
    unfold Simulator.executeSwitch Simulator.simulateLoad
    simp only [ht, h0, fdiv_zero_left hr, toInt64_zero]
    constructor
    · intro hhit
      rw [if_pos hhit]
    · intro hmiss
      rw [if_neg (by rw [hmiss]; simp)]
      rfl

/-- C10, witness: on the configuration `high_end` of `main.cpp`, a computation without flops
costs 1 cycle, a store of zero bytes 100 cycles, and a load of zero bytes, a hit in the empty
cache, 10 cycles. -/
theorem C10_cycle_floors_witness :
    (Simulator.executeSwitch id exHighEndStart exComputeZero).1 = 1 ∧
      (Simulator.executeSwitch id exHighEndStart exStoreZero).1 = 100 ∧
      (Simulator.executeSwitch id exHighEndStart (loadOf 0)).1 = 10 := by
  have hpos : exHighEndStart.sim.config.Positive := by
    simp [exHighEndStart, Simulator.executeInit, Simulator.new, exHighEnd, ChipConfig.Positive]
  exact ⟨(C10_cycle_floors id isRounding_id exHighEndStart hpos exComputeZero).1 rfl rfl,
    (C10_cycle_floors id isRounding_id exHighEndStart hpos exStoreZero).2.1 rfl rfl,
    ((C10_cycle_floors id isRounding_id exHighEndStart hpos (loadOf 0)).2.2 rfl rfl).1
      (by decide)⟩

/-! ## C11: the aggregates of `execute` -/

theorem executeStep_fields (rnd : ℚ → ℚ) (st : ExecState) (inst : Instruction) :
    (Simulator.executeStep rnd st inst).stats.cycles
        = st.stats.cycles + (Simulator.executeSwitch rnd st inst).1 ∧
      (Simulator.executeStep rnd st inst).stats.memory_accesses
        = st.stats.memory_accesses
          + (if inst.type = .LOAD ∨ inst.type = .STORE then 1 else 0) ∧
      (Simulator.executeStep rnd st inst).compute_cycles
        = st.compute_cycles
          + (if inst.type = .COMPUTE then (Simulator.executeSwitch rnd st inst).1 else 0) ∧
      (Simulator.executeStep rnd st inst).memory_cycles
        = st.memory_cycles
          + (if inst.type = .LOAD ∨ inst.type = .STORE then
              (Simulator.executeSwitch rnd st inst).1 else 0) := by
  unfold Simulator.executeStep Simulator.executeSwitch
  cases h : inst.type <;> simp

/-- The variables of the loop of `execute` after a trace, from any state. -/
theorem foldl_executeStep_fields (rnd : ℚ → ℚ) (trace : List Instruction) :
    ∀ st : ExecState,
      (trace.foldl (Simulator.executeStep rnd) st).stats.cycles
          = st.stats.cycles + ((Simulator.costed rnd st trace).map (fun ic => ic.2)).sum ∧
        (trace.foldl (Simulator.executeStep rnd) st).stats.memory_accesses
          = st.stats.memory_accesses
            + ((trace.filter (fun i => decide (i.type = .LOAD))).length
              + (trace.filter (fun i => decide (i.type = .STORE))).length : Nat) ∧
        (trace.foldl (Simulator.executeStep rnd) st).compute_cycles
          = st.compute_cycles
            + sumCosts (fun t => decide (t = .COMPUTE)) (Simulator.costed rnd st trace) ∧
        (trace.foldl (Simulator.executeStep rnd) st).memory_cycles
          = st.memory_cycles
            + sumCosts (fun t => decide (t = .LOAD ∨ t = .STORE))
                (Simulator.costed rnd st trace) := by
  induction trace with
  | nil => intro st; simp [Simulator.costed, sumCosts]
  | cons inst rest ih =>
    intro st
    obtain ⟨h1, h2, h3, h4⟩ := ih (Simulator.executeStep rnd st inst)
    obtain ⟨s1, s2, s3, s4⟩ := executeStep_fields rnd st inst
    rw [List.foldl_cons, h1, h2, h3, h4, s1, s2, s3, s4]
    refine ⟨?_, ?_, ?_, ?_⟩
    · simp [Simulator.costed]; ring
    · cases h : inst.type <;> simp [List.filter_cons, h] <;> ring
    · cases h : inst.type <;> simp [Simulator.costed, sumCosts, List.filter_cons, h]
      all_goals ring
    · cases h : inst.type <;> simp [Simulator.costed, sumCosts, List.filter_cons, h] <;> ring

theorem execute_int_fields (rnd : ℚ → ℚ) (s : Simulator) (trace : List Instruction) :
    (s.execute rnd trace).1.cycles
        = (trace.foldl (Simulator.executeStep rnd) s.executeInit).stats.cycles ∧
      (s.execute rnd trace).1.memory_accesses
        = (trace.foldl (Simulator.executeStep rnd) s.executeInit).stats.memory_accesses := by
  unfold Simulator.execute
  simp only []
  split <;> exact ⟨rfl, rfl⟩

/-- C11: for every configuration and every trace, `execute` returns `cycles` equal to the sum
of the costs of the instructions, and `memory_accesses` equal to the number of LOAD plus the
number of STORE instructions; the compute-cycle total of the loop is the summed cost of the
COMPUTE instructions and the memory-cycle total that of the LOAD and STORE instructions; a SYNC
costs exactly 10 and adds to neither total. -/
theorem C11_execute_aggregates (rnd : ℚ → ℚ) (sim : Simulator) (trace : List Instruction) :
    (sim.execute rnd trace).1.cycles
        = ((Simulator.costed rnd sim.executeInit trace).map (fun ic => ic.2)).sum ∧
      (sim.execute rnd trace).1.memory_accesses
        = ((trace.filter (fun i => decide (i.type = .LOAD))).length
            + (trace.filter (fun i => decide (i.type = .STORE))).length : Nat) ∧
      (trace.foldl (Simulator.executeStep rnd) sim.executeInit).compute_cycles
        = sim.computeCost rnd trace ∧
      (trace.foldl (Simulator.executeStep rnd) sim.executeInit).memory_cycles
        = sim.memoryCost rnd trace ∧
      (∀ (st : ExecState) (inst : Instruction), inst.type = .SYNC →
        (Simulator.executeSwitch rnd st inst).1 = 10 ∧
        (Simulator.executeStep rnd st inst).compute_cycles = st.compute_cycles ∧
        (Simulator.executeStep rnd st inst).memory_cycles = st.memory_cycles) := by
  obtain ⟨h1, h2, h3, h4⟩ := foldl_executeStep_fields rnd trace sim.executeInit
  obtain ⟨e1, e2⟩ := execute_int_fields rnd sim trace
  refine ⟨?_, ?_, ?_, ?_, ?_⟩
  · rw [e1, h1]; simp [Simulator.executeInit, ExecutionStats.init]
  · rw [e2, h2]; simp [Simulator.executeInit, ExecutionStats.init]
  · rw [h3]; simp [Simulator.executeInit, Simulator.computeCost]
  · rw [h4]; simp [Simulator.executeInit, Simulator.memoryCost]
  · intro st inst ht
    obtain ⟨_, _, s3, s4⟩ := executeStep_fields rnd st inst
    refine ⟨?_, ?_, ?_⟩
    · unfold Simulator.executeSwitch; simp only [ht]
    · rw [s3]; simp [ht]
    · rw [s4]; simp [ht]

/-! ## C13 and C14: the empty trace, and repeated calls of `execute` -/

/-- C13: for every configuration with a positive clock frequency, `execute` on the empty trace
returns `cycles = 0`, `memory_accesses = 0`, `cache_hits = 0`, `cache_misses = 0`,
`execution_time_ms = 0`, `compute_utilization = 0` and `memory_bound_time = 0`. -/
theorem C13_empty_trace (rnd : ℚ → ℚ) (hr : IsRounding rnd) (sim : Simulator)
    (_hclk : 0 < sim.config.clock_freq_ghz) :
    (sim.execute rnd []).1 =
      { cycles := 0, memory_accesses := 0, cache_hits := 0, cache_misses := 0,
        execution_time_ms := 0, compute_utilization := 0, memory_bound_time := 0 } := by
  unfold Simulator.execute
  simp [Simulator.executeInit, ExecutionStats.init, CacheModel.reset, fdiv_zero_left hr]

/-- C13, witness: a new simulator with the configuration `high_end` of `main.cpp`, with exact
arithmetic, returns the zero statistics on the empty trace. -/
theorem C13_empty_trace_witness :
    0 < (Simulator.new exHighEnd).config.clock_freq_ghz ∧
      ((Simulator.new exHighEnd).execute id []).1 =
        { cycles := 0, memory_accesses := 0, cache_hits := 0, cache_misses := 0,
          execution_time_ms := 0, compute_utilization := 0, memory_bound_time := 0 } :=
  ⟨by simp [Simulator.new, exHighEnd],
    C13_empty_trace id isRounding_id (Simulator.new exHighEnd)
      (by simp [Simulator.new, exHighEnd])⟩

theorem access_size_bytes (c : CacheModel) (address size : Int) :
    (c.access address size).2.size_bytes = c.size_bytes := by
  unfold CacheModel.access CacheModel.miss
  split
  · split <;> rfl
  · rfl

/-- An iteration of the loop of `execute` changes neither the configuration nor the capacity
of the cache. -/
theorem executeStep_sim (rnd : ℚ → ℚ) (st : ExecState) (inst : Instruction) :
    (Simulator.executeStep rnd st inst).sim.config = st.sim.config ∧
      (Simulator.executeStep rnd st inst).sim.cache.size_bytes = st.sim.cache.size_bytes := by
  unfold Simulator.executeStep Simulator.executeSwitch
  cases h : inst.type
  · unfold Simulator.simulateLoad
    simp only []
    split <;> exact ⟨rfl, access_size_bytes _ _ _⟩
  · exact ⟨rfl, rfl⟩
  · exact ⟨rfl, rfl⟩
  · exact ⟨rfl, rfl⟩

theorem foldl_executeStep_sim (rnd : ℚ → ℚ) (trace : List Instruction) :
    ∀ st : ExecState,
      (trace.foldl (Simulator.executeStep rnd) st).sim.config = st.sim.config ∧
        (trace.foldl (Simulator.executeStep rnd) st).sim.cache.size_bytes
          = st.sim.cache.size_bytes := by
  induction trace with
  | nil => intro st; exact ⟨rfl, rfl⟩
  | cons inst rest ih =>
    intro st
    obtain ⟨h1, h2⟩ := ih (Simulator.executeStep rnd st inst)
    obtain ⟨s1, s2⟩ := executeStep_sim rnd st inst
    rw [List.foldl_cons, h1, h2, s1, s2]
    exact ⟨rfl, rfl⟩

theorem execute_snd (rnd : ℚ → ℚ) (s : Simulator) (trace : List Instruction) :
    (s.execute rnd trace).2 = (trace.foldl (Simulator.executeStep rnd) s.executeInit).sim :=
  rfl

/-- The simulator that `execute` leaves has the configuration and the cache capacity it had. -/
theorem execute_sim (rnd : ℚ → ℚ) (s : Simulator) (trace : List Instruction) :
    (s.execute rnd trace).2.config = s.config ∧
      (s.execute rnd trace).2.cache.size_bytes = s.cache.size_bytes := by
  obtain ⟨h1, h2⟩ := foldl_executeStep_sim rnd trace s.executeInit
  exact ⟨h1, h2⟩

/-- The result of `execute` depends on the simulator only through its configuration and the
capacity of its cache. -/
theorem execute_congr (rnd : ℚ → ℚ) (s1 s2 : Simulator) (hc : s1.config = s2.config)
    (hb : s1.cache.size_bytes = s2.cache.size_bytes) (trace : List Instruction) :
    s1.execute rnd trace = s2.execute rnd trace := by
  have hinit : s1.executeInit = s2.executeInit := by
    simp [Simulator.executeInit, CacheModel.reset, hc, hb]
  unfold Simulator.execute
  rw [hinit, hc]

/-- C14: for every simulator (whose cache has the capacity that the constructor computes from
its configuration) and all traces `t1` and `t2`, the statistics that `execute` returns for
`t2` after an earlier `execute` of `t1` on the same simulator are the statistics that a newly
constructed simulator with the same configuration returns for `t2`; the earlier call leaves the
configuration and the capacity as they were, so the same holds after any number of calls. -/
theorem C14_no_state_leak (rnd : ℚ → ℚ) (sim : Simulator)
    (hcap : sim.cache.size_bytes = (CacheModel.new sim.config.cache_size_kb).size_bytes)
    (t1 t2 : List Instruction) :
    ((sim.execute rnd t1).2.execute rnd t2).1 = ((Simulator.new sim.config).execute rnd t2).1 ∧
      (sim.execute rnd t1).2.config = sim.config ∧
      (sim.execute rnd t1).2.cache.size_bytes
        = (CacheModel.new (sim.execute rnd t1).2.config.cache_size_kb).size_bytes := by
  obtain ⟨h1, h2⟩ := execute_sim rnd sim t1
  refine ⟨?_, h1, by rw [h2, h1, hcap]⟩
  rw [execute_congr rnd (sim.execute rnd t1).2 (Simulator.new sim.config) h1
    (by rw [h2, hcap]; rfl) t2]

/-- C14, witness: on a simulator with a cache of 1 KB, after a first call with 15 loads of 100
bytes, a second call with 3 loads of 100 bytes counts 3 hits and no miss, as on a new
simulator. -/
theorem C14_no_state_leak_witness :
    (((Simulator.new exOneKb).execute id (List.replicate 15 (loadOf 100))).2.execute id
        (List.replicate 3 (loadOf 100))).1
      = ((Simulator.new exOneKb).execute id (List.replicate 3 (loadOf 100))).1 ∧
    (((Simulator.new exOneKb).execute id (List.replicate 15 (loadOf 100))).2.execute id
        (List.replicate 3 (loadOf 100))).1.cache_hits = 3 ∧
    ((Simulator.new exOneKb).execute id (List.replicate 15 (loadOf 100))).2.cache.current_usage
      = 1024 := by
  have h : (((Simulator.new exOneKb).execute id (List.replicate 15 (loadOf 100))).2.execute id
        (List.replicate 3 (loadOf 100))).1
      = ((Simulator.new exOneKb).execute id (List.replicate 3 (loadOf 100))).1 :=
    (C14_no_state_leak id (Simulator.new exOneKb) rfl (List.replicate 15 (loadOf 100))
      (List.replicate 3 (loadOf 100))).1
  refine ⟨h, ?_, ?_⟩
  · rw [h, (execute_cache_counters id _ _).1,
      loads_cache id (Simulator.new exOneKb) 1024 100 (by decide) (by decide) rfl (loadOf 100)
        rfl rfl 3]
    norm_num
  · rw [execute_snd, loads_cache id (Simulator.new exOneKb) 1024 100 (by decide) (by decide) rfl
      (loadOf 100) rfl rfl 15]
    norm_num

/-! ## C20: the invariants of built graphs -/

theorem BuilderCall.node_not_fused (g : Graph) (c : BuilderCall) :
    (c.node g).type ≠ .FUSED_CONV_RELU ∧ (c.node g).type ≠ .FUSED_MATMUL_ADD := by
  cases c <;> simp [BuilderCall.node]

/-- The builder creates no node of a fused kind. -/
theorem Built.not_fused {g : Graph} (h : Built g) :
    ∀ (p : Nat) (node : Node), g.nodes[p]? = some node →
      node.type ≠ .FUSED_CONV_RELU ∧ node.type ≠ .FUSED_MATMUL_ADD := by
  induction h with
  | create => intro p node hp; simp [Graph.create] at hp
  | call g c _ _ ih =>
    intro p node hp
    rw [BuilderCall.run_eq] at hp
    rcases (getElem?_snoc_eq_some _ _ _ _).1 hp with h1 | ⟨_, hn⟩
    · exact ih p node h1
    · subst hn; exact BuilderCall.node_not_fused g c

/-- C20: in every graph reachable from the empty graph by builder calls, the node at position
`i` of the node table has id `i` and the value at position `j` of the value table has id `j`
(the next ids are the table sizes, so no id is used twice), every value is in the output list
of exactly one node, and no node has the kind FUSED_CONV_RELU or FUSED_MATMUL_ADD. -/
theorem C20_builder_invariants (g : Graph) (h : Built g) :
    (∀ (i : Nat) (node : Node), g.nodes[i]? = some node → node.id = i) ∧
      (∀ (j : Nat) (value : Value), g.values[j]? = some value → value.id = j) ∧
      g.next_node_id = g.nodes.length ∧ g.next_value_id = g.values.length ∧
      (∀ j : Nat, j < g.values.length →
        ∃! p : Nat, ∃ node : Node, g.nodes[p]? = some node ∧ j ∈ node.outputs) ∧
      (∀ (p : Nat) (node : Node), g.nodes[p]? = some node →
        node.type ≠ .FUSED_CONV_RELU ∧ node.type ≠ .FUSED_MATMUL_ADD) := by
  have hinv := h.inv
  refine ⟨hinv.node_id, hinv.value_id, hinv.next_node, hinv.next_value, ?_, h.not_fused⟩
  intro j hj
  have hjn : j < g.nodes.length := by rw [← hinv.len_values]; exact hj
  refine ⟨j, ⟨g.nodes[j], List.getElem?_eq_getElem hjn, ?_⟩, ?_⟩
  · rw [hinv.node_outputs j _ (List.getElem?_eq_getElem hjn)]
    simp
  · rintro p ⟨node, hp, hmem⟩
    rw [hinv.node_outputs p node hp] at hmem
    exact (List.mem_singleton.1 hmem).symm

/-- C20, witness: the graph of `main.cpp` is made by the builder; its node ids are 0 to 3, its
value ids are 0 to 3. -/
theorem C20_builder_invariants_witness :
    exMain.nodes.map (fun node => node.id) = [0, 1, 2, 3] ∧
      exMain.values.map (fun value => value.id) = [0, 1, 2, 3] ∧
      ((∀ (i : Nat) (node : Node), exMain.nodes[i]? = some node → node.id = i) ∧
        (∀ (j : Nat) (value : Value), exMain.values[j]? = some value → value.id = j) ∧
        exMain.next_node_id = exMain.nodes.length ∧
        exMain.next_value_id = exMain.values.length ∧
        (∀ j : Nat, j < exMain.values.length →
          ∃! p : Nat, ∃ node : Node, exMain.nodes[p]? = some node ∧ j ∈ node.outputs) ∧
        (∀ (p : Nat) (node : Node), exMain.nodes[p]? = some node →
          node.type ≠ .FUSED_CONV_RELU ∧ node.type ≠ .FUSED_MATMUL_ADD)) :=
  ⟨by decide, by decide, C20_builder_invariants exMain exMain_built⟩

/-! ## C19, C15, C16: what the builder calls return -/

/-- The shape of the value that a builder call returns. -/
theorem run_shape (g : Graph) (c : BuilderCall) :
    (c.run g).1.shapeOf (c.run g).2 = c.shape g := by
  rw [BuilderCall.run_eq]
  exact shapeOf_snoc_new g _ _ _ _

/-- A positive floor of `x / S` plus one, for a positive `S`, means that `x` is not
negative. -/
theorem nonneg_of_floor_pos (x S : Int) (hS : 1 ≤ S)
    (h : 0 < ⌊((x : ℤ) : ℚ) / (S : ℚ)⌋ + 1) : 0 ≤ x := by
  by_contra hneg
  have hx : x ≤ -1 := by omega
  have hSq : (0 : ℚ) < (S : ℚ) := by exact_mod_cast (by omega : (0 : Int) < S)
  have hlt : ((x : ℤ) : ℚ) / (S : ℚ) < 0 := by
    apply div_neg_of_neg_of_pos _ hSq
    exact_mod_cast (by omega : x < 0)
  have hfl : ⌊((x : ℤ) : ℚ) / (S : ℚ)⌋ < 0 := by
    rw [Int.floor_lt]
    exact_mod_cast hlt
  omega

/-- C19: on every graph the builder returns: `addMatMul` on operands of shapes `[M, K]` and
`[K, N]` a value of shape `[M, N]`; `addMaxPool` on an operand of shape `[N, C, H, W]` with
kernel `K` and stride `S ≥ 1`, when the computed output height and width are positive (the
operand is compatible), a value of shape `[N, C, ⌊(H-K)/S⌋ + 1, ⌊(W-K)/S⌋ + 1]`; `addReLU` and
`addOutput` on any operand a value with the shape of the operand; `addAdd` on two operands of
equal shape a value with that shape.  Each builder has its own conditions only. -/
theorem C19_shape_inference (g : Graph) :
    (∀ (a b : Nat) (M K N : Int), g.shapeOf a = { dims := [M, K] } →
        g.shapeOf b = { dims := [K, N] } →
        (g.addMatMul a b).1.shapeOf (g.addMatMul a b).2 = { dims := [M, N] }) ∧
      (∀ (p : Nat) (Np C H W Kp S : Int), g.shapeOf p = { dims := [Np, C, H, W] } → 1 ≤ S →
        0 < ⌊((H - Kp : ℤ) : ℚ) / (S : ℚ)⌋ + 1 → 0 < ⌊((W - Kp : ℤ) : ℚ) / (S : ℚ)⌋ + 1 →
        (g.addMaxPool p Kp S).1.shapeOf (g.addMaxPool p Kp S).2
          = { dims := [Np, C, ⌊((H - Kp : ℤ) : ℚ) / (S : ℚ)⌋ + 1,
                       ⌊((W - Kp : ℤ) : ℚ) / (S : ℚ)⌋ + 1] }) ∧
      (∀ r : Nat, (g.addReLU r).1.shapeOf (g.addReLU r).2 = g.shapeOf r) ∧
      (∀ o : Nat, (g.addOutput o).1.shapeOf (g.addOutput o).2 = g.shapeOf o) ∧
      (∀ u w : Nat, g.shapeOf u = g.shapeOf w →
        (g.addAdd u w).1.shapeOf (g.addAdd u w).2 = g.shapeOf u ∧
          (g.addAdd u w).1.shapeOf (g.addAdd u w).2 = g.shapeOf w) := by
  refine ⟨?_, ?_, ?_, ?_, ?_⟩
  · intro a b M K N ha hb
    have h := run_shape g (.addMatMul a b)
    simp only [BuilderCall.run, BuilderCall.shape, ha, hb] at h
    rw [h]; rfl
  · intro p Np C H W Kp S hp hS hh hw
    have h := run_shape g (.addMaxPool p Kp S)
    simp only [BuilderCall.run, BuilderCall.shape, hp] at h
    rw [h, ← tdiv_eq_floor _ S (nonneg_of_floor_pos _ S hS hh) (by omega),
      ← tdiv_eq_floor _ S (nonneg_of_floor_pos _ S hS hw) (by omega)]
    rfl
  · exact fun r => run_shape g (.addReLU r)
  · exact fun o => run_shape g (.addOutput o)
  · intro u w huw
    exact ⟨run_shape g (.addAdd u w), by rw [← huw]; exact run_shape g (.addAdd u w)⟩

/-- C19, witness: on the graph of `main.cpp`, whose values all have rank 4: a ReLU and an
Output of the convolution output (value 1) have its shape `[1, 64, 224, 224]`, the sum of the
values 1 and 2, which have that shape, has it too, and the max-pooling of value 1 with kernel
2 and stride 2 has shape `[1, 64, 112, 112]`; on operands `[2, 3]` and `[3, 5]` the product has
shape `[2, 5]`. -/
theorem C19_shape_inference_witness :
    (exMain.addReLU 1).1.shapeOf (exMain.addReLU 1).2 = { dims := [1, 64, 224, 224] } ∧
      (exMain.addOutput 1).1.shapeOf (exMain.addOutput 1).2
        = { dims := [1, 64, 224, 224] } ∧
      (exMain.addAdd 1 2).1.shapeOf (exMain.addAdd 1 2).2 = { dims := [1, 64, 224, 224] } ∧
      (exMain.addMaxPool 1 2 2).1.shapeOf (exMain.addMaxPool 1 2 2).2
        = { dims := [1, 64, 112, 112] } ∧
      (exOperands.addMatMul 0 1).1.shapeOf (exOperands.addMatMul 0 1).2
        = { dims := [2, 5] } := by
  have hf : ⌊((224 - 2 : ℤ) : ℚ) / ((2 : ℤ) : ℚ)⌋ = 111 := by norm_num [Int.floor_eq_iff]
  have hm := C19_shape_inference exMain
  have ho := C19_shape_inference exOperands
  have hpool := hm.2.1 1 1 64 224 224 2 2 (by decide) (by decide) (by rw [hf]; decide)
    (by rw [hf]; decide)
  rw [hf] at hpool
  exact ⟨(hm.2.2.1 1).trans (by decide), (hm.2.2.2.1 1).trans (by decide),
    ((hm.2.2.2.2 1 2 (by decide)).1).trans (by decide), hpool,
    ho.1 0 1 2 3 5 (by decide) (by decide)⟩

/-- C15 (amended): no builder call fails. Every builder call with defined behaviour, whatever
the shapes of its operands, appends exactly one node and one value to the graph, keeps the
nodes and values that were there, and returns the new value; `addMatMul` on `[M, K]` and
`[K2, N]` returns a value of shape `[M, N]` also when `K ≠ K2`, and `addConv2D` and
`addMaxPool` return the height and width of the truncating division also when they are not
positive. -/
theorem C15_builder_never_fails (g : Graph) (c : BuilderCall) (_hd : c.Defined g) :
    (c.run g).1.nodes.length = g.nodes.length + 1 ∧
      (c.run g).1.values.length = g.values.length + 1 ∧
      (c.run g).2 = g.values.length ∧
      (∀ p : Nat, p < g.nodes.length → (c.run g).1.nodes[p]? = g.nodes[p]?) ∧
      (∀ v : Nat, v < g.values.length → (c.run g).1.values[v]? = g.values[v]?) ∧
      (c.run g).1.shapeOf (c.run g).2 = c.shape g ∧
      (∀ (a b : Nat) (M K K2 N : Int), c = .addMatMul a b → g.shapeOf a = { dims := [M, K] } →
        g.shapeOf b = { dims := [K2, N] } →
        (c.run g).1.shapeOf (c.run g).2 = { dims := [M, N] }) ∧
      (∀ (input : Nat) (Cout Kc S P Nn Cin H W : Int), c = .addConv2D input Cout Kc S P →
        g.shapeOf input = { dims := [Nn, Cin, H, W] } →
        (c.run g).1.shapeOf (c.run g).2
          = { dims := [Nn, Cout, Int.tdiv (H + 2 * P - Kc) S + 1,
                       Int.tdiv (W + 2 * P - Kc) S + 1] }) ∧
      (∀ (input : Nat) (Kp S Nn Cc H W : Int), c = .addMaxPool input Kp S →
        g.shapeOf input = { dims := [Nn, Cc, H, W] } →
        (c.run g).1.shapeOf (c.run g).2
          = { dims := [Nn, Cc, Int.tdiv (H - Kp) S + 1, Int.tdiv (W - Kp) S + 1] }) := by
  have hs := run_shape g c
  refine ⟨?_, ?_, ?_, ?_, ?_, hs, ?_, ?_, ?_⟩
  · rw [BuilderCall.run_eq]; simp
  · rw [BuilderCall.run_eq]; simp
  · rw [BuilderCall.run_eq]
  · intro p hp
    rw [BuilderCall.run_eq]
    exact List.getElem?_append_left hp
  · intro v hv
    rw [BuilderCall.run_eq]
    exact List.getElem?_append_left hv
  · intro a b M K K2 N hc ha hb
    rw [hs, hc]
    simp only [BuilderCall.shape, ha, hb]
    rfl
  · intro input Cout Kc S P Nn Cin H W hc hin
    rw [hs, hc]
    simp only [BuilderCall.shape, hin]
    rfl
  · intro input Kp S Nn Cc H W hc hin
    rw [hs, hc]
    simp only [BuilderCall.shape, hin]
    rfl

/-- C15, witness: on inputs `[2, 3]` and `[4, 5]`, whose inner dimensions 3 and 4 differ,
`addMatMul` has defined behaviour and returns the new value 2, of shape `[2, 5]`, in a graph
of 3 nodes. -/
theorem C15_builder_never_fails_witness :
    (exTwoMatrices.addMatMul 0 1).1.nodes.length = 3 ∧
      (exTwoMatrices.addMatMul 0 1).2 = 2 ∧
      (exTwoMatrices.addMatMul 0 1).1.shapeOf (exTwoMatrices.addMatMul 0 1).2
        = { dims := [2, 5] } := by
  have hd : BuilderCall.Defined exTwoMatrices (.addMatMul 0 1) := by
    simp [BuilderCall.Defined, exTwoMatrices, runCalls, BuilderCall.run_eq, Graph.create,
      BuilderCall.node, BuilderCall.shape, Graph.shapeOf]
  have h := C15_builder_never_fails exTwoMatrices (.addMatMul 0 1) hd
  exact ⟨h.1, h.2.2.1, h.2.2.2.2.2.2.1 0 1 2 3 4 5 rfl (by decide) (by decide)⟩

/-- C15, counterexample: `addMatMul` on operands of shapes `[2, 3]` and `[4, 5]` (inner
dimensions 3 and 4) does not leave the graph unchanged: the graph of 2 nodes and 2 values
becomes a graph of 3 nodes and 3 values whose last node is a MATMUL of the two operands, and
the call returns the new value, of shape `[2, 5]`. -/
theorem C15_matmul_mismatch_accepted :
    exTwoMatrices.shapeOf 0 = { dims := [2, 3] } ∧
      exTwoMatrices.shapeOf 1 = { dims := [4, 5] } ∧
      exTwoMatrices.nodes.length = 2 ∧ exTwoMatrices.values.length = 2 ∧
      (exTwoMatrices.addMatMul 0 1).1 ≠ exTwoMatrices ∧
      (exTwoMatrices.addMatMul 0 1).1.nodes.length = 3 ∧
      (exTwoMatrices.addMatMul 0 1).1.values.length = 3 ∧
      (exTwoMatrices.addMatMul 0 1).1.nodes[2]?
        = some { id := 2, type := .MATMUL, inputs := [0, 1], outputs := [2],
                 int_attrs := [] } ∧
      (exTwoMatrices.addMatMul 0 1).1.shapeOf (exTwoMatrices.addMatMul 0 1).2
        = { dims := [2, 5] } := by
  decide

/-- C16 (amended): `addConv2D` and `addMaxPool` check neither `kernel_size` nor `stride`. For
every `kernel_size` and every `stride` other than 0, positive or not, on an input of rank 4
they append a node that records the attributes as given, and a value whose height and width
come from the truncating division by that stride. -/
theorem C16_attributes_unchecked (g : Graph) (input : Nat) (Cout Kc S P Nn Cin H W : Int)
    (hin : g.shapeOf input = { dims := [Nn, Cin, H, W] }) (_hS : S ≠ 0) :
    (g.addConv2D input Cout Kc S P).1.nodes
        = g.nodes ++ [{ id := g.next_node_id, type := .CONV2D, inputs := [input],
                        outputs := [g.values.length],
                        int_attrs := [("padding", P), ("stride", S), ("kernel_size", Kc),
                          ("out_channels", Cout)] }] ∧
      (g.addConv2D input Cout Kc S P).1.values
        = g.values ++ [{ id := g.next_value_id,
                         shape := { dims := [Nn, Cout, Int.tdiv (H + 2 * P - Kc) S + 1,
                                             Int.tdiv (W + 2 * P - Kc) S + 1] } }] ∧
      (g.addMaxPool input Kc S).1.nodes
        = g.nodes ++ [{ id := g.next_node_id, type := .MAXPOOL, inputs := [input],
                        outputs := [g.values.length],
                        int_attrs := [("stride", S), ("kernel_size", Kc)] }] ∧
      (g.addMaxPool input Kc S).1.values
        = g.values ++ [{ id := g.next_value_id,
                         shape := { dims := [Nn, Cin, Int.tdiv (H - Kc) S + 1,
                                             Int.tdiv (W - Kc) S + 1] } }] := by
  rw [addConv2D_eq, addMaxPool_eq, hin]
  simp [Shape.dim]

/-- C16, witness: on an input `[1, 1, 4, 4]`, `addConv2D` with kernel 0, stride 1, padding 0
returns a value of shape `[1, 1, 5, 5]`, and `addMaxPool` with kernel 2 and stride -1 a value
of shape `[1, 1, -1, -1]`. -/
theorem C16_attributes_unchecked_witness :
    (exSmallImage.addConv2D 0 1 0 1 0).1.shapeOf (exSmallImage.addConv2D 0 1 0 1 0).2
        = { dims := [1, 1, 5, 5] } ∧
      (exSmallImage.addMaxPool 0 2 (-1)).1.shapeOf (exSmallImage.addMaxPool 0 2 (-1)).2
        = { dims := [1, 1, -1, -1] } := by
  have h1 := C16_attributes_unchecked exSmallImage 0 1 0 1 0 1 1 4 4 (by decide) (by decide)
  have h2 := C16_attributes_unchecked exSmallImage 0 1 2 (-1) 0 1 1 4 4 (by decide) (by decide)
  constructor
  · have hv := h1.2.1
    unfold Graph.shapeOf
    rw [hv, addConv2D_eq]
    decide
  · have hv := h2.2.2.2
    unfold Graph.shapeOf
    rw [hv, addMaxPool_eq]
    decide

/-- C16, counterexample: on an input `[1, 1, 4, 4]`, `addConv2D` with `kernel_size = 0` and
`addMaxPool` with `stride = -1` raise nothing: each adds a node that carries the attribute and
a value. -/
theorem C16_nonpositive_attributes_accepted :
    exSmallImage.nodes.length = 1 ∧
      (exSmallImage.addConv2D 0 1 0 1 0).1.nodes.length = 2 ∧
      (exSmallImage.addConv2D 0 1 0 1 0).1.values.length = 2 ∧
      ((exSmallImage.addConv2D 0 1 0 1 0).1.nodes[1]?).map
          (fun node => (node.type, node.getAttr "kernel_size" 3)) = some (.CONV2D, 0) ∧
      (exSmallImage.addMaxPool 0 2 (-1)).1.nodes.length = 2 ∧
      (exSmallImage.addMaxPool 0 2 (-1)).1.values.length = 2 ∧
      ((exSmallImage.addMaxPool 0 2 (-1)).1.nodes[1]?).map
          (fun node => (node.type, node.getAttr "stride" 1)) = some (.MAXPOOL, -1) := by
  decide

/-! ## C17: fusion of MatMul and Add -/

theorem baseKind_eq_add (t u : OpType) (h : baseKind t = baseKind u) :
    t = .ADD ↔ u = .ADD := by
  cases t <;> cases u <;> simp [baseKind] at h ⊢

/-- The test of `fuseMatMulAdd` does not see a retyping within the base kinds. -/
theorem isAddOn_retyped {g g2 : Graph} (h : Retyped g g2) (q v : Nat) :
    isAddOn g2 q v = isAddOn g q v := by
  unfold isAddOn
  cases hq : g.nodes[q]? with
  | none =>
    have hlen := h.2.2.2.1
    have : g2.nodes[q]? = none := by
      rw [List.getElem?_eq_none_iff] at hq ⊢
      omega
    rw [this]
  | some node =>
    obtain ⟨t, ht, h2⟩ := h.2.2.2.2 q node hq
    rw [h2]
    have hadd := baseKind_eq_add t node.type ht
    simp only [Node.setType]
    by_cases hn : node.type = .ADD
    · simp [hn, hadd.2 hn]
    · have hnt : ¬ t = .ADD := fun h => hn (hadd.1 h)
      simp [hn, hnt]

theorem isAddOn_iff (g : Graph) (q v : Nat) :
    isAddOn g q v = true ↔
      ∃ add : Node, g.nodes[q]? = some add ∧ add.type = .ADD ∧ add.inputs.length = 2 ∧
        v ∈ add.inputs := by
  unfold isAddOn
  cases hq : g.nodes[q]? with
  | none => simp
  | some n =>
    simp only [Bool.and_eq_true, Bool.or_eq_true, decide_eq_true_eq, Option.some.injEq,
      exists_eq_left']
    constructor
    · rintro ⟨⟨h1, h2⟩, h3⟩
      refine ⟨h1, h2, ?_⟩
      match hi : n.inputs, h2, h3 with
      | [a, b], _, h3 =>
        simp at h3
        rcases h3 with h | h <;> simp [h]
    · rintro ⟨h1, h2, h3⟩
      refine ⟨⟨h1, h2⟩, ?_⟩
      match hi : n.inputs, h2, h3 with
      | [a, b], _, h3 =>
        simp at h3
        rcases h3 with h | h <;> simp [h]

/-- The kind that the fusion pass leaves on a MATMUL node with the single output `v` of a
built graph: fused exactly when a later ADD node with two inputs has `v` among them. -/
theorem run_kindOf_matmul (g : Graph) (hinv : g.Inv) (p v : Nat) (m : Node)
    (hm : g.nodes[p]? = some m) (hmm : m.type = .MATMUL) (hout : m.outputs = [v]) :
    (FusionPass.run g).1.kindOf p =
      some (if (List.range' (p + 1) (g.nodes.length - p - 1)).any (fun q => isAddOn g q v) = true
        then .FUSED_MATMUL_ADD else .MATMUL) := by
  have hret := fuseConvReLU_retyped g
  have h1 := fuseConvReLU_frame g p m hm (by rw [hmm]; simp)
  have hinv1 := hinv.retyped hret
  have h2 := fuseMatMulAdd_node (FusionPass.fuseConvReLU g).1 hinv1 p m h1
  have htest : (fun q => isAddOn (FusionPass.fuseConvReLU g).1 q v)
      = (fun q => isAddOn g q v) := by
    funext q
    exact isAddOn_retyped hret q v
  show ((FusionPass.fuseMatMulAdd (FusionPass.fuseConvReLU g).1).1.nodes[p]?).map _ = _
  rw [h2, Option.map_some', hret.2.2.2.1]
  unfold fusedNode
  simp only [hmm, hout, List.length_singleton, List.getD_cons_zero, true_and, htest]
  split <;> simp [Node.setType, hmm]

/-- C17 (amended): in a graph made by the builder, a MATMUL node `m` with the single output
value `v` has kind FUSED_MATMUL_ADD after `FusionPass.run` if and only if some ADD node with
exactly two inputs has `v` among them, whatever else reads `v`; otherwise `m` stays MATMUL. -/
theorem C17_matmul_fused_iff_add_reads (g : Graph) (hb : Built g) (p v : Nat) (m : Node)
    (hm : g.nodes[p]? = some m) (hmm : m.type = .MATMUL) (hout : m.outputs = [v]) :
    ((FusionPass.run g).1.kindOf p = some .FUSED_MATMUL_ADD ↔
        ∃ (q : Nat) (add : Node), g.nodes[q]? = some add ∧ add.type = .ADD ∧
          add.inputs.length = 2 ∧ v ∈ add.inputs) ∧
      ((¬ ∃ (q : Nat) (add : Node), g.nodes[q]? = some add ∧ add.type = .ADD ∧
          add.inputs.length = 2 ∧ v ∈ add.inputs) →
        (FusionPass.run g).1.kindOf p = some .MATMUL) := by
  have hinv := hb.inv
  have hk := run_kindOf_matmul g hinv p v m hm hmm hout
  have hvp : v = p := by
    have := hinv.node_outputs p m hm
    rw [hout] at this
    simpa using this
  have hiff : (List.range' (p + 1) (g.nodes.length - p - 1)).any (fun q => isAddOn g q v) = true
      ↔ ∃ (q : Nat) (add : Node), g.nodes[q]? = some add ∧ add.type = .ADD ∧
          add.inputs.length = 2 ∧ v ∈ add.inputs := by
    rw [List.any_eq_true]
    constructor
    · rintro ⟨q, _, hq⟩
      obtain ⟨add, h1, h2, h3, h4⟩ := (isAddOn_iff g q v).1 hq
      exact ⟨q, add, h1, h2, h3, h4⟩
    · rintro ⟨q, add, h1, h2, h3, h4⟩
      refine ⟨q, ?_, (isAddOn_iff g q v).2 ⟨add, h1, h2, h3, h4⟩⟩
      have hq : q < g.nodes.length := (List.getElem?_eq_some.1 h1).1
      have hvq : v < q := hinv.node_inputs q add h1 v h4
      rw [List.mem_range'_1]
      omega
  rw [hk]
  constructor
  · rw [← hiff]
    constructor
    · intro h
      by_contra hn
      rw [if_neg hn] at h
      cases h
    · intro h
      rw [if_pos h]
  · intro hn
    rw [if_neg (fun h => hn (hiff.1 h))]

/-- C17, witness: in the graph `MatMul → Add` the product (node 3, output value 3) is an input
of the Add (node 4), and is fused. -/
theorem C17_matmul_fused_iff_add_reads_witness :
    (FusionPass.run exMatMulAdd).1.kindOf 3 = some .FUSED_MATMUL_ADD :=
  (C17_matmul_fused_iff_add_reads exMatMulAdd
    (built_runCalls _ _ Built.create (by decide)) 3 3
    { id := 3, type := .MATMUL, inputs := [0, 1], outputs := [3], int_attrs := [] }
    (by decide) rfl rfl).1.2
    ⟨4, { id := 4, type := .ADD, inputs := [3, 2], outputs := [4], int_attrs := [] },
      by decide, rfl, rfl, by decide⟩

/-- C17, counterexample: in a graph made by the builder, the output value 3 of the matrix
product (node 3) is read by two nodes, the Add (node 4) and the ReLU (node 5); the product is
fused all the same. -/
theorem C17_fused_with_two_consumers :
    Built exMatMulTwoReaders ∧
      exMatMulTwoReaders.kindOf 3 = some .MATMUL ∧
      (exMatMulTwoReaders.nodes[3]?).map (fun m => m.outputs) = some [3] ∧
      exMatMulTwoReaders.consumers 3 = [4, 5] ∧
      exMatMulTwoReaders.kindOf 5 = some .RELU ∧
      (FusionPass.run exMatMulTwoReaders).1.kindOf 3 = some .FUSED_MATMUL_ADD :=
  ⟨built_runCalls _ _ Built.create (by decide), by decide, by decide, by decide, by decide,
    by decide⟩

/-! ## C18: what the fusion pass leaves unchanged -/

theorem setType_type (node : Node) (t : OpType) : (node.setType t).type = t := rfl

theorem retypedBy_refl (src tgt : OpType) (g : Graph) : RetypedBy src tgt g g :=
  ⟨rfl, rfl, rfl, rfl, fun _ _ h => Or.inl h⟩

theorem retypedBy_trans {src tgt : OpType} (hne : src ≠ tgt) {g1 g2 g3 : Graph}
    (h12 : RetypedBy src tgt g1 g2) (h23 : RetypedBy src tgt g2 g3) :
    RetypedBy src tgt g1 g3 := by
  obtain ⟨a1, a2, a3, a4, a5⟩ := h12
  obtain ⟨b1, b2, b3, b4, b5⟩ := h23
  refine ⟨b1.trans a1, b2.trans a2, b3.trans a3, b4.trans a4, ?_⟩
  intro x node hx
  rcases a5 x node hx with h | ⟨ht, h⟩
  · exact b5 x node h
  · rcases b5 x _ h with h3 | ⟨ht3, _⟩
    · exact Or.inr ⟨ht, h3⟩
    · rw [setType_type] at ht3
      exact absurd ht3.symm hne

theorem retypedBy_updNode (src tgt : OpType) (g : Graph) (p : Nat) (node : Node)
    (hp : g.nodes[p]? = some node) (ht : node.type = src) :
    RetypedBy src tgt g (g.updNode p (fun n => n.setType tgt)) := by
  refine ⟨updNode_values _ _ _, updNode_next_node_id _ _ _, updNode_next_value_id _ _ _,
    updNode_length _ _ _, ?_⟩
  intro x n hx
  by_cases hxp : x = p
  · subst hxp
    rw [hp] at hx
    cases hx
    exact Or.inr ⟨ht, by rw [updNode_getElem?_self, hp]; rfl⟩
  · exact Or.inl (by rw [updNode_getElem?_ne _ _ _ _ hxp]; exact hx)

/-- A fusion loop retypes nodes of the kind it looks for, and changes nothing else. -/
theorem fuseLoopGen_retypedBy (src tgt : OpType) (test : Graph → Nat → Nat → Bool)
    (hne : src ≠ tgt) (ps : List Nat) :
    ∀ (g : Graph) (changed : Bool),
      RetypedBy src tgt g (fuseLoopGen src tgt test ps g changed).1 := by
  induction ps with
  | nil => intro g changed; exact retypedBy_refl src tgt g
  | cons p later ih =>
    intro g changed
    rw [fuseLoopGen_cons]
    cases hn : g.nodes[p]? with
    | none => exact ih g changed
    | some node =>
      simp only []
      split
      · rename_i h
        exact retypedBy_trans hne (retypedBy_updNode src tgt g p node hn h.1) (ih _ _)
      · exact ih g changed

/-- The flag that a fusion loop returns: set on entry, or some node was retyped. -/
theorem fuseLoopGen_flag (src tgt : OpType) (test : Graph → Nat → Nat → Bool)
    (hne : src ≠ tgt) (ps : List Nat) :
    ∀ (g : Graph) (changed : Bool),
      (fuseLoopGen src tgt test ps g changed).2 = true ↔
        changed = true ∨ ∃ (x : Nat) (node : Node), g.nodes[x]? = some node ∧
          node.type = src ∧
          (fuseLoopGen src tgt test ps g changed).1.nodes[x]? = some (node.setType tgt) := by
  induction ps with
  | nil =>
    intro g changed
    simp only [fuseLoopGen]
    constructor
    · intro h; exact Or.inl h
    · rintro (h | ⟨x, node, hx, ht, hx2⟩)
      · exact h
      · rw [hx] at hx2
        have : node.type = tgt := by
          have h3 := congrArg Node.type (Option.some.inj hx2)
          rw [setType_type] at h3
          exact h3
        exact absurd (ht.symm.trans this) hne
  | cons p later ih =>
    intro g changed
    rw [fuseLoopGen_cons]
    cases hn : g.nodes[p]? with
    | none => exact ih g changed
    | some node =>
      simp only []
      split
      · rename_i h
        have hfin := fuseLoopGen_retypedBy src tgt test hne later
          (g.updNode p (fun n => n.setType tgt)) true
        have hp1 : (g.updNode p (fun n => n.setType tgt)).nodes[p]?
            = some (node.setType tgt) := by
          rw [updNode_getElem?_self, hn]; rfl
        have hp2 : (fuseLoopGen src tgt test later (g.updNode p (fun n => n.setType tgt))
            true).1.nodes[p]? = some (node.setType tgt) := by
          rcases hfin.2.2.2.2 p _ hp1 with h3 | ⟨ht3, _⟩
          · exact h3
          · rw [setType_type] at ht3
            exact absurd ht3.symm hne
        constructor
        · intro _
          exact Or.inr ⟨p, node, hn, h.1, hp2⟩
        · intro _
          exact (ih _ true).2 (Or.inl rfl)
      · exact ih g changed

theorem fuseConvReLU_retypedBy (g : Graph) :
    RetypedBy .CONV2D .FUSED_CONV_RELU g (FusionPass.fuseConvReLU g).1 := by
  unfold FusionPass.fuseConvReLU
  rw [fuseConvReLULoop_eq]
  exact fuseLoopGen_retypedBy .CONV2D .FUSED_CONV_RELU isReLUOn (by decide) _ _ _

theorem fuseMatMulAdd_retypedBy (g : Graph) :
    RetypedBy .MATMUL .FUSED_MATMUL_ADD g (FusionPass.fuseMatMulAdd g).1 := by
  unfold FusionPass.fuseMatMulAdd
  rw [fuseMatMulAddLoop_eq]
  exact fuseLoopGen_retypedBy .MATMUL .FUSED_MATMUL_ADD isAddOn (by decide) _ _ _

theorem fuseConvReLU_flag (g : Graph) :
    (FusionPass.fuseConvReLU g).2 = true ↔
      ∃ (x : Nat) (node : Node), g.nodes[x]? = some node ∧ node.type = .CONV2D ∧
        (FusionPass.fuseConvReLU g).1.nodes[x]? = some (node.setType .FUSED_CONV_RELU) := by
  unfold FusionPass.fuseConvReLU
  rw [fuseConvReLULoop_eq,
    fuseLoopGen_flag .CONV2D .FUSED_CONV_RELU isReLUOn (by decide) _ g false]
  simp

theorem fuseMatMulAdd_flag (g : Graph) :
    (FusionPass.fuseMatMulAdd g).2 = true ↔
      ∃ (x : Nat) (node : Node), g.nodes[x]? = some node ∧ node.type = .MATMUL ∧
        (FusionPass.fuseMatMulAdd g).1.nodes[x]? = some (node.setType .FUSED_MATMUL_ADD) := by
  unfold FusionPass.fuseMatMulAdd
  rw [fuseMatMulAddLoop_eq,
    fuseLoopGen_flag .MATMUL .FUSED_MATMUL_ADD isAddOn (by decide) _ g false]
  simp

/-- What the two rewrites together make of a node. -/
theorem run_node (g : Graph) (x : Nat) (node : Node) (hx : g.nodes[x]? = some node) :
    ((FusionPass.fuseConvReLU g).1.nodes[x]? = some node ∧
        (FusionPass.run g).1.nodes[x]? = some node) ∨
      ((FusionPass.fuseConvReLU g).1.nodes[x]? = some node ∧ node.type = .MATMUL ∧
        (FusionPass.run g).1.nodes[x]? = some (node.setType .FUSED_MATMUL_ADD)) ∨
      (node.type = .CONV2D ∧
        (FusionPass.fuseConvReLU g).1.nodes[x]? = some (node.setType .FUSED_CONV_RELU) ∧
        (FusionPass.run g).1.nodes[x]? = some (node.setType .FUSED_CONV_RELU)) := by
  have hA := fuseConvReLU_retypedBy g
  have hB := fuseMatMulAdd_retypedBy (FusionPass.fuseConvReLU g).1
  rcases hA.2.2.2.2 x node hx with h1 | ⟨ht, h1⟩
  · rcases hB.2.2.2.2 x node h1 with h2 | ⟨ht2, h2⟩
    · exact Or.inl ⟨h1, h2⟩
    · exact Or.inr (Or.inl ⟨h1, ht2, h2⟩)
  · rcases hB.2.2.2.2 x _ h1 with h2 | ⟨ht2, _⟩
    · exact Or.inr (Or.inr ⟨ht, h1, h2⟩)
    · rw [setType_type] at ht2
      cases ht2

theorem run_flag (g : Graph) :
    (FusionPass.run g).2 = ((FusionPass.fuseConvReLU g).2
      || (FusionPass.fuseMatMulAdd (FusionPass.fuseConvReLU g).1).2) := by
  simp [FusionPass.run]

/-- C18: for every graph, `FusionPass.run` leaves the number of nodes, the value table (so the
number of values and the id and shape of every value), and the id, input list, output list and
attributes of every node unchanged; a kind either stays or changes from CONV2D to
FUSED_CONV_RELU or from MATMUL to FUSED_MATMUL_ADD; and `run` returns true if and only if the
kind of at least one node changed. -/
theorem C18_fusion_frame (g : Graph) :
    (FusionPass.run g).1.nodes.length = g.nodes.length ∧
      (FusionPass.run g).1.values = g.values ∧
      (FusionPass.run g).1.next_node_id = g.next_node_id ∧
      (FusionPass.run g).1.next_value_id = g.next_value_id ∧
      (∀ (x : Nat) (node : Node), g.nodes[x]? = some node →
        ∃ node2 : Node, (FusionPass.run g).1.nodes[x]? = some node2 ∧
          node2.id = node.id ∧ node2.inputs = node.inputs ∧ node2.outputs = node.outputs ∧
          node2.int_attrs = node.int_attrs ∧
          (node2.type = node.type ∨
            (node.type = .CONV2D ∧ node2.type = .FUSED_CONV_RELU) ∨
            (node.type = .MATMUL ∧ node2.type = .FUSED_MATMUL_ADD))) ∧
      ((FusionPass.run g).2 = true ↔ ∃ x : Nat, (FusionPass.run g).1.kindOf x ≠ g.kindOf x) := by
  have hA := fuseConvReLU_retypedBy g
  have hB := fuseMatMulAdd_retypedBy (FusionPass.fuseConvReLU g).1
  have hlen : (FusionPass.run g).1.nodes.length = g.nodes.length :=
    hB.2.2.2.1.trans hA.2.2.2.1
  refine ⟨hlen, hB.1.trans hA.1, hB.2.1.trans hA.2.1, hB.2.2.1.trans hA.2.2.1, ?_, ?_⟩
  · intro x node hx
    rcases run_node g x node hx with ⟨_, h⟩ | ⟨_, ht, h⟩ | ⟨ht, _, h⟩
    · exact ⟨node, h, rfl, rfl, rfl, rfl, Or.inl rfl⟩
    · exact ⟨_, h, rfl, rfl, rfl, rfl, Or.inr (Or.inr ⟨ht, rfl⟩)⟩
    · exact ⟨_, h, rfl, rfl, rfl, rfl, Or.inr (Or.inl ⟨ht, rfl⟩)⟩
  · rw [run_flag, Bool.or_eq_true, fuseConvReLU_flag, fuseMatMulAdd_flag]
    constructor
    · rintro (⟨x, node, hx, ht, hret⟩ | ⟨x, node1, hx1, ht1, hx2⟩)
      · refine ⟨x, ?_⟩
        rcases run_node g x node hx with ⟨h1, _⟩ | ⟨h1, ht2, _⟩ | ⟨_, _, h⟩
        · rw [h1] at hret
          have h3 := congrArg Node.type (Option.some.inj hret)
          rw [setType_type, ht] at h3
          cases h3
        · rw [ht] at ht2; cases ht2
        · unfold Graph.kindOf
          rw [h, hx]
          simp [Node.setType, ht]
      · refine ⟨x, ?_⟩
        have hxlt : x < g.nodes.length := by
          rw [← hA.2.2.2.1]; exact (List.getElem?_eq_some.1 hx1).1
        have hx : g.nodes[x]? = some g.nodes[x] := List.getElem?_eq_getElem hxlt
        rcases hA.2.2.2.2 x _ hx with h1 | ⟨_, h1⟩
        · rw [hx1] at h1
          have hn : node1 = g.nodes[x] := Option.some.inj h1
          unfold Graph.kindOf
          show ((FusionPass.fuseMatMulAdd (FusionPass.fuseConvReLU g).1).1.nodes[x]?).map _ ≠ _
          rw [hx2, hx, ← hn]
          simp [Node.setType, ht1]
        · rw [hx1] at h1
          have h3 := congrArg Node.type (Option.some.inj h1)
          rw [setType_type, ht1] at h3
          cases h3
    · rintro ⟨x, hne⟩
      cases hx : g.nodes[x]? with
      | none =>
        exfalso
        apply hne
        unfold Graph.kindOf
        have : (FusionPass.run g).1.nodes[x]? = none := by
          rw [List.getElem?_eq_none_iff] at hx ⊢
          omega
        rw [this, hx]
      | some node =>
        rcases run_node g x node hx with ⟨_, h⟩ | ⟨h1, ht, h⟩ | ⟨ht, h1, _⟩
        · exfalso
          apply hne
          unfold Graph.kindOf
          rw [h, hx]
        · exact Or.inr ⟨x, node, h1, ht, h⟩
        · exact Or.inl ⟨x, node, hx, ht, h1⟩

/-! ## C12: the utilization percentages -/

/-- Rounding to binary64 is a rounding. -/
theorem isRounding_roundBinary64 : IsRounding roundBinary64 := by
  refine ⟨by simp [roundBinary64], ?_⟩
  intro x hx
  unfold roundBinary64
  split
  · exact le_rfl
  · rw [if_neg (not_lt.2 hx)]
    positivity

/-- The binary64 number nearest to `a / b`, from its significand and exponent. -/
theorem roundBinary64_eval (a b m : ℕ) (e : ℤ) (ha : 0 < a) (hb : 0 < b)
    (hc : Nat.Coprime a b) (hm : binary64Significand a b = m) (he : binary64Exponent a b = e) :
    roundBinary64 ((a : ℚ) / (b : ℚ)) = (m : ℚ) * (2 : ℚ) ^ e := by
  have hnum : ((a : ℚ) / (b : ℚ)).num = (a : ℤ) := by
    have := Rat.num_div_eq_of_coprime (a := (a : ℤ)) (b := (b : ℤ)) (by exact_mod_cast hb)
      (by simpa using hc)
    simpa using this
  have hden : ((a : ℚ) / (b : ℚ)).den = b := by
    have := Rat.den_div_eq_of_coprime (a := (a : ℤ)) (b := (b : ℤ)) (by exact_mod_cast hb)
      (by simpa using hc)
    have h2 : (((a : ℚ) / (b : ℚ)).den : ℤ) = (b : ℤ) := by simpa using this
    exact_mod_cast h2
  have hpos : (0 : ℚ) < (a : ℚ) / (b : ℚ) := by positivity
  unfold roundBinary64
  rw [if_neg hpos.ne', if_neg (not_lt.2 hpos.le), hnum, hden]
  simp [hm, he]

theorem roundBinary64_one : roundBinary64 1 = 1 := by
  have h := roundBinary64_eval 1 1 4503599627370496 (-52) (by decide) (by decide) (by decide)
    (by decide) (by decide)
  norm_num at h ⊢
  exact h

theorem roundBinary64_hundred : roundBinary64 100 = 100 := by
  have h := roundBinary64_eval 100 1 7036874417766400 (-46) (by decide) (by decide)
    (by decide) (by decide) (by decide)
  norm_num at h ⊢
  exact h

theorem roundBinary64_giga : roundBinary64 1000000000 = 1000000000 := by
  have h := roundBinary64_eval 1000000000 1 8388608000000000 (-23) (by decide) (by decide)
    (by decide) (by decide) (by decide)
  norm_num at h ⊢
  exact h

theorem roundBinary64_store : roundBinary64 1000000000000002 = 1000000000000002 := by
  have h := roundBinary64_eval 1000000000000002 1 8000000000000016 (-3) (by decide)
    (by decide) (by decide) (by decide) (by decide)
  norm_num at h ⊢
  exact h

theorem roundBinary64_total : roundBinary64 1000000000000003 = 1000000000000003 := by
  have h := roundBinary64_eval 1000000000000003 1 8000000000000024 (-3) (by decide)
    (by decide) (by decide) (by decide) (by decide)
  norm_num at h ⊢
  exact h

/-- The product `100 * (10 ^ 15 + 2)` is not a binary64 number: it is rounded to
`10 ^ 17 + 192`. -/
theorem roundBinary64_product : roundBinary64 100000000000000200 = 100000000000000192 := by
  have h := roundBinary64_eval 100000000000000200 1 6250000000000012 4 (by decide)
    (by decide) (by decide) (by decide) (by decide)
  norm_num at h ⊢
  exact h

theorem roundBinary64_compute_share :
    roundBinary64 (100 / 1000000000000003) = 3961408125713205 / 2 ^ 95 := by
  have h := roundBinary64_eval 100 1000000000000003 7922816251426410 (-96) (by decide)
    (by decide) (by decide) (by decide) (by decide)
  norm_num at h ⊢
  rw [h]

theorem roundBinary64_memory_share :
    roundBinary64 (100000000000000192 / 1000000000000003) = 879609302220799 / 2 ^ 43 := by
  have h := roundBinary64_eval 100000000000000192 1000000000000003 7036874417766392 (-46)
    (by decide) (by decide) (by decide) (by decide) (by decide)
  norm_num at h ⊢
  rw [h]

/-- An iteration of the loop of `execute` leaves the three ratios of the statistics alone. -/
theorem executeStep_ratios (rnd : ℚ → ℚ) (st : ExecState) (inst : Instruction) :
    (Simulator.executeStep rnd st inst).stats.execution_time_ms = st.stats.execution_time_ms ∧
      (Simulator.executeStep rnd st inst).stats.compute_utilization
        = st.stats.compute_utilization ∧
      (Simulator.executeStep rnd st inst).stats.memory_bound_time
        = st.stats.memory_bound_time := by
  unfold Simulator.executeStep Simulator.executeSwitch
  cases h : inst.type <;> exact ⟨rfl, rfl, rfl⟩

theorem foldl_executeStep_ratios (rnd : ℚ → ℚ) (trace : List Instruction) :
    ∀ st : ExecState,
      (trace.foldl (Simulator.executeStep rnd) st).stats.compute_utilization
          = st.stats.compute_utilization ∧
        (trace.foldl (Simulator.executeStep rnd) st).stats.memory_bound_time
          = st.stats.memory_bound_time := by
  induction trace with
  | nil => intro st; exact ⟨rfl, rfl⟩
  | cons inst rest ih =>
    intro st
    obtain ⟨h1, h2⟩ := ih (Simulator.executeStep rnd st inst)
    obtain ⟨_, s1, s2⟩ := executeStep_ratios rnd st inst
    rw [List.foldl_cons, h1, h2, s1, s2]
    exact ⟨rfl, rfl⟩

/-- The two percentages that `execute` returns, from the two totals of its loop. -/
theorem execute_utilization (rnd : ℚ → ℚ) (sim : Simulator) (trace : List Instruction) :
    (sim.execute rnd trace).1.compute_utilization
        = (if 0 < sim.computeCost rnd trace + sim.memoryCost rnd trace then
            fdiv rnd (fmul rnd 100 (toDouble rnd (sim.computeCost rnd trace)))
              (toDouble rnd (sim.computeCost rnd trace + sim.memoryCost rnd trace))
          else 0) ∧
      (sim.execute rnd trace).1.memory_bound_time
        = (if 0 < sim.computeCost rnd trace + sim.memoryCost rnd trace then
            fdiv rnd (fmul rnd 100 (toDouble rnd (sim.memoryCost rnd trace)))
              (toDouble rnd (sim.computeCost rnd trace + sim.memoryCost rnd trace))
          else 0) := by
  obtain ⟨_, _, h3, h4⟩ := foldl_executeStep_fields rnd trace sim.executeInit
  obtain ⟨r1, r2⟩ := foldl_executeStep_ratios rnd trace sim.executeInit
  have hc : (trace.foldl (Simulator.executeStep rnd) sim.executeInit).compute_cycles
      = sim.computeCost rnd trace := by
    rw [h3]; simp [Simulator.executeInit, Simulator.computeCost]
  have hm : (trace.foldl (Simulator.executeStep rnd) sim.executeInit).memory_cycles
      = sim.memoryCost rnd trace := by
    rw [h4]; simp [Simulator.executeInit, Simulator.memoryCost]
  have z1 : (trace.foldl (Simulator.executeStep rnd) sim.executeInit).stats.compute_utilization
      = 0 := by
    rw [r1]; rfl
  have z2 : (trace.foldl (Simulator.executeStep rnd) sim.executeInit).stats.memory_bound_time
      = 0 := by
    rw [r2]; rfl
  unfold Simulator.execute
  simp only [gt_iff_lt, hc, hm]
  split
  · exact ⟨rfl, rfl⟩
  · exact ⟨z1, z2⟩

/-- No instruction costs a negative number of cycles. -/
theorem executeSwitch_nonneg (rnd : ℚ → ℚ) (st : ExecState) (inst : Instruction) :
    0 ≤ (Simulator.executeSwitch rnd st inst).1 := by
  unfold Simulator.executeSwitch
  cases h : inst.type
  · simp only []
    unfold Simulator.simulateLoad
    simp only []
    split
    · exact Int.le_of_lt_add_one (by norm_num)
    · exact le_trans (by norm_num) (le_max_right _ _)
  · exact le_trans (by norm_num) (le_max_right _ _)
  · exact le_trans (by norm_num) (le_max_right _ _)
  · simp only []
    norm_num

theorem sumCosts_costed_nonneg (rnd : ℚ → ℚ) (sel : InstructionType → Bool)
    (trace : List Instruction) :
    ∀ st : ExecState, 0 ≤ sumCosts sel (Simulator.costed rnd st trace) := by
  induction trace with
  | nil => intro st; simp [Simulator.costed, sumCosts]
  | cons inst rest ih =>
    intro st
    have h1 := ih (Simulator.executeStep rnd st inst)
    have h2 := executeSwitch_nonneg rnd st inst
    unfold sumCosts at h1 ⊢
    simp only [Simulator.costed, List.filter_cons]
    split
    · simp only [List.map_cons, List.sum_cons]
      exact add_nonneg h2 h1
    · exact h1

/-- On a simulator with the configuration `exUnitChip`, in binary64 arithmetic, the store of
`10 ^ 15 + 2` bytes costs `10 ^ 15 + 2` cycles. -/
theorem simulateStore_unit (s : Simulator) (hs : s.config = exUnitChip) :
    s.simulateStore roundBinary64 exStoreHuge = 1000000000000002 := by
  unfold Simulator.simulateStore Simulator.bytesPerCycle fmul fdiv toDouble
  rw [hs]
  simp only [exUnitChip, exStoreHuge, one_mul, Int.cast_ofNat, roundBinary64_giga,
    roundBinary64_store]
  rw [div_self (by norm_num), roundBinary64_one, div_one, roundBinary64_store]
  unfold toInt64
  norm_num

theorem simulateCompute_zero {rnd : ℚ → ℚ} (hr : IsRounding rnd) (s : Simulator) :
    s.simulateCompute rnd exComputeZero = 1 := by
  unfold Simulator.simulateCompute
  simp only [exComputeZero, fdiv_zero_left hr, toInt64_zero]
  rfl

/-- The costs of the two instructions of `exSkewedTrace` in binary64 arithmetic. -/
theorem costed_skewed :
    Simulator.costed roundBinary64 (Simulator.new exUnitChip).executeInit exSkewedTrace
      = [(exComputeZero, 1), (exStoreHuge, 1000000000000002)] := by
  have h1 : (Simulator.executeSwitch roundBinary64 (Simulator.new exUnitChip).executeInit
      exComputeZero).1 = 1 :=
    simulateCompute_zero isRounding_roundBinary64 _
  have h2 : (Simulator.executeSwitch roundBinary64
      (Simulator.executeStep roundBinary64 (Simulator.new exUnitChip).executeInit exComputeZero)
      exStoreHuge).1 = 1000000000000002 :=
    simulateStore_unit _ (executeStep_sim roundBinary64 _ exComputeZero).1
  simp only [exSkewedTrace, Simulator.costed, h1, h2]

set_option maxRecDepth 8000 in
/-- The sum of the two percentages of `exSkewedTrace`, rounded to binary64. -/
theorem roundBinary64_share_sum :
    roundBinary64 (3961408125713205 / 2 ^ 95 + 879609302220799 / 2 ^ 43)
      = 7036874417766399 / 2 ^ 46 := by
  have h := roundBinary64_eval 3961408125713216337485695859509
    39614081257132168796771975168 7036874417766399 (-46) (by decide) (by decide) (by decide)
    (by decide) (by decide)
  have e : (3961408125713205 / 2 ^ 95 + 879609302220799 / 2 ^ 43 : ℚ)
      = ((3961408125713216337485695859509 : ℕ) : ℚ)
        / ((39614081257132168796771975168 : ℕ) : ℚ) := by
    norm_num
  rw [e, h]
  norm_num

/-- C12 (amended): for every configuration with positive fields and every trace, with `cc`
the summed cost of the COMPUTE instructions and `mc` the summed cost of the LOAD and STORE
instructions: both are non-negative; if `cc + mc > 0` then `compute_utilization` is
`100 * cc / (cc + mc)` and `memory_bound_time` is `100 * mc / (cc + mc)` as double arithmetic
evaluates them, the conversions of `cc`, `mc` and `cc + mc` to double, the product with
`100.0` and the quotient each followed by the rounding `rnd`; if `cc + mc = 0` both are 0.
Nothing is said of their sum. -/
theorem C12_utilization (rnd : ℚ → ℚ) (sim : Simulator) (_hcfg : sim.config.Positive)
    (trace : List Instruction) :
    0 ≤ sim.computeCost rnd trace ∧ 0 ≤ sim.memoryCost rnd trace ∧
      (0 < sim.computeCost rnd trace + sim.memoryCost rnd trace →
        (sim.execute rnd trace).1.compute_utilization
            = rnd (rnd (100 * rnd (sim.computeCost rnd trace : ℚ))
                / rnd ((sim.computeCost rnd trace + sim.memoryCost rnd trace : ℤ) : ℚ)) ∧
          (sim.execute rnd trace).1.memory_bound_time
            = rnd (rnd (100 * rnd (sim.memoryCost rnd trace : ℚ))
                / rnd ((sim.computeCost rnd trace + sim.memoryCost rnd trace : ℤ) : ℚ))) ∧
      (sim.computeCost rnd trace + sim.memoryCost rnd trace = 0 →
        (sim.execute rnd trace).1.compute_utilization = 0 ∧
          (sim.execute rnd trace).1.memory_bound_time = 0) := by
  obtain ⟨h1, h2⟩ := execute_utilization rnd sim trace
  refine ⟨sumCosts_costed_nonneg rnd _ trace _, sumCosts_costed_nonneg rnd _ trace _, ?_, ?_⟩
  · intro hpos
    rw [h1, h2, if_pos hpos, if_pos hpos]
    exact ⟨rfl, rfl⟩
  · intro hz
    have hn : ¬ 0 < sim.computeCost rnd trace + sim.memoryCost rnd trace := by omega
    rw [h1, h2, if_neg hn, if_neg hn]
    exact ⟨rfl, rfl⟩

/-- C12, counterexample: on the configuration with every field 1, in binary64 arithmetic, a
computation without flops costs 1 cycle and a store of `10 ^ 15 + 2` bytes costs
`10 ^ 15 + 2` cycles; `compute_utilization` is `3961408125713205 / 2 ^ 95`, not
`100 / (10 ^ 15 + 3)`, `memory_bound_time` is `879609302220799 / 2 ^ 43`, and the two do not
sum to 100, neither exactly nor when the sum is rounded to binary64. -/
theorem C12_sum_not_100 :
    exUnitChip.Positive ∧
      (Simulator.new exUnitChip).computeCost roundBinary64 exSkewedTrace = 1 ∧
      (Simulator.new exUnitChip).memoryCost roundBinary64 exSkewedTrace = 1000000000000002 ∧
      ((Simulator.new exUnitChip).execute roundBinary64 exSkewedTrace).1.compute_utilization
        = 3961408125713205 / 2 ^ 95 ∧
      ((Simulator.new exUnitChip).execute roundBinary64 exSkewedTrace).1.memory_bound_time
        = 879609302220799 / 2 ^ 43 ∧
      ((Simulator.new exUnitChip).execute roundBinary64 exSkewedTrace).1.compute_utilization
        ≠ 100 * 1 / (1 + 1000000000000002) ∧
      ((Simulator.new exUnitChip).execute roundBinary64 exSkewedTrace).1.compute_utilization
        + ((Simulator.new exUnitChip).execute roundBinary64 exSkewedTrace).1.memory_bound_time
          ≠ 100 ∧
      roundBinary64
        (((Simulator.new exUnitChip).execute roundBinary64 exSkewedTrace).1.compute_utilization
          + ((Simulator.new exUnitChip).execute roundBinary64
              exSkewedTrace).1.memory_bound_time) ≠ 100 := by
  have hcc : (Simulator.new exUnitChip).computeCost roundBinary64 exSkewedTrace = 1 := by
    unfold Simulator.computeCost
    rw [costed_skewed]
    simp [sumCosts, exComputeZero, exStoreHuge]
  have hmc : (Simulator.new exUnitChip).memoryCost roundBinary64 exSkewedTrace
      = 1000000000000002 := by
    unfold Simulator.memoryCost
    rw [costed_skewed]
    simp [sumCosts, exComputeZero, exStoreHuge]
  obtain ⟨h1, h2⟩ := execute_utilization roundBinary64 (Simulator.new exUnitChip) exSkewedTrace
  rw [hcc, hmc] at h1 h2
  have hcu : ((Simulator.new exUnitChip).execute roundBinary64
      exSkewedTrace).1.compute_utilization = 3961408125713205 / 2 ^ 95 := by
    rw [h1, if_pos (by norm_num)]
    unfold fdiv fmul toDouble
    norm_num [roundBinary64_one, roundBinary64_hundred, roundBinary64_total,
      roundBinary64_compute_share]
  have hmb : ((Simulator.new exUnitChip).execute roundBinary64
      exSkewedTrace).1.memory_bound_time = 879609302220799 / 2 ^ 43 := by
    rw [h2, if_pos (by norm_num)]
    unfold fdiv fmul toDouble
    norm_num [roundBinary64_store, roundBinary64_product, roundBinary64_total,
      roundBinary64_memory_share]
  refine ⟨by simp [exUnitChip, ChipConfig.Positive], hcc, hmc, hcu, hmb, ?_, ?_, ?_⟩
  · rw [hcu]; norm_num
  · rw [hcu, hmb]; norm_num
  · rw [hcu, hmb, roundBinary64_share_sum]; norm_num

/-! ## C24: the fusion pass run twice -/

/-- The loop of `getNodesInTopoOrder` reads nothing of the nodes but the identifiers. -/
theorem topoLoop_ids (rest : List Node) :
    ∀ (rest2 : List Node) (p : Nat) (visited result : List Nat),
      rest2.map (fun n => n.id) = rest.map (fun n => n.id) →
      topoLoop rest2 p visited result = topoLoop rest p visited result := by
  induction rest with
  | nil =>
    intro rest2 p visited result h
    cases rest2 with
    | nil => rfl
    | cons a l => simp at h
  | cons node rest ih =>
    intro rest2 p visited result h
    cases rest2 with
    | nil => simp at h
    | cons node2 rest2 =>
      simp only [List.map_cons, List.cons.injEq] at h
      rw [topoLoop, topoLoop, h.1]
      split
      · exact ih rest2 _ _ _ h.2
      · exact ih rest2 _ _ _ h.2

theorem retyped_ids {g1 g2 : Graph} (h : Retyped g1 g2) :
    g2.nodes.map (fun n => n.id) = g1.nodes.map (fun n => n.id) := by
  apply List.ext_getElem?
  intro x
  rw [List.getElem?_map, List.getElem?_map]
  cases hx : g1.nodes[x]? with
  | none =>
    have : g2.nodes[x]? = none := by
      rw [List.getElem?_eq_none_iff] at hx ⊢
      have := h.2.2.2.1
      omega
    rw [this]
  | some node =>
    obtain ⟨t, _, h2⟩ := h.2.2.2.2 x node hx
    rw [h2]
    rfl

/-- A retyping does not change the topological order. -/
theorem retyped_topoOrder {g1 g2 : Graph} (h : Retyped g1 g2) :
    g2.getNodesInTopoOrder = g1.getNodesInTopoOrder :=
  topoLoop_ids g1.nodes g2.nodes 0 [] [] (retyped_ids h)

theorem topoLoop_sublist (rest : List Node) :
    ∀ (p : Nat) (visited result : List Nat),
      ∃ l : List Nat, topoLoop rest p visited result = result ++ l ∧
        l.Sublist (List.range' p rest.length) := by
  induction rest with
  | nil => intro p visited result; exact ⟨[], by simp [topoLoop], by simp⟩
  | cons node rest ih =>
    intro p visited result
    rw [topoLoop]
    split
    · obtain ⟨l, h1, h2⟩ := ih (p + 1) visited result
      refine ⟨l, h1, ?_⟩
      rw [List.length_cons, List.range'_succ]
      exact h2.cons _
    · obtain ⟨l, h1, h2⟩ := ih (p + 1) (node.id :: visited) (result ++ [p])
      refine ⟨p :: l, by rw [h1]; simp, ?_⟩
      rw [List.length_cons, List.range'_succ]
      exact h2.cons₂ _

/-- No pointer is twice in the topological order. -/
theorem topoOrder_nodup (g : Graph) : g.getNodesInTopoOrder.Nodup := by
  obtain ⟨l, h1, h2⟩ := topoLoop_sublist g.nodes 0 [] []
  unfold Graph.getNodesInTopoOrder
  rw [h1, List.nil_append]
  exact h2.nodup (List.nodup_range' _ _)

theorem baseKind_eq_relu (t u : OpType) (h : baseKind t = baseKind u) :
    t = .RELU ↔ u = .RELU := by
  cases t <;> cases u <;> simp [baseKind] at h ⊢

/-- The test of `fuseConvReLU` does not see a retyping within the base kinds. -/
theorem isReLUOn_retyped {g g2 : Graph} (h : Retyped g g2) (q v : Nat) :
    isReLUOn g2 q v = isReLUOn g q v := by
  unfold isReLUOn
  cases hq : g.nodes[q]? with
  | none =>
    have hlen := h.2.2.2.1
    have : g2.nodes[q]? = none := by
      rw [List.getElem?_eq_none_iff] at hq ⊢
      omega
    rw [this]
  | some node =>
    obtain ⟨t, ht, h2⟩ := h.2.2.2.2 q node hq
    rw [h2]
    have hrelu := baseKind_eq_relu t node.type ht
    simp only [Node.setType]
    by_cases hn : node.type = .RELU
    · simp [hn, hrelu.2 hn]
    · have hnt : ¬ t = .RELU := fun h => hn (hrelu.1 h)
      simp [hn, hnt]

/-- A fusion loop that finds nothing to fuse returns the graph and the flag as they were. -/
theorem fuseLoopGen_noop (src tgt : OpType) (test : Graph → Nat → Nat → Bool) (g : Graph)
    (ps : List Nat) :
    ∀ changed : Bool,
      (∀ (pre : List Nat) (x : Nat) (post : List Nat) (node : Node), ps = pre ++ x :: post →
        g.nodes[x]? = some node →
        ¬ (node.type = src ∧ node.outputs.length = 1 ∧
          post.any (fun q => test g q (node.outputs.getD 0 0)) = true)) →
      fuseLoopGen src tgt test ps g changed = (g, changed) := by
  induction ps with
  | nil => intro changed _; rfl
  | cons p later ih =>
    intro changed h
    have hrest : fuseLoopGen src tgt test later g changed = (g, changed) :=
      ih changed (fun pre x post node hs hx => h (p :: pre) x post node (by rw [hs]; rfl) hx)
    rw [fuseLoopGen_cons]
    cases hn : g.nodes[p]? with
    | none => exact hrest
    | some node =>
      simp only []
      rw [if_neg (h [] p later node rfl hn)]
      exact hrest

/-- After `fuseMatMulAdd`, a second `fuseMatMulAdd` finds nothing to fuse. -/
theorem fuseMatMulAdd_stable (g1 : Graph) :
    FusionPass.fuseMatMulAdd (FusionPass.fuseMatMulAdd g1).1
      = ((FusionPass.fuseMatMulAdd g1).1, false) := by
  have hr1 := fuseMatMulAdd_retyped g1
  have hspec := (fuseLoopGen_spec .MATMUL .FUSED_MATMUL_ADD isAddOn
    (fun g p node q v h1 h2 => isAddOn_updNode g p node q v h1 h2)
    g1.getNodesInTopoOrder g1 false (topoOrder_nodup g1)).2
  have hunf : FusionPass.fuseMatMulAdd (FusionPass.fuseMatMulAdd g1).1
      = fuseLoopGen .MATMUL .FUSED_MATMUL_ADD isAddOn g1.getNodesInTopoOrder
          (FusionPass.fuseMatMulAdd g1).1 false := by
    rw [FusionPass.fuseMatMulAdd, fuseMatMulAddLoop_eq, retyped_topoOrder hr1]
  rw [hunf]
  apply fuseLoopGen_noop
  intro pre x post node2 hsplit hx2 hcond
  obtain ⟨node1, t, hx1, _, _⟩ := hr1.backward x node2 hx2
  have h := hspec pre x post node1 hsplit hx1
  rw [← fuseMatMulAddLoop_eq] at h
  have hx2b : (FusionPass.fuseMatMulAdd g1).1.nodes[x]?
      = some (fusedNode .MATMUL .FUSED_MATMUL_ADD isAddOn g1 post node1) := h
  rw [hx2] at hx2b
  have htest : ∀ q v, isAddOn (FusionPass.fuseMatMulAdd g1).1 q v = isAddOn g1 q v :=
    isAddOn_retyped hr1
  simp only [htest] at hcond
  unfold fusedNode at hx2b
  split at hx2b
  · have hn2 : node2 = node1.setType .FUSED_MATMUL_ADD := by simpa using hx2b
    rw [hn2] at hcond
    exact absurd hcond.1 (by simp [Node.setType])
  · rename_i hno
    have hn2 : node2 = node1 := by simpa using hx2b
    rw [hn2] at hcond
    exact hno hcond

/-- After the fusion pass, `fuseConvReLU` finds nothing to fuse. -/
theorem fuseConvReLU_stable (g : Graph) :
    FusionPass.fuseConvReLU (FusionPass.run g).1 = ((FusionPass.run g).1, false) := by
  have hr := FusionPass.run_retyped g
  have hspec := (fuseLoopGen_spec .CONV2D .FUSED_CONV_RELU isReLUOn
    (fun g p node q v h1 h2 => isReLUOn_updNode g p node q v h1 h2)
    g.getNodesInTopoOrder g false (topoOrder_nodup g)).2
  have hunf : FusionPass.fuseConvReLU (FusionPass.run g).1
      = fuseLoopGen .CONV2D .FUSED_CONV_RELU isReLUOn g.getNodesInTopoOrder
          (FusionPass.run g).1 false := by
    rw [FusionPass.fuseConvReLU, fuseConvReLULoop_eq, retyped_topoOrder hr]
  rw [hunf]
  apply fuseLoopGen_noop
  intro pre x post node2 hsplit hx2 hcond
  obtain ⟨node0, t, hx0, _, _⟩ := hr.backward x node2 hx2
  have h := hspec pre x post node0 hsplit hx0
  rw [← fuseConvReLULoop_eq] at h
  have h1 : (FusionPass.fuseConvReLU g).1.nodes[x]?
      = some (fusedNode .CONV2D .FUSED_CONV_RELU isReLUOn g post node0) := h
  have htest : ∀ q v, isReLUOn (FusionPass.run g).1 q v = isReLUOn g q v :=
    isReLUOn_retyped hr
  simp only [htest] at hcond
  rcases run_node g x node0 hx0 with ⟨h3, h2⟩ | ⟨_, _, h2⟩ | ⟨_, _, h2⟩
  · rw [hx2] at h2
    have hn2 : node2 = node0 := by simpa using h2
    rw [hn2] at hcond
    rw [fusedNode, if_pos hcond, h3] at h1
    have := congrArg (fun o => o.map (fun n => n.type)) h1
    simp [Node.setType, hcond.1] at this
  · rw [hx2] at h2
    have hn2 : node2 = node0.setType .FUSED_MATMUL_ADD := by simpa using h2
    rw [hn2] at hcond
    exact absurd hcond.1 (by simp [Node.setType])
  · rw [hx2] at h2
    have hn2 : node2 = node0.setType .FUSED_CONV_RELU := by simpa using h2
    rw [hn2] at hcond
    exact absurd hcond.1 (by simp [Node.setType])

/-- C24: the fusion pass is idempotent: for every graph, a second `FusionPass.run` directly
after a first one returns false and leaves the graph, and so the kind of every node,
unchanged. -/
theorem C24_fusion_idempotent (g : Graph) :
    FusionPass.run (FusionPass.run g).1 = ((FusionPass.run g).1, false) ∧
      (FusionPass.run (FusionPass.run g).1).2 = false ∧
      (FusionPass.run (FusionPass.run g).1).1 = (FusionPass.run g).1 ∧
      ∀ x : Nat,
        (FusionPass.run (FusionPass.run g).1).1.kindOf x = (FusionPass.run g).1.kindOf x := by
  have h1 := fuseConvReLU_stable g
  have h2 : FusionPass.fuseMatMulAdd (FusionPass.run g).1 = ((FusionPass.run g).1, false) :=
    fuseMatMulAdd_stable (FusionPass.fuseConvReLU g).1
  have h : FusionPass.run (FusionPass.run g).1 = ((FusionPass.run g).1, false) := by
    rw [FusionPass.run]
    simp only [h1, h2, Bool.or_self]
  rw [h]
  exact ⟨rfl, rfl, rfl, fun _ => rfl⟩

/-! ## C22: the trace of the fused graph -/

theorem baseKind_terminal (t u : OpType) (h : baseKind t = baseKind u) :
    (t = .INPUT ∨ t = .OUTPUT) ↔ (u = .INPUT ∨ u = .OUTPUT) := by
  cases t <;> cases u <;> simp [baseKind] at h ⊢

/-- The flop count does not see a retyping within the base kinds. -/
theorem computeFLOPs_retyped (g1 g2 : Graph) (hv : g2.values = g1.values) (node : Node)
    (t : OpType) (ht : baseKind t = baseKind node.type) :
    CodeGenerator.computeFLOPs g2 (node.setType t) = CodeGenerator.computeFLOPs g1 node := by
  have hs : ∀ v, g2.shapeOf v = g1.shapeOf v := shapeOf_congr g1 g2 hv
  obtain ⟨id, type, inputs, outputs, attrs⟩ := node
  simp only at ht
  cases t <;> cases type <;> simp [baseKind] at ht <;>
    simp [CodeGenerator.computeFLOPs, Node.setType, Node.getAttr, hs]

/-- The instructions of a node after a retyping within the base kinds: only `op_name` can
differ. -/
theorem specForNode_retyped (g1 g2 : Graph) (hv : g2.values = g1.values) (node : Node)
    (t : OpType) (ht : baseKind t = baseKind node.type) :
    (specForNode g2 (node.setType t)).map Instruction.costFields
      = (specForNode g1 node).map Instruction.costFields := by
  have hs : ∀ v, g2.shapeOf v = g1.shapeOf v := shapeOf_congr g1 g2 hv
  have hterm := baseKind_terminal t node.type ht
  unfold specForNode
  by_cases hn : node.type = .INPUT ∨ node.type = .OUTPUT
  · rw [if_pos hn, if_pos (by simpa [Node.setType] using hterm.2 hn)]
  · rw [if_neg hn, if_neg (by simpa [Node.setType] using fun h => hn (hterm.1 h))]
    have hf := computeFLOPs_retyped g1 g2 hv node t ht
    simp only [Node.setType] at hf
    simp [specTriple, Instruction.costFields, specBytes, hs, hf, Node.setType]

theorem flatMap_spec_retyped {g1 g2 : Graph} (h : Retyped g1 g2) (ps : List Nat) :
    ((ps.filterMap (fun p => g2.nodes[p]?)).flatMap (specForNode g2)).map
        Instruction.costFields
      = ((ps.filterMap (fun p => g1.nodes[p]?)).flatMap (specForNode g1)).map
        Instruction.costFields := by
  induction ps with
  | nil => rfl
  | cons p ps ih =>
    cases hp : g1.nodes[p]? with
    | none =>
      have hp2 : g2.nodes[p]? = none := by
        rw [List.getElem?_eq_none_iff] at hp ⊢
        have := h.2.2.2.1
        omega
      simp only [List.filterMap_cons, hp, hp2]
      exact ih
    | some node =>
      obtain ⟨t, ht, hp2⟩ := h.2.2.2.2 p node hp
      simp only [List.filterMap_cons, hp, hp2, List.flatMap_cons, List.map_append, ih,
        specForNode_retyped g1 g2 h.1 node t ht]

/-- Reducing the sizes to `int64_t` keeps two traces equal up to `op_name`. -/
theorem costFields_wrapSizes (l1 l2 : List Instruction)
    (h : l1.map Instruction.costFields = l2.map Instruction.costFields) :
    (l1.map Instruction.wrapSizes).map Instruction.costFields
      = (l2.map Instruction.wrapSizes).map Instruction.costFields := by
  have hw : ∀ l : List Instruction,
      (l.map Instruction.wrapSizes).map Instruction.costFields
        = (l.map Instruction.costFields).map
          (fun c => (c.1, wrapInt64 c.2.1, wrapInt64 c.2.2.1, c.2.2.2)) := by
    intro l
    simp [List.map_map, Function.comp_def, Instruction.costFields, Instruction.wrapSizes]
  rw [hw l1, hw l2, h]

/-- The trace of a retyped graph: only `op_name` can differ. -/
theorem generate_retyped {g1 g2 : Graph} (h : Retyped g1 g2) :
    (CodeGenerator.generate g2).map Instruction.costFields
      = (CodeGenerator.generate g1).map Instruction.costFields := by
  rw [generate_eq_topo, generate_eq_topo, retyped_topoOrder h]
  exact costFields_wrapSizes _ _ (flatMap_spec_retyped h _)

/-- The simulator does not read `op_name`. -/
theorem executeStep_costFields (rnd : ℚ → ℚ) (st : ExecState) (a b : Instruction)
    (h : a.costFields = b.costFields) :
    Simulator.executeStep rnd st a = Simulator.executeStep rnd st b := by
  obtain ⟨ta, na, ia, oa, fa⟩ := a
  obtain ⟨tb, nb, ib, ob, fb⟩ := b
  simp only [Instruction.costFields, Prod.mk.injEq] at h
  obtain ⟨rfl, rfl, rfl, rfl⟩ := h
  cases ta <;> rfl

theorem foldl_executeStep_costFields (rnd : ℚ → ℚ) (t1 : List Instruction) :
    ∀ (t2 : List Instruction) (st : ExecState),
      t1.map Instruction.costFields = t2.map Instruction.costFields →
      t1.foldl (Simulator.executeStep rnd) st = t2.foldl (Simulator.executeStep rnd) st := by
  induction t1 with
  | nil =>
    intro t2 st h
    cases t2 with
    | nil => rfl
    | cons b t2 => simp at h
  | cons a t1 ih =>
    intro t2 st h
    cases t2 with
    | nil => simp at h
    | cons b t2 =>
      simp only [List.map_cons, List.cons.injEq] at h
      rw [List.foldl_cons, List.foldl_cons, executeStep_costFields rnd st a b h.1]
      exact ih t2 _ h.2

/-- Two traces that differ only in `op_name` give the same result of `execute`. -/
theorem execute_costFields (rnd : ℚ → ℚ) (sim : Simulator) (t1 t2 : List Instruction)
    (h : t1.map Instruction.costFields = t2.map Instruction.costFields) :
    sim.execute rnd t1 = sim.execute rnd t2 := by
  unfold Simulator.execute
  rw [foldl_executeStep_costFields rnd t1 t2 _ h]

/-- C22: for every graph (built with the builder or not), the trace generated after
`FusionPass.run` has the length of the trace generated before it and agrees with it position
by position in kind, `input_size`, `output_size` and `flops`, so that only `op_name` can
differ; hence for every simulator, `execute` returns the same statistics for the fused and the
unfused graph. -/
theorem C22_fused_trace_same_costs (g : Graph) :
    (CodeGenerator.generate (FusionPass.run g).1).length = (CodeGenerator.generate g).length ∧
      (∀ (i : Nat) (a b : Instruction),
        (CodeGenerator.generate (FusionPass.run g).1)[i]? = some a →
        (CodeGenerator.generate g)[i]? = some b →
        a.type = b.type ∧ a.input_size = b.input_size ∧ a.output_size = b.output_size ∧
          a.flops = b.flops) ∧
      ∀ (rnd : ℚ → ℚ) (sim : Simulator),
        (sim.execute rnd (CodeGenerator.generate (FusionPass.run g).1)).1
          = (sim.execute rnd (CodeGenerator.generate g)).1 := by
  have h := generate_retyped (FusionPass.run_retyped g)
  refine ⟨?_, ?_, ?_⟩
  · have := congrArg List.length h
    simpa using this
  · intro i a b ha hb
    have hi := congrArg (fun l => l[i]?) h
    simp only [List.getElem?_map, ha, hb, Option.map_some', Option.some.injEq,
      Instruction.costFields, Prod.mk.injEq] at hi
    exact hi
  · intro rnd sim
    rw [execute_costFields rnd sim _ _ h]

/-! ## C23: a larger cache -/

theorem access_eq (c : CacheModel) (address s : Int) :
    c.access address s =
      if s ≤ c.size_bytes ∧ c.current_usage + s ≤ c.size_bytes then
        (true, { c with current_usage := c.current_usage + s, hits := c.hits + 1 })
      else
        (false, { c with misses := c.misses + 1,
                         current_usage := min (c.current_usage + s) c.size_bytes }) := by
  unfold CacheModel.access CacheModel.miss
  by_cases h1 : s ≤ c.size_bytes
  · by_cases h2 : c.current_usage + s ≤ c.size_bytes
    · simp [h1, h2]
    · simp [h1, h2]
  · simp [h1]

/-- With usage `min B C` after loads of `B ≥ 0` bytes in all, a load of `s ≥ 0` bytes hits
iff `s = 0` or `B + s ≤ C`, and the usage becomes `min (B + s) C`. -/
theorem access_min (c : CacheModel) (address s B : Int) (hB : 0 ≤ B) (hs : 0 ≤ s)
    (hC : 0 ≤ c.size_bytes) (hu : c.current_usage = min B c.size_bytes) :
    ((c.access address s).1 = true ↔ s = 0 ∨ B + s ≤ c.size_bytes) ∧
      (c.access address s).2.current_usage = min (B + s) c.size_bytes ∧
      (c.access address s).2.size_bytes = c.size_bytes ∧
      (c.access address s).2.hits = c.hits + (if (c.access address s).1 = true then 1 else 0) := by
  rw [access_eq]
  by_cases h : s ≤ c.size_bytes ∧ c.current_usage + s ≤ c.size_bytes
  · rw [if_pos h]
    rw [hu] at h
    refine ⟨?_, ?_, rfl, ?_⟩
    · simp only [true_iff]
      omega
    · simp only [hu]
      omega
    · simp
  · rw [if_neg h]
    rw [hu] at h
    refine ⟨?_, ?_, rfl, ?_⟩
    · simp only [Bool.false_eq_true, false_iff]
      omega
    · simp only [hu]
      omega
    · simp

theorem executeStep_not_load (rnd : ℚ → ℚ) (st : ExecState) (inst : Instruction)
    (ht : inst.type ≠ .LOAD) :
    (Simulator.executeStep rnd st inst).sim = st.sim := by
  unfold Simulator.executeStep Simulator.executeSwitch
  cases h : inst.type
  · exact absurd h ht
  · rfl
  · rfl
  · rfl

/-- The cost of a LOAD: 10 on a hit, else the transfer time, at least 100. -/
theorem executeSwitch_load (rnd : ℚ → ℚ) (st : ExecState) (inst : Instruction)
    (ht : inst.type = .LOAD) :
    (Simulator.executeSwitch rnd st inst).1 =
      if (st.sim.cache.access 0 inst.input_size).1 = true then 10
      else max (toInt64 (fdiv rnd (toDouble rnd inst.input_size) (st.sim.bytesPerCycle rnd)))
        100 := by
  unfold Simulator.executeSwitch Simulator.simulateLoad
  simp only [ht]
  split <;> rfl

theorem executeSwitch_other (rnd : ℚ → ℚ) (st1 st2 : ExecState) (inst : Instruction)
    (ht : inst.type ≠ .LOAD)
    (hbw : st1.sim.config.memory_bandwidth_gb_s = st2.sim.config.memory_bandwidth_gb_s)
    (hclk : st1.sim.config.clock_freq_ghz = st2.sim.config.clock_freq_ghz)
    (hcu : st1.sim.config.compute_units = st2.sim.config.compute_units)
    (hsw : st1.sim.config.simd_width = st2.sim.config.simd_width) :
    (Simulator.executeSwitch rnd st1 inst).1 = (Simulator.executeSwitch rnd st2 inst).1 := by
  unfold Simulator.executeSwitch Simulator.simulateStore Simulator.simulateCompute
    Simulator.bytesPerCycle
  cases h : inst.type
  · exact absurd h ht
  · simp only [hbw, hclk]
  · simp only [hcu, hsw]
  · rfl

/-- One instruction keeps the order of the two runs. -/
theorem executeStep_ordered (rnd : ℚ → ℚ) (B : Int) (st1 st2 : ExecState)
    (inst : Instruction) (hsz : inst.type = .LOAD → 0 ≤ inst.input_size)
    (h : CacheOrdered B st1 st2) :
    CacheOrdered (B + loadBytes [inst]) (Simulator.executeStep rnd st1 inst)
      (Simulator.executeStep rnd st2 inst) := by
  obtain ⟨hB, hC1, hC12, hu1, hu2, hhits, hcyc, hbw, hclk, hcu, hsw⟩ := h
  obtain ⟨c1, _, _, _⟩ := executeStep_fields rnd st1 inst
  obtain ⟨c2, _, _, _⟩ := executeStep_fields rnd st2 inst
  obtain ⟨_, k1⟩ := executeStep_sim rnd st1 inst
  obtain ⟨_, k2⟩ := executeStep_sim rnd st2 inst
  have hcfg1 := (executeStep_sim rnd st1 inst).1
  have hcfg2 := (executeStep_sim rnd st2 inst).1
  by_cases ht : inst.type = .LOAD
  · have hs := hsz ht
    have hlb : loadBytes [inst] = inst.input_size := by simp [loadBytes, ht]
    obtain ⟨a1, a2, a3, a4⟩ := access_min st1.sim.cache 0 inst.input_size B hB hs hC1 hu1
    obtain ⟨b1, b2, b3, b4⟩ := access_min st2.sim.cache 0 inst.input_size B hB hs
      (le_trans hC1 hC12) hu2
    have e1 := (executeStep_load_cache rnd st1 inst ht).1
    have e2 := (executeStep_load_cache rnd st2 inst ht).1
    have hbpc : st1.sim.bytesPerCycle rnd = st2.sim.bytesPerCycle rnd := by
      unfold Simulator.bytesPerCycle
      rw [hbw, hclk]
    have himp : (st1.sim.cache.access 0 inst.input_size).1 = true →
        (st2.sim.cache.access 0 inst.input_size).1 = true := by
      rw [a1, b1]
      omega
    refine ⟨by omega, ?_, ?_, ?_, ?_, ?_, ?_, ?_, ?_, ?_, ?_⟩
    · rw [k1]; exact hC1
    · rw [k1, k2]; exact hC12
    · rw [e1, hlb, a2, a3]
    · rw [e2, hlb, b2, b3]
    · rw [e1, e2, a4, b4]
      by_cases hh : (st1.sim.cache.access 0 inst.input_size).1 = true
      · rw [if_pos hh, if_pos (himp hh)]
        omega
      · rw [if_neg hh]
        split <;> omega
    · rw [c1, c2, executeSwitch_load rnd st1 inst ht, executeSwitch_load rnd st2 inst ht, hbpc]
      by_cases hh : (st1.sim.cache.access 0 inst.input_size).1 = true
      · rw [if_pos hh, if_pos (himp hh)]
        omega
      · rw [if_neg hh]
        split
        · have := le_max_right
            (toInt64 (fdiv rnd (toDouble rnd inst.input_size) (st2.sim.bytesPerCycle rnd)))
            (100 : Int)
          omega
        · omega
    · rw [hcfg1, hcfg2]; exact hbw
    · rw [hcfg1, hcfg2]; exact hclk
    · rw [hcfg1, hcfg2]; exact hcu
    · rw [hcfg1, hcfg2]; exact hsw
  · have hlb : loadBytes [inst] = 0 := by simp [loadBytes, ht]
    have e1 := executeStep_not_load rnd st1 inst ht
    have e2 := executeStep_not_load rnd st2 inst ht
    have hcost := executeSwitch_other rnd st1 st2 inst ht hbw hclk hcu hsw
    rw [hlb, add_zero]
    refine ⟨hB, ?_, ?_, ?_, ?_, ?_, ?_, ?_, ?_, ?_, ?_⟩
    · rw [e1]; exact hC1
    · rw [e1, e2]; exact hC12
    · rw [e1]; exact hu1
    · rw [e2]; exact hu2
    · rw [e1, e2]; exact hhits
    · rw [c1, c2, hcost]; omega
    · rw [e1, e2]; exact hbw
    · rw [e1, e2]; exact hclk
    · rw [e1, e2]; exact hcu
    · rw [e1, e2]; exact hsw

theorem loadBytes_cons (inst : Instruction) (rest : List Instruction) :
    loadBytes (inst :: rest) = loadBytes [inst] + loadBytes rest := by
  unfold loadBytes
  by_cases ht : inst.type = .LOAD <;> simp [List.filter_cons, ht]

theorem loadBytes_nonneg (trace : List Instruction)
    (hsz : ∀ inst ∈ trace, inst.type = .LOAD → 0 ≤ inst.input_size) :
    0 ≤ loadBytes trace := by
  induction trace with
  | nil => simp [loadBytes]
  | cons inst rest ih =>
    rw [loadBytes_cons]
    have h1 : 0 ≤ loadBytes [inst] := by
      unfold loadBytes
      by_cases ht : inst.type = .LOAD
      · simpa [List.filter_cons, ht] using hsz inst (List.mem_cons_self _ _) ht
      · simp [List.filter_cons, ht]
    have h2 := ih (fun i hi => hsz i (List.mem_cons_of_mem _ hi))
    omega

/-- A trace keeps the order of the two runs. -/
theorem foldl_executeStep_ordered (rnd : ℚ → ℚ) (trace : List Instruction) :
    ∀ (B : Int) (st1 st2 : ExecState),
      (∀ inst ∈ trace, inst.type = .LOAD → 0 ≤ inst.input_size) →
      CacheOrdered B st1 st2 →
      CacheOrdered (B + loadBytes trace) (trace.foldl (Simulator.executeStep rnd) st1)
        (trace.foldl (Simulator.executeStep rnd) st2) := by
  induction trace with
  | nil => intro B st1 st2 _ h; simpa [loadBytes] using h
  | cons inst rest ih =>
    intro B st1 st2 hsz h
    rw [List.foldl_cons, List.foldl_cons, loadBytes_cons, ← add_assoc]
    exact ih _ _ _ (fun i hi => hsz i (List.mem_cons_of_mem _ hi))
      (executeStep_ordered rnd B st1 st2 inst (hsz inst (List.mem_cons_self _ _)) h)

/-- The start of `execute` on two new simulators whose configurations differ in the cache
size only. -/
theorem executeInit_ordered (cfg : ChipConfig) (kb1 kb2 : Int) (h1 : 0 < kb1)
    (h12 : kb1 ≤ kb2) (hrep : kb2 * 1024 ≤ 2147483647) :
    CacheOrdered 0 (Simulator.new { cfg with cache_size_kb := kb1 }).executeInit
      (Simulator.new { cfg with cache_size_kb := kb2 }).executeInit := by
  simp only [CacheOrdered, Simulator.executeInit, Simulator.new, CacheModel.new,
    CacheModel.reset, ExecutionStats.init]
  rw [wrapInt32_of_range (kb1 * 1024) (by omega) (by omega),
    wrapInt32_of_range (kb2 * 1024) (by omega) hrep]
  refine ⟨le_rfl, by omega, by omega, by omega, by omega, le_rfl, le_rfl, ?_⟩
  simp

theorem loadBytes_append (l1 l2 : List Instruction) :
    loadBytes (l1 ++ l2) = loadBytes l1 + loadBytes l2 := by
  unfold loadBytes
  simp [List.filter_append]

/-- When `execute` runs a trace of non-negative LOAD sizes on a new simulator with a cache of
`kb > 0` kilobytes, a LOAD hits iff its size is 0 or the cumulative size of the LOADs up to
and including it is at most the capacity. -/
theorem hitAt_iff (rnd : ℚ → ℚ) (cfg : ChipConfig) (kb : Int) (hkb : 0 < kb)
    (hrep : kb * 1024 ≤ 2147483647) (instrs : List Instruction)
    (hsz : ∀ inst ∈ instrs, inst.type = .LOAD → 0 ≤ inst.input_size)
    (i : Nat) (inst : Instruction) (hi : 1 ≤ i) (hget : instrs[i - 1]? = some inst)
    (ht : inst.type = .LOAD) :
    (Simulator.new { cfg with cache_size_kb := kb }).hitAt rnd instrs i = true ↔
      inst.input_size = 0 ∨ loadBytes (instrs.take i) ≤ kb * 1024 := by
  have hmem : inst ∈ instrs := by
    obtain ⟨hlt, heq⟩ := List.getElem?_eq_some.1 hget
    rw [← heq]
    exact List.getElem_mem _
  have hs : 0 ≤ inst.input_size := hsz inst hmem ht
  have hszt : ∀ x ∈ instrs.take (i - 1), x.type = .LOAD → 0 ≤ x.input_size :=
    fun x hx => hsz x (List.mem_of_mem_take hx)
  have hord := foldl_executeStep_ordered rnd (instrs.take (i - 1)) 0 _ _ hszt
    (executeInit_ordered cfg kb kb hkb le_rfl hrep)
  obtain ⟨hB, hC, _, hu, _⟩ := hord
  have hcap := (foldl_executeStep_sim rnd (instrs.take (i - 1))
    (Simulator.new { cfg with cache_size_kb := kb }).executeInit).2
  have hcap0 : (Simulator.new { cfg with cache_size_kb := kb }).executeInit.sim.cache.size_bytes
      = kb * 1024 := wrapInt32_of_range (kb * 1024) (by omega) hrep
  have htake : instrs.take i = instrs.take (i - 1) ++ [inst] := by
    have : i = (i - 1) + 1 := by omega
    conv_lhs => rw [this]
    rw [List.take_succ, hget]
    rfl
  have hlb : loadBytes (instrs.take i) = 0 + loadBytes (instrs.take (i - 1)) + inst.input_size := by
    rw [htake, loadBytes_append]
    simp [loadBytes, ht]
  obtain ⟨a1, _⟩ := access_min _ 0 inst.input_size _ hB hs hC hu
  unfold Simulator.hitAt
  rw [hget]
  simp only []
  rw [a1, hlb, hcap, hcap0]

/-- C23: for every trace whose LOAD sizes are non-negative and two configurations that differ
only in `cache_size_kb`, with `0 < kb1 ≤ kb2` and `kb2 * 1024` representable as a 32-bit
`int`: a LOAD hits iff its size is 0 or the cumulative size of all LOADs up to and including
it is at most the capacity (for every positive cache size with a representable capacity); so
a LOAD that hits under `kb1` also hits under `kb2`, and `execute` under `kb2` returns at least
the `cache_hits` and at most the `cycles` that it returns under `kb1`. -/
theorem C23_larger_cache (rnd : ℚ → ℚ) (cfg : ChipConfig) (kb1 kb2 : Int) (h1 : 0 < kb1)
    (h12 : kb1 ≤ kb2) (hrep : kb2 * 1024 ≤ 2147483647) (instrs : List Instruction)
    (hsz : ∀ inst ∈ instrs, inst.type = .LOAD → 0 ≤ inst.input_size) :
    (∀ kb : Int, 0 < kb → kb * 1024 ≤ 2147483647 → ∀ (i : Nat) (inst : Instruction), 1 ≤ i →
        instrs[i - 1]? = some inst → inst.type = .LOAD →
        ((Simulator.new { cfg with cache_size_kb := kb }).hitAt rnd instrs i = true ↔
          inst.input_size = 0 ∨ loadBytes (instrs.take i) ≤ kb * 1024)) ∧
      (∀ (i : Nat) (inst : Instruction), 1 ≤ i → instrs[i - 1]? = some inst →
        inst.type = .LOAD →
        (Simulator.new { cfg with cache_size_kb := kb1 }).hitAt rnd instrs i = true →
        (Simulator.new { cfg with cache_size_kb := kb2 }).hitAt rnd instrs i = true) ∧
      ((Simulator.new { cfg with cache_size_kb := kb1 }).execute rnd instrs).1.cache_hits
        ≤ ((Simulator.new { cfg with cache_size_kb := kb2 }).execute rnd instrs).1.cache_hits ∧
      ((Simulator.new { cfg with cache_size_kb := kb2 }).execute rnd instrs).1.cycles
        ≤ ((Simulator.new { cfg with cache_size_kb := kb1 }).execute rnd instrs).1.cycles := by
  have hrep1 : kb1 * 1024 ≤ 2147483647 := by omega
  have hord := foldl_executeStep_ordered rnd instrs 0 _ _ hsz
    (executeInit_ordered cfg kb1 kb2 h1 h12 hrep)
  obtain ⟨_, _, _, _, _, hhits, hcyc, _⟩ := hord
  refine ⟨?_, ?_, ?_, ?_⟩
  · intro kb hkb hrepk i inst hi hget ht
    exact hitAt_iff rnd cfg kb hkb hrepk instrs hsz i inst hi hget ht
  · intro i inst hi hget ht hhit
    rw [hitAt_iff rnd cfg kb1 h1 hrep1 instrs hsz i inst hi hget ht] at hhit
    rw [hitAt_iff rnd cfg kb2 (by omega) hrep instrs hsz i inst hi hget ht]
    omega
  · rw [(execute_cache_counters rnd _ instrs).1, (execute_cache_counters rnd _ instrs).1]
    exact hhits
  · rw [(execute_int_fields rnd _ instrs).1, (execute_int_fields rnd _ instrs).1]
    exact hcyc

/-- C23, witness: of two loads of 600 bytes, the second misses in a cache of 1 KB (1200 bytes
in all exceed 1024) and hits in a cache of 2 KB; the run with 2 KB has at least the hits and
at most the cycles of the run with 1 KB. -/
theorem C23_larger_cache_witness :
    ((Simulator.new { exOneKb with cache_size_kb := 1 }).hitAt id exTwoLoads 2 = false ∧
      (Simulator.new { exOneKb with cache_size_kb := 2 }).hitAt id exTwoLoads 2 = true) ∧
      ((Simulator.new { exOneKb with cache_size_kb := 1 }).execute id exTwoLoads).1.cache_hits
        ≤ ((Simulator.new { exOneKb with cache_size_kb := 2 }).execute id
            exTwoLoads).1.cache_hits ∧
      ((Simulator.new { exOneKb with cache_size_kb := 2 }).execute id exTwoLoads).1.cycles
        ≤ ((Simulator.new { exOneKb with cache_size_kb := 1 }).execute id
            exTwoLoads).1.cycles := by
  have hsz : ∀ inst ∈ exTwoLoads, inst.type = .LOAD → 0 ≤ inst.input_size := by
    intro inst hmem _
    simp only [exTwoLoads, List.mem_cons, List.mem_singleton, or_self, List.not_mem_nil,
      or_false] at hmem
    rw [hmem]
    decide
  have h := C23_larger_cache id exOneKb 1 2 (by decide) (by decide) (by decide) exTwoLoads hsz
  have hget : exTwoLoads[2 - 1]? = some (loadOf 600) := rfl
  have hlb : loadBytes (exTwoLoads.take 2) = 1200 := by decide
  refine ⟨⟨?_, ?_⟩, h.2.2.1, h.2.2.2⟩
  · have h1 := h.1 1 (by decide) (by decide) 2 (loadOf 600) (by decide) hget rfl
    rw [hlb] at h1
    rw [Bool.eq_false_iff]
    intro hc
    have := h1.1 hc
    simp [loadOf] at this
  · have h2 := h.1 2 (by decide) (by decide) 2 (loadOf 600) (by decide) hget rfl
    rw [hlb] at h2
    exact h2.2 (Or.inr (by decide))

/-! ## C21: dead code elimination -/

/-- On `exDeadPool` the pass keeps the nodes 0, 1, 2 and 4 and the values 0, 1, 2 and 4;
the output node then produces the value at position 3. -/
theorem dce_exDeadPool :
    DeadCodeEliminationPass.reached exDeadPool = [0, 1, 2, 4] ∧
      DeadCodeEliminationPass.retained exDeadPool = [0, 1, 2, 4] ∧
      DeadCodeEliminationPass.retainedValues exDeadPool = [0, 1, 2, 4] ∧
      (DeadCodeEliminationPass.run exDeadPool).1.nodes.map (fun n => (n.id, n.type))
        = [(0, .INPUT), (1, .CONV2D), (2, .RELU), (4, .OUTPUT)] ∧
      (DeadCodeEliminationPass.run exDeadPool).1.nodes.map (fun n => (n.inputs, n.outputs))
        = [([], [0]), ([0], [1]), ([1], [2]), ([2], [3])] ∧
      (DeadCodeEliminationPass.run exDeadPool).2 = true := by
  decide

theorem feeds_lt (g : Graph) (p q : Nat) (h : g.feeds p q = true) : p < g.nodes.length := by
  unfold Graph.feeds at h
  cases hp : g.nodes[p]? with
  | none => simp [hp] at h
  | some node => exact (List.getElem?_eq_some.1 hp).1

theorem mem_outputNodes (g : Graph) (p : Nat) :
    p ∈ g.outputNodes ↔ g.kindOf p = some .OUTPUT := by
  unfold Graph.outputNodes
  rw [List.mem_filter, List.mem_range, decide_eq_true_eq]
  constructor
  · exact fun h => h.2
  · intro h
    refine ⟨?_, h⟩
    unfold Graph.kindOf at h
    cases hp : g.nodes[p]? with
    | none => simp [hp] at h
    | some node => exact (List.getElem?_eq_some.1 hp).1

theorem mem_reachStep (g : Graph) (reached : List Nat) (p : Nat) :
    p ∈ DeadCodeEliminationPass.reachStep g reached ↔
      p < g.nodes.length ∧ (p ∈ reached ∨ ∃ q ∈ reached, g.feeds p q = true) := by
  unfold DeadCodeEliminationPass.reachStep
  simp [List.mem_filter]

/-- A round of the reachability reads only which nodes are reached. -/
theorem reachStep_congr (g : Graph) (r1 r2 : List Nat) (h : ∀ p, p ∈ r1 ↔ p ∈ r2) :
    DeadCodeEliminationPass.reachStep g r1 = DeadCodeEliminationPass.reachStep g r2 := by
  unfold DeadCodeEliminationPass.reachStep
  apply List.filter_congr
  intro p _
  have h1 : decide (p ∈ r1) = decide (p ∈ r2) := by simp [h p]
  have h2 : r1.any (fun q => g.feeds p q) = r2.any (fun q => g.feeds p q) := by
    rw [Bool.eq_iff_iff, List.any_eq_true, List.any_eq_true]
    constructor
    · rintro ⟨q, hq, hf⟩; exact ⟨q, (h q).1 hq, hf⟩
    · rintro ⟨q, hq, hf⟩; exact ⟨q, (h q).2 hq, hf⟩
  rw [h1, h2]

theorem reachIter_nodup (g : Graph) (k : Nat) :
    (DeadCodeEliminationPass.reachIter g k).Nodup := by
  cases k with
  | zero => exact (List.nodup_range _).filter _
  | succ k => exact (List.nodup_range _).filter _

theorem reachIter_lt (g : Graph) (k : Nat) (p : Nat)
    (h : p ∈ DeadCodeEliminationPass.reachIter g k) : p < g.nodes.length := by
  cases k with
  | zero => exact List.mem_range.1 (List.mem_filter.1 h).1
  | succ k => exact List.mem_range.1 (List.mem_filter.1 h).1

theorem reachIter_length_le (g : Graph) (k : Nat) :
    (DeadCodeEliminationPass.reachIter g k).length ≤ g.nodes.length := by
  have hsub : DeadCodeEliminationPass.reachIter g k ⊆ List.range g.nodes.length :=
    fun p hp => List.mem_range.2 (reachIter_lt g k p hp)
  have := (List.subperm_of_subset (reachIter_nodup g k) hsub).length_le
  simpa using this

/-- The rounds only add nodes. -/
theorem reachIter_mono (g : Graph) (k : Nat) (p : Nat)
    (h : p ∈ DeadCodeEliminationPass.reachIter g k) :
    p ∈ DeadCodeEliminationPass.reachIter g (k + 1) := by
  rw [DeadCodeEliminationPass.reachIter, mem_reachStep]
  exact ⟨reachIter_lt g k p h, Or.inl h⟩

theorem reachIter_mono_le (g : Graph) (j k : Nat) (hjk : j ≤ k) (p : Nat)
    (h : p ∈ DeadCodeEliminationPass.reachIter g j) :
    p ∈ DeadCodeEliminationPass.reachIter g k := by
  induction k with
  | zero =>
    have : j = 0 := by omega
    rw [this] at h
    exact h
  | succ k ih =>
    by_cases hj : j = k + 1
    · rw [hj] at h; exact h
    · exact reachIter_mono g k p (ih (by omega))

/-- Every node that the rounds reach is reachable backward from an OUTPUT node. -/
theorem reachIter_sound (g : Graph) (k : Nat) :
    ∀ p : Nat, p ∈ DeadCodeEliminationPass.reachIter g k → g.ReachableBack p := by
  induction k with
  | zero =>
    intro p hp
    exact Graph.ReachableBack.output p ((mem_outputNodes g p).1 hp)
  | succ k ih =>
    intro p hp
    rw [DeadCodeEliminationPass.reachIter, mem_reachStep] at hp
    rcases hp.2 with h | ⟨q, hq, hf⟩
    · exact ih p h
    · exact Graph.ReachableBack.producer p q (ih q hq) hf

/-- A round that adds nothing is followed by rounds that add nothing. -/
theorem reachIter_closed_succ (g : Graph) (k : Nat)
    (h : ∀ p : Nat, p ∈ DeadCodeEliminationPass.reachIter g (k + 1) →
      p ∈ DeadCodeEliminationPass.reachIter g k) :
    ∀ p : Nat, p ∈ DeadCodeEliminationPass.reachIter g (k + 2) →
      p ∈ DeadCodeEliminationPass.reachIter g (k + 1) := by
  intro p hp
  have heq : DeadCodeEliminationPass.reachIter g (k + 2)
      = DeadCodeEliminationPass.reachIter g (k + 1) := by
    rw [DeadCodeEliminationPass.reachIter]
    conv_rhs => rw [DeadCodeEliminationPass.reachIter]
    exact reachStep_congr g _ _ (fun x => ⟨h x, reachIter_mono g k x⟩)
  rw [heq] at hp
  exact hp

/-- Until a round adds nothing, every round adds a node. -/
theorem reachIter_grows (g : Graph) (k : Nat) :
    (∃ j : Nat, j < k ∧ ∀ p : Nat, p ∈ DeadCodeEliminationPass.reachIter g (j + 1) →
        p ∈ DeadCodeEliminationPass.reachIter g j) ∨
      k ≤ (DeadCodeEliminationPass.reachIter g k).length := by
  induction k with
  | zero => exact Or.inr (Nat.zero_le _)
  | succ k ih =>
    rcases ih with ⟨j, hj, hc⟩ | hlen
    · exact Or.inl ⟨j, by omega, hc⟩
    · by_cases hc : ∀ p : Nat, p ∈ DeadCodeEliminationPass.reachIter g (k + 1) →
          p ∈ DeadCodeEliminationPass.reachIter g k
      · exact Or.inl ⟨k, by omega, hc⟩
      · right
        by_contra hlt
        have hsub : DeadCodeEliminationPass.reachIter g k
            ⊆ DeadCodeEliminationPass.reachIter g (k + 1) :=
          fun p hp => reachIter_mono g k p hp
        have hperm := (List.subperm_of_subset (reachIter_nodup g k) hsub).perm_of_length_le
          (by omega)
        exact hc (fun p hp => hperm.mem_iff.2 hp)

/-- After as many rounds as the graph has nodes, a further round adds nothing. -/
theorem reached_closed (g : Graph) (p : Nat)
    (h : p ∈ DeadCodeEliminationPass.reachStep g (DeadCodeEliminationPass.reached g)) :
    p ∈ DeadCodeEliminationPass.reached g := by
  have hstable : ∀ (j d : Nat), (∀ x : Nat, x ∈ DeadCodeEliminationPass.reachIter g (j + 1) →
      x ∈ DeadCodeEliminationPass.reachIter g j) →
      ∀ x : Nat, x ∈ DeadCodeEliminationPass.reachIter g (j + d + 1) →
        x ∈ DeadCodeEliminationPass.reachIter g (j + d) := by
    intro j d hj
    induction d with
    | zero => exact hj
    | succ d ih => exact reachIter_closed_succ g (j + d) ih
  rcases reachIter_grows g (g.nodes.length + 1) with ⟨j, hj, hc⟩ | hlen
  · have := hstable j (g.nodes.length - j) hc p
    have e : j + (g.nodes.length - j) = g.nodes.length := by omega
    rw [e] at this
    exact this h
  · have := reachIter_length_le g (g.nodes.length + 1)
    omega

/-- Every node reachable backward from an OUTPUT node is reached by the pass. -/
theorem reached_complete (g : Graph) (p : Nat) (h : g.ReachableBack p) :
    p ∈ DeadCodeEliminationPass.reached g := by
  induction h with
  | output p hp =>
    exact reachIter_mono_le g 0 g.nodes.length (Nat.zero_le _) p ((mem_outputNodes g p).2 hp)
  | producer p q _ hf ih =>
    apply reached_closed
    rw [mem_reachStep]
    exact ⟨feeds_lt g p q hf, Or.inr ⟨q, ih, hf⟩⟩

/-- The pass reaches exactly the nodes reachable backward from an OUTPUT node. -/
theorem mem_reached (g : Graph) (p : Nat) :
    p ∈ DeadCodeEliminationPass.reached g ↔ g.ReachableBack p :=
  ⟨reachIter_sound g _ p, reached_complete g p⟩

theorem filterMap_of_all_some {α β : Type} (F : α → Option β) (l : List α)
    (h : ∀ x ∈ l, ∃ y, F x = some y) :
    (l.filterMap F).length = l.length ∧
      ∀ (q : Nat) (x : α), l[q]? = some x → (l.filterMap F)[q]? = F x := by
  induction l with
  | nil => exact ⟨rfl, fun q x hq => by simp at hq⟩
  | cons a l ih =>
    obtain ⟨y, hy⟩ := h a (List.mem_cons_self _ _)
    obtain ⟨ih1, ih2⟩ := ih (fun x hx => h x (List.mem_cons_of_mem _ hx))
    rw [List.filterMap_cons, hy]
    refine ⟨by simp [ih1], ?_⟩
    intro q x hq
    cases q with
    | zero =>
      simp only [List.getElem?_cons_zero, Option.some.injEq] at hq ⊢
      rw [← hq, hy]
    | succ q =>
      simp only [List.getElem?_cons_succ] at hq ⊢
      exact ih2 q x hq

theorem mem_retained (g : Graph) (p : Nat) :
    p ∈ DeadCodeEliminationPass.retained g ↔
      p < g.nodes.length ∧ (g.isTerminal p = true ∨ g.ReachableBack p) := by
  unfold DeadCodeEliminationPass.retained
  rw [List.mem_filter, List.mem_range, Bool.or_eq_true, decide_eq_true_eq, mem_reached]

theorem isTerminal_iff (g : Graph) (p : Nat) (node : Node) (hp : g.nodes[p]? = some node) :
    g.isTerminal p = true ↔ node.type = .INPUT ∨ node.type = .OUTPUT := by
  unfold Graph.isTerminal
  rw [hp]
  simp

/-- C21: for any graph, after `DeadCodeEliminationPass.run` (modelled from the specification)
the node table holds exactly the retained nodes, in their order, each with its id, kind and
attributes; every INPUT node, every OUTPUT node and every node reachable backward from an
OUTPUT node is retained; and a node that is neither INPUT nor OUTPUT is retained if and only
if it is reachable backward from some OUTPUT node. -/
theorem C21_dce_keeps_reachable (g : Graph) :
    (DeadCodeEliminationPass.run g).1.nodes.length
        = (DeadCodeEliminationPass.retained g).length ∧
      (∀ (q p : Nat), (DeadCodeEliminationPass.retained g)[q]? = some p →
        ∃ (node node2 : Node), g.nodes[p]? = some node ∧
          (DeadCodeEliminationPass.run g).1.nodes[q]? = some node2 ∧
          node2.id = node.id ∧ node2.type = node.type ∧ node2.int_attrs = node.int_attrs) ∧
      (DeadCodeEliminationPass.retained g).Nodup ∧
      (∀ (p : Nat) (node : Node), g.nodes[p]? = some node →
        (node.type = .INPUT ∨ node.type = .OUTPUT ∨ g.ReachableBack p) →
        p ∈ DeadCodeEliminationPass.retained g) ∧
      (∀ (p : Nat) (node : Node), g.nodes[p]? = some node →
        node.type ≠ .INPUT → node.type ≠ .OUTPUT →
        (p ∈ DeadCodeEliminationPass.retained g ↔ g.ReachableBack p)) := by
  have hsome : ∀ x ∈ DeadCodeEliminationPass.retained g,
      ∃ y, (g.nodes[x]?).map (DeadCodeEliminationPass.relocate g) = some y := by
    intro x hx
    have hlt := ((mem_retained g x).1 hx).1
    exact ⟨DeadCodeEliminationPass.relocate g g.nodes[x], by
      rw [List.getElem?_eq_getElem hlt]; rfl⟩
  obtain ⟨hlen, hget⟩ := filterMap_of_all_some
    (fun p => (g.nodes[p]?).map (DeadCodeEliminationPass.relocate g))
    (DeadCodeEliminationPass.retained g) hsome
  refine ⟨hlen, ?_, (List.nodup_range _).filter _, ?_, ?_⟩
  · intro q p hq
    have hmem : p ∈ DeadCodeEliminationPass.retained g := by
      obtain ⟨hlt, heq⟩ := List.getElem?_eq_some.1 hq
      rw [← heq]
      exact List.getElem_mem _
    have hlt := ((mem_retained g p).1 hmem).1
    refine ⟨g.nodes[p], DeadCodeEliminationPass.relocate g g.nodes[p],
      List.getElem?_eq_getElem hlt, ?_, rfl, rfl, rfl⟩
    have := hget q p hq
    rw [List.getElem?_eq_getElem hlt] at this
    exact this
  · intro p node hp h
    have hlt : p < g.nodes.length := (List.getElem?_eq_some.1 hp).1
    rw [mem_retained]
    refine ⟨hlt, ?_⟩
    rcases h with h | h | h
    · exact Or.inl ((isTerminal_iff g p node hp).2 (Or.inl h))
    · exact Or.inl ((isTerminal_iff g p node hp).2 (Or.inr h))
    · exact Or.inr h
  · intro p node hp h1 h2
    have hlt : p < g.nodes.length := (List.getElem?_eq_some.1 hp).1
    rw [mem_retained]
    constructor
    · rintro ⟨_, h | h⟩
      · rcases (isTerminal_iff g p node hp).1 h with h | h
        · exact absurd h h1
        · exact absurd h h2
      · exact h
    · exact fun h => ⟨hlt, Or.inr h⟩

/-- The two wordings of the specification agree: a node that is not an OUTPUT node is
reachable backward from an OUTPUT node iff one of its output values has a consumer that is
reachable backward from an OUTPUT node. -/
theorem reachableBack_iff_consumed (g : Graph) (p : Nat) (node : Node)
    (hp : g.nodes[p]? = some node) (hno : node.type ≠ .OUTPUT) :
    g.ReachableBack p ↔
      ∃ v ∈ node.outputs, ∃ (q : Nat) (consumer : Node), g.ReachableBack q ∧
        g.nodes[q]? = some consumer ∧ v ∈ consumer.inputs := by
  constructor
  · intro h
    cases h with
    | output _ hk =>
      unfold Graph.kindOf at hk
      rw [hp] at hk
      simp only [Option.map_some', Option.some.injEq] at hk
      exact absurd hk hno
    | producer _ q hq hf =>
      unfold Graph.feeds at hf
      rw [hp] at hf
      cases hc : g.nodes[q]? with
      | none => simp [hc] at hf
      | some consumer =>
        simp only [hc, List.any_eq_true, decide_eq_true_eq] at hf
        obtain ⟨v, hv, hin⟩ := hf
        exact ⟨v, hv, q, consumer, hq, hc, hin⟩
  · rintro ⟨v, hv, q, consumer, hq, hc, hin⟩
    refine Graph.ReachableBack.producer p q hq ?_
    unfold Graph.feeds
    rw [hp, hc]
    simp only [List.any_eq_true, decide_eq_true_eq]
    exact ⟨v, hv, hin⟩

/-! ## C9 and C12 in binary64 arithmetic -/

theorem roundBinary64_10 :
    roundBinary64 10
      = 10 := by
  have h := roundBinary64_eval 10 1
    5629499534213120 (-49)
    (by decide) (by decide) (by decide) (by decide) (by decide)
  norm_num at h ⊢
  exact h

theorem roundBinary64_11 :
    roundBinary64 11
      = 11 := by
  have h := roundBinary64_eval 11 1
    6192449487634432 (-49)
    (by decide) (by decide) (by decide) (by decide) (by decide)
  norm_num at h ⊢
  exact h

theorem roundBinary64_1000 :
    roundBinary64 1000
      = 1000 := by
  have h := roundBinary64_eval 1000 1
    8796093022208000 (-43)
    (by decide) (by decide) (by decide) (by decide) (by decide)
  norm_num at h ⊢
  exact h

theorem roundBinary64_100_11 :
    roundBinary64 (100 / 11)
      = 5117726849284655 / 562949953421312 := by
  have h := roundBinary64_eval 100 11
    5117726849284655 (-49)
    (by decide) (by decide) (by decide) (by decide) (by decide)
  norm_num at h ⊢
  exact h

theorem roundBinary64_1000_11 :
    roundBinary64 (1000 / 11)
      = 3198579280802909 / 35184372088832 := by
  have h := roundBinary64_eval 1000 11
    6397158561605818 (-46)
    (by decide) (by decide) (by decide) (by decide) (by decide)
  norm_num at h ⊢
  exact h

/-- The costs of the two instructions of `exTinyTrace` on the configuration `high_end`, for
every rounding: 1 cycle for the computation without flops, 10 cycles for the load of zero
bytes, a hit. -/
theorem costed_tiny {rnd : ℚ → ℚ} (hr : IsRounding rnd) :
    Simulator.costed rnd (Simulator.new exHighEnd).executeInit exTinyTrace
      = [(exComputeZero, 1), (loadOf 0, 10)] := by
  have h1 : (Simulator.executeSwitch rnd (Simulator.new exHighEnd).executeInit
      exComputeZero).1 = 1 :=
    simulateCompute_zero hr _
  have h2 : (Simulator.executeSwitch rnd
      (Simulator.executeStep rnd (Simulator.new exHighEnd).executeInit exComputeZero)
      (loadOf 0)).1 = 10 := by
    rw [executeSwitch_load rnd _ (loadOf 0) rfl,
      executeStep_not_load rnd _ exComputeZero (by decide), if_pos (by decide)]
  simp only [exTinyTrace, Simulator.costed, h1, h2]

/-- C12, witness: on the configuration `high_end` of `main.cpp`, in binary64 arithmetic, a
computation without flops (1 cycle) and a load of zero bytes (a hit, 10 cycles) give the
percentages `5117726849284655 / 2 ^ 49` and `3198579280802909 / 2 ^ 45`, the doubles nearest
to `100 / 11` and `1000 / 11`. -/
theorem C12_utilization_witness :
    (Simulator.new exHighEnd).config.Positive ∧
      (Simulator.new exHighEnd).computeCost roundBinary64 exTinyTrace = 1 ∧
      (Simulator.new exHighEnd).memoryCost roundBinary64 exTinyTrace = 10 ∧
      ((Simulator.new exHighEnd).execute roundBinary64 exTinyTrace).1.compute_utilization
        = 5117726849284655 / 562949953421312 ∧
      ((Simulator.new exHighEnd).execute roundBinary64 exTinyTrace).1.memory_bound_time
        = 3198579280802909 / 35184372088832 := by
  have hpos : (Simulator.new exHighEnd).config.Positive := by
    simp [Simulator.new, exHighEnd, ChipConfig.Positive]
  have hcc : (Simulator.new exHighEnd).computeCost roundBinary64 exTinyTrace = 1 := by
    unfold Simulator.computeCost
    rw [costed_tiny isRounding_roundBinary64]
    simp [sumCosts, exComputeZero, loadOf]
  have hmc : (Simulator.new exHighEnd).memoryCost roundBinary64 exTinyTrace = 10 := by
    unfold Simulator.memoryCost
    rw [costed_tiny isRounding_roundBinary64]
    simp [sumCosts, exComputeZero, loadOf]
  have h := (C12_utilization roundBinary64 (Simulator.new exHighEnd) hpos exTinyTrace).2.2.1
    (by rw [hcc, hmc]; decide)
  rw [hcc, hmc] at h
  refine ⟨hpos, hcc, hmc, ?_, ?_⟩
  · rw [h.1]
    norm_num [roundBinary64_one, roundBinary64_hundred, roundBinary64_11,
      roundBinary64_100_11]
  · rw [h.2]
    norm_num [roundBinary64_10, roundBinary64_1000, roundBinary64_11,
      roundBinary64_1000_11]

end dlcompiler
